import Mathlib

/-!
Loop fusion pass (Assignment 4, LoopFusion.cpp): embedding and properties.
The peephole pass of Assignment 1 (LocalOpts.cpp) follows in the namespace
`LocalOpts`; the definitions of both passes come first, then the theorems.

The pass works on LLVM IR through pointers.  The embedding keeps the pointer
graph: an instruction, a basic block and a loop are addresses (natural
numbers), and a `Function` maps addresses to the objects they point to.  The
answers of the host compiler (loop model, dominator trees, scalar evolution)
are inputs.  Undefined behaviour (a null dereference, an access out of range)
and a call that does not return make a function return `none`; assertions
that exist only in builds with assertions are not modelled.  Diagnostic text
written to the output stream is not modelled, except for the driver's one
line per fused pair.
-/

namespace LoopFusion

/-- Address of an `llvm::Instruction`. -/
abbrev InstId := Nat

/-- Address of an `llvm::BasicBlock`. -/
abbrev BlockId := Nat

/-- Address of an `llvm::Loop`. -/
abbrev LoopPtr := Nat

/-- Instruction opcodes of LLVM (Instruction.def). -/
inductive Opcode where
  | Ret | Br | Switch | IndirectBr | Invoke | Resume | Unreachable
  | CleanupRet | CatchRet | CatchSwitch | CallBr
  | FNeg
  | Add | FAdd | Sub | FSub | Mul | FMul | UDiv | SDiv | FDiv
  | URem | SRem | FRem | Shl | LShr | AShr | And | Or | Xor
  | Alloca | Load | Store | GetElementPtr | Fence | AtomicCmpXchg | AtomicRMW
  | Trunc | ZExt | SExt | FPToUI | FPToSI | UIToFP | SIToFP | FPTrunc | FPExt
  | PtrToInt | IntToPtr | BitCast | AddrSpaceCast
  | CleanupPad | CatchPad | ICmp | FCmp | PHI | Call | Select
  | UserOp1 | UserOp2 | VAArg | ExtractElement | InsertElement | ShuffleVector
  | ExtractValue | InsertValue | LandingPad | Freeze
deriving DecidableEq, Inhabited

/-- Opcodes of terminator instructions (`Instruction::isTerminator`). -/
def Opcode.isTerminator : Opcode → Bool
  | .Ret | .Br | .Switch | .IndirectBr | .Invoke | .Resume | .Unreachable
  | .CleanupRet | .CatchRet | .CatchSwitch | .CallBr => true
  | _ => false

/-- An `llvm::Value*`: the null pointer, an instruction, or a value that is
not an instruction (function argument, constant, global variable, basic
block). -/
inductive Value where
  | null
  | instruction (i : InstId)
  | argument (n : Nat)
  | constant (c : Int)
  | global (n : Nat)
  | basicBlock (b : BlockId)
deriving DecidableEq, Inhabited

/-- An instruction object.  `ty` stands for the result type and `special` for
the state `isIdenticalTo` compares besides opcode, type and operands
(predicate, flags, incoming blocks of a phi). -/
structure Instruction where
  opcode : Opcode
  operands : List Value
  parent : BlockId
  ty : Nat
  special : Nat
deriving DecidableEq, Inhabited

/-- Operand `n` of an instruction (`User::getOperand`); `none` when `n` is out
of range, which LLVM forbids. -/
def Instruction.getOperand (I : Instruction) (n : Nat) : Option Value :=
  I.operands.get? n

/-- A basic block: its instruction list, in order. -/
structure BasicBlock where
  insts : List InstId
deriving DecidableEq, Inhabited

/-- The IR of one function: the objects behind instruction and block
addresses, the blocks of the function in layout order, the operand lists of
the constant expressions (users that are not instructions), and the next free
instruction address. -/
structure Function where
  inst : InstId → Instruction
  block : BlockId → BasicBlock
  layout : List BlockId
  constantUsers : List (List Value)
  nextInst : InstId

/-- The user of a use (`Use::getUser`): an instruction or a constant
expression. -/
inductive User where
  | instruction (i : InstId)
  | constantExpr (k : Nat)
deriving DecidableEq, Inhabited

/-- One entry per operand of `ops` that is `v`. -/
def occurrences (v : Value) (ops : List Value) (u : User) : List User :=
  (ops.filter (fun o => o == v)).map (fun _ => u)

/-- The use list of a value (`Value::uses`), as the users of its uses: every
operand slot of an instruction of the function, or of a constant expression,
that holds `v`.  Users in other functions are left out: the pass keeps only
users whose block is a block of a loop of this function. -/
def Function.uses (F : Function) (v : Value) : List User :=
  (F.layout.flatMap fun b =>
    (F.block b).insts.flatMap fun i =>
      occurrences v (F.inst i).operands (User.instruction i))
  ++ (F.constantUsers.enum.flatMap fun kc =>
      occurrences v kc.2 (User.constantExpr kc.1))

/-- What the loop model of the host answers for one `llvm::Loop*`.  The block
list is `header :: others` (`getBlocks`, whose front is `getHeader`); a field
of type `Option` is a pointer that may be null. -/
structure Loop where
  header : BlockId
  others : List BlockId
  getLoopGuardBranch : Option InstId
  getExitBlock : Option BlockId
  getLoopPreheader : Option BlockId
  getLoopLatch : Option BlockId
  getUniqueExitBlock : Option BlockId
  getCanonicalInductionVariable : Option InstId
deriving DecidableEq, Inhabited

/-- Blocks of the loop (`Loop::getBlocks`). -/
def Loop.getBlocks (L : Loop) : List BlockId := L.header :: L.others

/-- Header of the loop (`Loop::getHeader`). -/
def Loop.getHeader (L : Loop) : BlockId := L.header

/-- A loop is guarded when it has a guard branch (`Loop::isGuarded`). -/
def Loop.isGuarded (L : Loop) : Bool := L.getLoopGuardBranch.isSome

/-- Membership of an instruction in a loop (`Loop::contains(Instruction*)`):
the parent block of the instruction is a block of the loop. -/
def Loop.contains (L : Loop) (F : Function) (i : InstId) : Bool :=
  L.getBlocks.contains (F.inst i).parent

/-- Sequential loop over a list with a state, stopping at the first failure. -/
def forEachM {σ α : Type} (f : σ → α → Option σ) : σ → List α → Option σ
  | s, [] => some s
  | s, a :: as =>
    match f s a with
    | none => none
    | some s2 => forEachM f s2 as

/-- Insertion in a `std::set` kept as a list sorted by `lt`: an element
equivalent to one of the set is not inserted. -/
def setInsert {α : Type} (lt : α → α → Bool) (x : α) : List α → List α
  | [] => [x]
  | y :: ys =>
    if lt x y then x :: y :: ys
    else if lt y x then y :: setInsert lt x ys
    else y :: ys

/-- Order of `std::set<llvm::Instruction*>`: by address. -/
def instLt (a b : InstId) : Bool := decide (a < b)

/-- Lines 116 to 124 of `negDependencies`: `inst2` is the instruction that is
operand 1 of the user; its operand 0, when an instruction, is recorded unless
its opcode is PHI or Sub. -/
def negDependenciesOffset (F : Function) (depInst : List InstId) (inst2 : InstId) :
    Option (List InstId) :=
  match (F.inst inst2).getOperand 0 with
  | none => none
  | some Value.null => none
  | some (Value.instruction PHIinst) =>
    match (F.inst PHIinst).opcode with
    | Opcode.PHI => some depInst
    | Opcode.Sub => some depInst
    | _ => some (setInsert instLt PHIinst depInst)
  | some _ => some depInst

/-- Lines 110 to 126 of `negDependencies`: one use of the array. -/
def negDependenciesUse (F : Function) (L2 : Loop) (depInst : List InstId) (user : User) :
    Option (List InstId) :=
  match user with
  | User.instruction inst =>
    if L2.contains F inst then
      match (F.inst inst).getOperand 1 with
      | none => none
      | some Value.null => none
      | some (Value.instruction inst2) => negDependenciesOffset F depInst inst2
      | some _ => some depInst
    else some depInst
  | User.constantExpr _ => some depInst

/-- Lines 103 to 129 of `negDependencies`: one instruction of the first
loop. -/
def negDependenciesInst (F : Function) (L2 : Loop) (depInst : List InstId) (I : InstId) :
    Option (List InstId) :=
  if (F.inst I).opcode = Opcode.GetElementPtr then
    match (F.inst I).getOperand 0 with
    | none => none
    | some Value.null => none
    | some A => forEachM (negDependenciesUse F L2) depInst (F.uses A)
  else some depInst

/-- Lines 100 to 131 of `negDependencies`: the set `depInst` after the scan of
the blocks of the first loop. -/
def negDependenciesSet (F : Function) (L1 L2 : Loop) : Option (List InstId) :=
  forEachM (fun depInst BB => forEachM (negDependenciesInst F L2) depInst (F.block BB).insts)
    [] L1.getBlocks

/-- The function `negDependencies`: false when a violation was recorded. -/
def negDependencies (F : Function) (L1 L2 : Loop) : Option Bool :=
  match negDependenciesSet F L1 L2 with
  | none => none
  | some depInst => if !depInst.isEmpty then some false else some true


/-! ## Control flow graph queries and edits (LLVM API used by the pass) -/

/-- A block pointer that may be null, as a value. -/
def blockValue : Option BlockId → Value
  | none => Value.null
  | some b => Value.basicBlock b

/-- An instruction pointer that may be null, as a value. -/
def instValue : Option InstId → Value
  | none => Value.null
  | some i => Value.instruction i

/-- Operand positions that hold the successors of a terminator, in successor
order.  A branch stores them from the end: `br c, T, F` has operands
`[c, F, T]` and `br D` has `[D]`.  Other terminators list their successor
blocks in operand order. -/
def Instruction.successorPositions (I : Instruction) : List Nat :=
  match I.opcode with
  | Opcode.Br =>
    if I.operands.length = 3 then [2, 1]
    else if I.operands.length = 1 then [0]
    else []
  | _ =>
    (I.operands.enum.filter fun kv =>
      match kv.2 with
      | Value.basicBlock _ => true
      | _ => false).map Prod.fst

/-- Successors of a terminator (`Instruction::getSuccessor`), in order. -/
def Instruction.successors (I : Instruction) : List Value :=
  I.successorPositions.filterMap fun k => I.operands.get? k

/-- Condition of a conditional branch (`BranchInst::getCondition`): operand 0
of a branch with three operands. -/
def Instruction.getCondition (I : Instruction) : Option Value :=
  if I.operands.length = 3 then I.operands.get? 0 else none

/-- Comparison `Instruction::isIdenticalTo`: same opcode, type, operands and
special state. -/
def Instruction.isIdenticalTo (I J : Instruction) : Bool :=
  decide (I.opcode = J.opcode) && decide (I.ty = J.ty) &&
    decide (I.operands = J.operands) && decide (I.special = J.special)

/-- Last instruction of a block (`BasicBlock::back`); `none` on an empty
block. -/
def Function.back (F : Function) (b : BlockId) : Option InstId :=
  (F.block b).insts.getLast?

/-- First instruction of a block (`BasicBlock::front`); `none` on an empty
block. -/
def Function.front (F : Function) (b : BlockId) : Option InstId :=
  (F.block b).insts.head?

/-- Terminator of a block (`BasicBlock::getTerminator`): its last instruction
when that is a terminator, else null. -/
def Function.getTerminator (F : Function) (b : BlockId) : Option InstId :=
  match F.back b with
  | none => none
  | some t => if (F.inst t).opcode.isTerminator then some t else none

/-- Successors of a block: those of its terminator. -/
def Function.successors (F : Function) (b : BlockId) : List Value :=
  match F.getTerminator b with
  | none => []
  | some t => (F.inst t).successors

/-- The successor of a block that has exactly one outgoing edge
(`BasicBlock::getSingleSuccessor`), else null. -/
def Function.getSingleSuccessor (F : Function) (b : BlockId) : Option BlockId :=
  match F.successors b with
  | [Value.basicBlock s] => some s
  | _ => none

/-- Replacement of the object at address `i`. -/
def Function.setInst (F : Function) (i : InstId) (I : Instruction) : Function :=
  { F with inst := fun j => if j = i then I else F.inst j }

/-- Replacement of the instruction list of block `b`. -/
def Function.setBlock (F : Function) (b : BlockId) (l : List InstId) : Function :=
  { F with block := fun c => if c = b then ⟨l⟩ else F.block c }

/-- Edit `Instruction::setSuccessor(idx, B)`: the operand that holds
successor `idx` becomes `B`; `none` when the terminator has no successor
`idx`. -/
def Function.setSuccessor (F : Function) (t : InstId) (idx : Nat) (B : Value) :
    Option Function :=
  match (F.inst t).successorPositions.get? idx with
  | none => none
  | some k => some (F.setInst t { F.inst t with operands := (F.inst t).operands.set k B })

/-- Edit `Value::replaceAllUsesWith` on instruction `old`: every operand that
is `old` becomes `new`.  Replacing a value by itself is `none` (LLVM does not
return from it). -/
def Function.replaceAllUsesWith (F : Function) (old : InstId) (new : Value) :
    Option Function :=
  if new = Value.instruction old then none
  else some { F with inst := fun j =>
    { F.inst j with operands :=
        (F.inst j).operands.map (fun o => if o = Value.instruction old then new else o) } }

/-- Insertion of `x` right before the first occurrence of `y`. -/
def insertBeforeIn (x y : InstId) : List InstId → List InstId
  | [] => []
  | z :: zs => if z = y then x :: z :: zs else z :: insertBeforeIn x y zs

/-- Creation of a branch with the given operands, inserted before instruction
`before` in its block (`BranchInst::Create(..., InsertBefore)`); the new
instruction gets the next free address. -/
def Function.createBranchBefore (F : Function) (ops : List Value) (before : InstId) :
    Function :=
  let b := (F.inst before).parent
  let id := F.nextInst
  { inst := fun j => if j = id then ⟨Opcode.Br, ops, b, 0, 0⟩ else F.inst j
    block := fun c => if c = b then ⟨insertBeforeIn id before (F.block b).insts⟩ else F.block c
    layout := F.layout
    constantUsers := F.constantUsers
    nextInst := id + 1 }

/-- Edit `Instruction::eraseFromParent`: the instruction leaves the list of
its block. -/
def Function.eraseFromParent (F : Function) (i : InstId) : Function :=
  let b := (F.inst i).parent
  F.setBlock b ((F.block b).insts.erase i)

/-- The two statements `BranchInst::Create(ops..., B->getTerminator());
B->getTerminator()->eraseFromParent();`: the terminator of block `B` is
replaced by a new branch.  Without a terminator the new branch is inserted
nowhere and the second statement dereferences null. -/
def Function.replaceTerminator (F : Function) (B : BlockId) (ops : List Value) :
    Option Function :=
  match F.getTerminator B with
  | none => none
  | some t =>
    let F2 := F.createBranchBefore ops t
    match F2.getTerminator B with
    | none => none
    | some t2 => some (F2.eraseFromParent t2)

/-! ## The pass -/

/-- Order of `std::pair<Loop*, Loop*>` in the `std::set`: lexicographic on the
addresses. -/
def pairLt (a b : LoopPtr × LoopPtr) : Bool :=
  decide (a.1 < b.1) || (!decide (b.1 < a.1) && decide (a.2 < b.2))

/-- The function `pair`: insertion of `(L1, L2)` in the set. -/
def pair (L1 L2 : LoopPtr) (set : List (LoopPtr × LoopPtr)) : List (LoopPtr × LoopPtr) :=
  setInsert pairLt (L1, L2) set

/-- The analysis `llvm::LoopInfo`: the top level loops in iteration order, and
the loop behind each pointer. -/
structure LoopInfo where
  topLevel : List LoopPtr
  loop : LoopPtr → Loop

/-- Body of the two nested loops of `adjLoops` (lines 22 to 35). -/
def adjLoopsPair (F : Function) (LI : LoopInfo) (L1 : LoopPtr)
    (adjacentLoops : List (LoopPtr × LoopPtr)) (L2 : LoopPtr) :
    Option (List (LoopPtr × LoopPtr)) :=
  if (LI.loop L1).isGuarded && (LI.loop L2).isGuarded then
    match (LI.loop L1).getExitBlock with
    | none => none
    | some exitBlock =>
      match (LI.loop L2).getLoopGuardBranch with
      | none => none
      | some guardBranch =>
        if F.getSingleSuccessor exitBlock = some (F.inst guardBranch).parent then
          some (pair L1 L2 adjacentLoops)
        else some adjacentLoops
  else
    if (LI.loop L1).getExitBlock = (LI.loop L2).getLoopPreheader then
      some (pair L1 L2 adjacentLoops)
    else some adjacentLoops

/-- The function `adjLoops`: every ordered pair of top level loops is
examined. -/
def adjLoops (F : Function) (adjacentLoops : List (LoopPtr × LoopPtr)) (LI : LoopInfo) :
    Option (List (LoopPtr × LoopPtr)) :=
  forEachM (fun set L1 => forEachM (adjLoopsPair F LI L1) set LI.topLevel)
    adjacentLoops LI.topLevel

/-- Lines 45 to 49 of `checkEquivalence`: `some true` when the function
returns 0 there, that is when both guard conditions are instructions and they
are not identical. -/
def guardConditionsDiffer (F : Function) (L1 L2 : Loop) : Option Bool :=
  match L1.getLoopGuardBranch with
  | none => some false
  | some guard1 =>
    match (F.inst guard1).getCondition with
    | none => none
    | some Value.null => none
    | some (Value.instruction FC0CmpInst) =>
      match L2.getLoopGuardBranch with
      | none => none
      | some guard2 =>
        match (F.inst guard2).getCondition with
        | none => none
        | some Value.null => none
        | some (Value.instruction FC1CmpInst) =>
          some (!(F.inst FC0CmpInst).isIdenticalTo (F.inst FC1CmpInst))
        | some _ => some false
    | some _ => some false

/-- Lines 52 to 65 of `checkEquivalence`: the dominance test on the guard
blocks when the first loop is guarded, on the headers otherwise. -/
def dominancePair (F : Function) (L1 L2 : Loop) (DT PDT : BlockId → BlockId → Bool) :
    Option Bool :=
  match L1.getLoopGuardBranch with
  | some guard1 =>
    match L2.getLoopGuardBranch with
    | none => none
    | some guard2 =>
      some (DT (F.inst guard1).parent (F.inst guard2).parent &&
        PDT (F.inst guard2).parent (F.inst guard1).parent)
  | none => some (DT L1.getHeader L2.getHeader && PDT L2.getHeader L1.getHeader)

/-- The function `checkEquivalence`.  `DT a b` is `DT.dominates(a, b)` and
`PDT a b` is `PDT.dominates(a, b)`. -/
def checkEquivalence (F : Function) (L1 L2 : Loop) (DT PDT : BlockId → BlockId → Bool) :
    Option Bool :=
  match guardConditionsDiffer F L1 L2 with
  | none => none
  | some true => some false
  | some false => dominancePair F L1 L2 DT PDT

/-- Kinds of scalar evolution expressions (`SCEVTypes`). -/
inductive SCEVTypes where
  | scConstant | scVScale | scTruncate | scZeroExtend | scSignExtend
  | scAddExpr | scMulExpr | scUDivExpr | scAddRecExpr
  | scUMaxExpr | scSMaxExpr | scUMinExpr | scSMinExpr | scSequentialUMinExpr
  | scPtrToInt | scUnknown | scCouldNotCompute
deriving DecidableEq, Inhabited

/-- Address of an `llvm::SCEV`.  Expressions are unique objects, so two
expressions are the same exactly when their addresses are. -/
abbrev SCEVPtr := Nat

/-- The analysis `llvm::ScalarEvolution`, as far as the pass queries it. -/
structure ScalarEvolution where
  getBackedgeTakenCount : LoopPtr → SCEVPtr
  getSCEVType : SCEVPtr → SCEVTypes

/-- The function `TripCount`. -/
def TripCount (L1 L2 : LoopPtr) (SE : ScalarEvolution) : Bool :=
  let l1Backedges := SE.getBackedgeTakenCount L1
  let l2Backedges := SE.getBackedgeTakenCount L2
  if SE.getSCEVType l1Backedges = SCEVTypes.scCouldNotCompute ||
      SE.getSCEVType l2Backedges = SCEVTypes.scCouldNotCompute then false
  else if l1Backedges = l2Backedges then true
  else false

/-- Array view `ArrayRef::drop_back(1)`; `none` on an empty array. -/
def dropBack {α : Type} (l : List α) : Option (List α) :=
  if l.isEmpty then none else some l.dropLast

/-- Array view `ArrayRef::drop_front(1)`; `none` on an empty array. -/
def dropFront {α : Type} : List α → Option (List α)
  | [] => none
  | _ :: t => some t

/-- The statement `B->getTerminator()->setSuccessor(0, target)` for a block
pointer `B` that may be null. -/
def retarget (F : Function) (B : Option BlockId) (target : Value) : Option Function :=
  match B with
  | none => none
  | some b =>
    match F.getTerminator b with
    | none => none
    | some t => F.setSuccessor t 0 target

/-- The statements `BranchInst::Create(ifTrue, ifFalse, B->back().getOperand(0),
B->getTerminator()); B->getTerminator()->eraseFromParent();` -/
def rebranch (F : Function) (B : BlockId) (ifTrue ifFalse : Value) : Option Function :=
  match F.back B with
  | none => none
  | some last =>
    match (F.inst last).getOperand 0 with
    | none => none
    | some cond => F.replaceTerminator B [cond, ifFalse, ifTrue]

/-- Block `L->getBlocks().drop_back(1).back()`. -/
def Loop.lastButOne (L : Loop) : Option BlockId :=
  match dropBack L.getBlocks with
  | none => none
  | some l => l.getLast?

/-- Blocks `L->getBlocks().drop_front(1).drop_back(1)`. -/
def Loop.inner (L : Loop) : Option (List BlockId) :=
  match dropFront L.getBlocks with
  | none => none
  | some l => dropBack l

/-- Block `L->getBlocks().drop_front(1).drop_back(1).front()`. -/
def Loop.innerFront (L : Loop) : Option BlockId :=
  match L.inner with
  | none => none
  | some l => l.head?

/-- Block `L->getBlocks().drop_front(1).drop_back(1).back()`. -/
def Loop.innerBack (L : Loop) : Option BlockId :=
  match L.inner with
  | none => none
  | some l => l.getLast?

/-- Block `L->getBlocks().drop_front(1).front()`. -/
def Loop.second (L : Loop) : Option BlockId :=
  match dropFront L.getBlocks with
  | none => none
  | some l => l.head?

/-- Lines 171 to 185 of `loopFusion`, the unguarded shape. -/
def loopFusionUnguarded (F : Function) (L1 L2 : Loop) (header1 header2 : BlockId)
    (latch1 latch2 exit : Option BlockId) : Option Function :=
  -- lines 171 and 174
  match L1.lastButOne with
  | none => none
  | some lastL1BB =>
  match L2.innerFront with
  | none => none
  | some body2 =>
  match retarget F (some lastL1BB) (Value.basicBlock body2) with
  | none => none
  | some F1 =>
  -- line 177
  match retarget F1 L2.innerBack (blockValue latch1) with
  | none => none
  | some F2 =>
  -- lines 180 and 181
  match F2.replaceTerminator header2 [blockValue latch2] with
  | none => none
  | some F3 =>
  -- lines 184 and 185
  match L1.second with
  | none => none
  | some body1 => rebranch F3 header1 (Value.basicBlock body1) (blockValue exit)

/-- Lines 195 to 212 of `loopFusion`, the guarded shape. -/
def loopFusionGuarded (F : Function) (L1 L2 : Loop) (header2 : BlockId)
    (latch1 exit : Option BlockId) : Option Function :=
  -- line 195
  match L1.getLoopGuardBranch with
  | none => none
  | some guardBranch =>
  let guard1 := (F.inst guardBranch).parent
  -- lines 198 and 199
  match rebranch F guard1 (blockValue L1.getLoopPreheader) (blockValue exit) with
  | none => none
  | some F1 =>
  -- lines 202 and 203
  match latch1 with
  | none => none
  | some latch =>
  match rebranch F1 latch (Value.basicBlock L1.header) (blockValue exit) with
  | none => none
  | some F2 =>
  -- line 206
  match retarget F2 L1.lastButOne (Value.basicBlock L2.header) with
  | none => none
  | some F3 =>
  -- line 209
  match retarget F3 L2.lastButOne (Value.basicBlock latch) with
  | none => none
  | some F4 =>
  -- line 212
  match F4.front header2 with
  | none => none
  | some phi => some (F4.eraseFromParent phi)

/-- The function `loopFusion`.  `L1` and `L2` are the answers of the loop
model on entry: the queries made after line 153 read the block lists stored
in the loops and the shape of the graph, which line 153 does not change. -/
def loopFusion (F : Function) (L1 L2 : Loop) : Option Function :=
  let firstLoopIV := L1.getCanonicalInductionVariable
  match L2.getCanonicalInductionVariable with
  | none => none
  | some secondLoopIV =>
  match F.replaceAllUsesWith secondLoopIV (instValue firstLoopIV) with
  | none => none
  | some F1 =>
  let header1 := L1.getHeader
  let header2 := L2.getHeader
  let latch1 := L1.getLoopLatch
  let latch2 := L2.getLoopLatch
  let exit := L2.getUniqueExitBlock
  if !L1.isGuarded then loopFusionUnguarded F1 L1 L2 header1 header2 latch1 latch2 exit
  else loopFusionGuarded F1 L1 L2 header2 latch1 exit

/-- Result type `llvm::PreservedAnalyses`, as far as the pass builds it. -/
inductive PreservedAnalyses where
  | all
  | none
deriving DecidableEq, Inhabited

/-- What the analysis manager hands to one run of the pass.  `loops` is the
iteration order of the loop forest; `loop F p` is what the loop behind `p`
answers when the IR is `F` (the loop model computes its answers from the
current graph); the dominator trees and scalar evolution give one answer per
query for the whole run. -/
structure FunctionAnalysisManager where
  loops : List LoopPtr
  loop : Function → LoopPtr → Loop
  dominates : BlockId → BlockId → Bool
  postDominates : BlockId → BlockId → Bool
  SE : ScalarEvolution

/-- State of the loop of `run`: the IR, the flag `modified`, and one entry per
execution of lines 236 and 237 (the line written for a fused pair and the
call of the transformer) with the IR before the call and the pair. -/
structure RunState where
  F : Function
  modified : Bool
  fused : List (Function × (LoopPtr × LoopPtr))

/-- One iteration of the loop of `run` (lines 232 to 239). -/
def runPair (AM : FunctionAnalysisManager) (st : RunState) (loop : LoopPtr × LoopPtr) :
    Option RunState :=
  let L1 := AM.loop st.F loop.1
  let L2 := AM.loop st.F loop.2
  match checkEquivalence st.F L1 L2 AM.dominates AM.postDominates with
  | none => none
  | some false => some st
  | some true =>
    if !TripCount loop.1 loop.2 AM.SE then some st
    else
      match negDependencies st.F L1 L2 with
      | none => none
      | some false => some st
      | some true =>
        match loopFusion st.F L1 L2 with
        | none => none
        | some F2 => some ⟨F2, true, st.fused ++ [(st.F, loop)]⟩

/-- The function `LoopFusion::run`: the resulting IR, the analyses it reports
preserved, and the fused pairs. -/
def run (F : Function) (AM : FunctionAnalysisManager) :
    Option (Function × PreservedAnalyses × List (Function × (LoopPtr × LoopPtr))) :=
  match adjLoops F [] ⟨AM.loops, AM.loop F⟩ with
  | none => none
  | some adjacentLoops =>
    match forEachM (runPair AM) ⟨F, false, []⟩ adjacentLoops with
    | none => none
    | some st =>
      some (st.F, if st.modified then PreservedAnalyses.none else PreservedAnalyses.all,
        st.fused)

/-! ## Example IR: two adjacent unguarded counted loops over one array

    entry(0):   br header1
    header1(1): i = phi [0, entry], [inc, latch1]; cmp = icmp slt i, n; br cmp, body1, mid
    body1(2):   p = getelementptr A, i; store 0, p; br latch1
    latch1(3):  inc = add i, 1; br header1
    mid(4):     br header2
    header2(5): j = phi ...; cmp2 = icmp slt j, n; br cmp2, body2, exit
    body2(6):   idx = (add or sub) j, 1; q = getelementptr A, (idx or j); v = load q; br latch2
    latch2(7):  inc2 = add j, 1; br header2
    exit(8):    ret

`A` is argument 0 and `n` argument 1.  The parameters choose the operands of
the phi of the second loop, the opcode of `idx`, the index operand of `q` and
the instructions of `body2`. -/

/-- Instructions of the example function, by address. -/
def twoLoopsInst (phiOps : List Value) (idxOp : Opcode) (gepIdx : Value) : InstId → Instruction
  | 0 => ⟨Opcode.Br, [Value.basicBlock 1], 0, 0, 0⟩
  | 1 => ⟨Opcode.PHI, [Value.constant 0, Value.instruction 7], 1, 64, 0⟩
  | 2 => ⟨Opcode.ICmp, [Value.instruction 1, Value.argument 1], 1, 1, 40⟩
  | 3 => ⟨Opcode.Br, [Value.instruction 2, Value.basicBlock 4, Value.basicBlock 2], 1, 0, 0⟩
  | 4 => ⟨Opcode.GetElementPtr, [Value.argument 0, Value.instruction 1], 2, 100, 0⟩
  | 5 => ⟨Opcode.Store, [Value.constant 0, Value.instruction 4], 2, 0, 0⟩
  | 6 => ⟨Opcode.Br, [Value.basicBlock 3], 2, 0, 0⟩
  | 7 => ⟨Opcode.Add, [Value.instruction 1, Value.constant 1], 3, 64, 0⟩
  | 8 => ⟨Opcode.Br, [Value.basicBlock 1], 3, 0, 0⟩
  | 9 => ⟨Opcode.Br, [Value.basicBlock 5], 4, 0, 0⟩
  | 10 => ⟨Opcode.PHI, phiOps, 5, 64, 0⟩
  | 11 => ⟨Opcode.ICmp, [Value.instruction 10, Value.argument 1], 5, 1, 40⟩
  | 12 => ⟨Opcode.Br, [Value.instruction 11, Value.basicBlock 8, Value.basicBlock 6], 5, 0, 0⟩
  | 13 => ⟨idxOp, [Value.instruction 10, Value.constant 1], 6, 64, 0⟩
  | 14 => ⟨Opcode.GetElementPtr, [Value.argument 0, gepIdx], 6, 100, 0⟩
  | 15 => ⟨Opcode.Load, [Value.instruction 14], 6, 32, 0⟩
  | 16 => ⟨Opcode.Br, [Value.basicBlock 7], 6, 0, 0⟩
  | 17 => ⟨Opcode.Add, [Value.instruction 10, Value.constant 1], 7, 64, 0⟩
  | 18 => ⟨Opcode.Br, [Value.basicBlock 5], 7, 0, 0⟩
  | _ => ⟨Opcode.Ret, [], 8, 0, 0⟩

/-- Blocks of the example function, by address. -/
def twoLoopsBlock (body2 : List InstId) : BlockId → BasicBlock
  | 0 => ⟨[0]⟩
  | 1 => ⟨[1, 2, 3]⟩
  | 2 => ⟨[4, 5, 6]⟩
  | 3 => ⟨[7, 8]⟩
  | 4 => ⟨[9]⟩
  | 5 => ⟨[10, 11, 12]⟩
  | 6 => ⟨body2⟩
  | 7 => ⟨[17, 18]⟩
  | 8 => ⟨[19]⟩
  | _ => ⟨[]⟩

/-- The example function. -/
def twoLoops (phiOps : List Value) (idxOp : Opcode) (gepIdx : Value) (body2 : List InstId) :
    Function where
  inst := twoLoopsInst phiOps idxOp gepIdx
  block := twoLoopsBlock body2
  layout := [0, 1, 2, 3, 4, 5, 6, 7, 8]
  constantUsers := []
  nextInst := 20

/-- First loop of the example: blocks header1, body1, latch1. -/
def twoLoopsL1 : Loop where
  header := 1
  others := [2, 3]
  getLoopGuardBranch := none
  getExitBlock := some 4
  getLoopPreheader := some 0
  getLoopLatch := some 3
  getUniqueExitBlock := some 4
  getCanonicalInductionVariable := some 1

/-- Second loop of the example: blocks header2, body2, latch2. -/
def twoLoopsL2 : Loop where
  header := 5
  others := [6, 7]
  getLoopGuardBranch := none
  getExitBlock := some 8
  getLoopPreheader := some 4
  getLoopLatch := some 7
  getUniqueExitBlock := some 8
  getCanonicalInductionVariable := some 10

/-- Second loop reads `A[j + 1]`, the index operand being the addition. -/
def readAheadF : Function :=
  twoLoops [Value.constant 0, Value.instruction 17] Opcode.Add (Value.instruction 13)
    [13, 14, 15, 16]

/-- Second loop reads `A[j - 1]`, the index operand being the subtraction. -/
def readBehindF : Function :=
  twoLoops [Value.constant 0, Value.instruction 17] Opcode.Sub (Value.instruction 13)
    [13, 14, 15, 16]

/-- Second loop reads `A[j]`, the index operand being the phi, whose first
incoming value is the increment coming from the latch. -/
def readSameF : Function :=
  twoLoops [Value.instruction 17, Value.constant 0] Opcode.Add (Value.instruction 10)
    [14, 15, 16]

/-! ## Example IR: two adjacent guarded loops with different guards

    guard1(0):  br a, pre1, guard2
    pre1(1):    br header1
    header1(2): i = phi [0, pre1], [inc, latch1]; p = getelementptr A, i; store 0, p; br latch1
    latch1(3):  inc = add i, 1; cmp = icmp slt inc, n; br cmp, header1, exit1
    exit1(4):   br guard2
    guard2(5):  br b, pre2, end
    pre2(6):    br header2
    header2(7): j = phi [0, pre2], [inc2, latch2]; q = getelementptr B, j; store 0, q; br latch2
    latch2(8):  inc2 = add j, 1; cmp2 = icmp slt inc2, n; br cmp2, header2, exit2
    exit2(9):   br end
    end(10):    ret

`A`, `B`, `a`, `b`, `n` are arguments 0 to 4: the two guards test different
arguments. -/

/-- Instructions of the guarded example, by address. -/
def guardedInst : InstId → Instruction
  | 0 => ⟨Opcode.Br, [Value.argument 2, Value.basicBlock 5, Value.basicBlock 1], 0, 0, 0⟩
  | 1 => ⟨Opcode.Br, [Value.basicBlock 2], 1, 0, 0⟩
  | 2 => ⟨Opcode.PHI, [Value.constant 0, Value.instruction 6], 2, 64, 0⟩
  | 3 => ⟨Opcode.GetElementPtr, [Value.argument 0, Value.instruction 2], 2, 100, 0⟩
  | 4 => ⟨Opcode.Store, [Value.constant 0, Value.instruction 3], 2, 0, 0⟩
  | 5 => ⟨Opcode.Br, [Value.basicBlock 3], 2, 0, 0⟩
  | 6 => ⟨Opcode.Add, [Value.instruction 2, Value.constant 1], 3, 64, 0⟩
  | 7 => ⟨Opcode.ICmp, [Value.instruction 6, Value.argument 4], 3, 1, 40⟩
  | 8 => ⟨Opcode.Br, [Value.instruction 7, Value.basicBlock 4, Value.basicBlock 2], 3, 0, 0⟩
  | 9 => ⟨Opcode.Br, [Value.basicBlock 5], 4, 0, 0⟩
  | 10 => ⟨Opcode.Br, [Value.argument 3, Value.basicBlock 10, Value.basicBlock 6], 5, 0, 0⟩
  | 11 => ⟨Opcode.Br, [Value.basicBlock 7], 6, 0, 0⟩
  | 12 => ⟨Opcode.PHI, [Value.constant 0, Value.instruction 16], 7, 64, 0⟩
  | 13 => ⟨Opcode.GetElementPtr, [Value.argument 1, Value.instruction 12], 7, 100, 0⟩
  | 14 => ⟨Opcode.Store, [Value.constant 0, Value.instruction 13], 7, 0, 0⟩
  | 15 => ⟨Opcode.Br, [Value.basicBlock 8], 7, 0, 0⟩
  | 16 => ⟨Opcode.Add, [Value.instruction 12, Value.constant 1], 8, 64, 0⟩
  | 17 => ⟨Opcode.ICmp, [Value.instruction 16, Value.argument 4], 8, 1, 40⟩
  | 18 => ⟨Opcode.Br, [Value.instruction 17, Value.basicBlock 9, Value.basicBlock 7], 8, 0, 0⟩
  | 19 => ⟨Opcode.Br, [Value.basicBlock 10], 9, 0, 0⟩
  | _ => ⟨Opcode.Ret, [], 10, 0, 0⟩

/-- Blocks of the guarded example, by address. -/
def guardedBlock : BlockId → BasicBlock
  | 0 => ⟨[0]⟩
  | 1 => ⟨[1]⟩
  | 2 => ⟨[2, 3, 4, 5]⟩
  | 3 => ⟨[6, 7, 8]⟩
  | 4 => ⟨[9]⟩
  | 5 => ⟨[10]⟩
  | 6 => ⟨[11]⟩
  | 7 => ⟨[12, 13, 14, 15]⟩
  | 8 => ⟨[16, 17, 18]⟩
  | 9 => ⟨[19]⟩
  | 10 => ⟨[20]⟩
  | _ => ⟨[]⟩

/-- The guarded example function. -/
def guardedF : Function where
  inst := guardedInst
  block := guardedBlock
  layout := [0, 1, 2, 3, 4, 5, 6, 7, 8, 9, 10]
  constantUsers := []
  nextInst := 21

/-- First loop of the guarded example: blocks header1, latch1, guarded by the
branch of block guard1. -/
def guardedL1 : Loop where
  header := 2
  others := [3]
  getLoopGuardBranch := some 0
  getExitBlock := some 4
  getLoopPreheader := some 1
  getLoopLatch := some 3
  getUniqueExitBlock := some 4
  getCanonicalInductionVariable := some 2

/-- Second loop of the guarded example: blocks header2, latch2, guarded by the
branch of block guard2. -/
def guardedL2 : Loop where
  header := 7
  others := [8]
  getLoopGuardBranch := some 10
  getExitBlock := some 9
  getLoopPreheader := some 6
  getLoopLatch := some 8
  getUniqueExitBlock := some 9
  getCanonicalInductionVariable := some 12

/-- Loop forest of the guarded example: the first loop at address 0, the
second at address 1. -/
def guardedLI : LoopInfo where
  topLevel := [1, 0]
  loop := fun p => if p = 0 then guardedL1 else guardedL2

/-- Dominator relation of the guarded example: `guardedDT a b` when every path
from the entry to block `b` goes through block `a`. -/
def guardedDT (a b : BlockId) : Bool :=
  decide (a = b) || decide (a = 0) || (decide (1 ≤ a) && decide (a ≤ b) && decide (b ≤ 4)) ||
    (decide (a = 5) && decide (5 ≤ b)) ||
    (decide (6 ≤ a) && decide (a ≤ b) && decide (b ≤ 9))

/-- Post-dominator relation of the guarded example: `guardedPDT a b` when
every path from block `b` to the return goes through block `a`. -/
def guardedPDT (a b : BlockId) : Bool :=
  decide (a = b) || decide (a = 10) || (decide (a = 5) && decide (b ≤ 5)) ||
    (decide (1 ≤ b) && decide (b ≤ a) && decide (a ≤ 4)) ||
    (decide (6 ≤ b) && decide (b ≤ a) && decide (a ≤ 9))

/-! ## Example IR: two loops with several exits and entries

    entry(0):   br c, left, right
    left(1):    br header1
    right(2):   br header1
    header1(3): br p, latch1, exitA
    latch1(4):  br q, header1, exitB
    exitA(5):   br header2
    exitB(6):   br header2
    header2(7): br r, latch2, end
    latch2(8):  br header2
    end(9):     ret

`c`, `p`, `q`, `r` are arguments 0 to 3.  The first loop is entered from two
blocks and left to two blocks: it has no preheader and no single exit block.
The second loop is entered from two blocks: it has no preheader.  Blocks
exitA and exitB lie between the two loops. -/

/-- Instructions of the example with several exits, by address. -/
def tangledInst : InstId → Instruction
  | 0 => ⟨Opcode.Br, [Value.argument 0, Value.basicBlock 2, Value.basicBlock 1], 0, 0, 0⟩
  | 1 => ⟨Opcode.Br, [Value.basicBlock 3], 1, 0, 0⟩
  | 2 => ⟨Opcode.Br, [Value.basicBlock 3], 2, 0, 0⟩
  | 3 => ⟨Opcode.Br, [Value.argument 1, Value.basicBlock 5, Value.basicBlock 4], 3, 0, 0⟩
  | 4 => ⟨Opcode.Br, [Value.argument 2, Value.basicBlock 6, Value.basicBlock 3], 4, 0, 0⟩
  | 5 => ⟨Opcode.Br, [Value.basicBlock 7], 5, 0, 0⟩
  | 6 => ⟨Opcode.Br, [Value.basicBlock 7], 6, 0, 0⟩
  | 7 => ⟨Opcode.Br, [Value.argument 3, Value.basicBlock 9, Value.basicBlock 8], 7, 0, 0⟩
  | 8 => ⟨Opcode.Br, [Value.basicBlock 7], 8, 0, 0⟩
  | _ => ⟨Opcode.Ret, [], 9, 0, 0⟩

/-- The example function with several exits: block `b` holds instruction
`b` only. -/
def tangledF : Function where
  inst := tangledInst
  block := fun b => if b ≤ 9 then ⟨[b]⟩ else ⟨[]⟩
  layout := [0, 1, 2, 3, 4, 5, 6, 7, 8, 9]
  constantUsers := []
  nextInst := 10

/-- First loop of the example with several exits: blocks header1, latch1. -/
def tangledL1 : Loop where
  header := 3
  others := [4]
  getLoopGuardBranch := none
  getExitBlock := none
  getLoopPreheader := none
  getLoopLatch := some 4
  getUniqueExitBlock := none
  getCanonicalInductionVariable := none

/-- Second loop of the example with several exits: blocks header2, latch2. -/
def tangledL2 : Loop where
  header := 7
  others := [8]
  getLoopGuardBranch := none
  getExitBlock := some 9
  getLoopPreheader := none
  getLoopLatch := some 8
  getUniqueExitBlock := some 9
  getCanonicalInductionVariable := none

/-- Loop forest of the example with several exits: the first loop at address
0, the second at address 1. -/
def tangledLI : LoopInfo where
  topLevel := [1, 0]
  loop := fun p => if p = 0 then tangledL1 else tangledL2

/-- Analyses of the example with two unguarded counted loops: the first loop
at address 0, the second at address 1; the dominator and post-dominator
relations of the example; both loops have the same backedge taken count, the
expression at address 7. -/
def twoLoopsAM : FunctionAnalysisManager where
  loops := [1, 0]
  loop := fun _ p => if p = 0 then twoLoopsL1 else twoLoopsL2
  dominates := fun a b =>
    decide (a = b) || decide (a ≤ 1) && decide (a ≤ b) || decide (a = 2) && decide (b = 3) ||
      decide (a = 4) && decide (4 ≤ b) || decide (a = 5) && decide (5 ≤ b) ||
      decide (a = 6) && decide (b = 7)
  postDominates := fun a b =>
    decide (a = b) || decide (a = 8) || decide (a = 5) && decide (b ≤ 7) ||
      decide (a = 4) && decide (b ≤ 4) || decide (a = 1) && decide (b ≤ 3) ||
      decide (a = 3) && decide (b = 2) || decide (a = 7) && decide (b = 6)
  SE := ⟨fun _ => 7, fun _ => SCEVTypes.scAddExpr⟩

/-! ## Properties used to state the claims -/

/-- The index operand (operand 1) of `acc` is the result of `sub`, an
instruction with opcode `op` whose operands are a phi and a constant. -/
def IndexIs (op : Opcode) (F : Function) (acc sub : InstId) : Prop :=
  ∃ phi c, (F.inst acc).getOperand 1 = some (Value.instruction sub) ∧
    (F.inst sub).opcode = op ∧
    (F.inst sub).operands = [Value.instruction phi, Value.constant c] ∧
    (F.inst phi).opcode = Opcode.PHI

/-- The index operand (operand 1) of `acc` is a phi. -/
def IndexIsPhi (F : Function) (acc : InstId) : Prop :=
  ∃ phi, (F.inst acc).getOperand 1 = some (Value.instruction phi) ∧
    (F.inst phi).opcode = Opcode.PHI

/-- Every use inside `L2` of an array indexed in `L1` satisfies `P`: for every
getelementptr instruction of a block of `L1`, its base (operand 0) exists and
every instruction of `L2` that uses the base satisfies `P`. -/
def ArrayUsesInSecond (P : InstId → Prop) (F : Function) (L1 L2 : Loop) : Prop :=
  ∀ BB ∈ L1.getBlocks, ∀ I ∈ (F.block BB).insts,
    (F.inst I).opcode = Opcode.GetElementPtr →
      ∃ A, (F.inst I).getOperand 0 = some A ∧ A ≠ Value.null ∧
        ∀ inst, User.instruction inst ∈ F.uses A → L2.contains F inst = true → P inst

/-- Loop `L1` holds a getelementptr instruction on base `A`, and `acc` is an
instruction of `L2` that uses `A`. -/
def CrossLoopAccess (F : Function) (L1 L2 : Loop) (A : Value) (acc : InstId) : Prop :=
  (∃ BB ∈ L1.getBlocks, ∃ I ∈ (F.block BB).insts,
    (F.inst I).opcode = Opcode.GetElementPtr ∧ (F.inst I).getOperand 0 = some A) ∧
  User.instruction acc ∈ F.uses A ∧ L2.contains F acc = true

/-- The test of `adjLoops` on the pair `(L1, L2)`. -/
def Adjacent (F : Function) (LI : LoopInfo) (L1 L2 : LoopPtr) : Prop :=
  if (LI.loop L1).isGuarded && (LI.loop L2).isGuarded then
    ∃ e g, (LI.loop L1).getExitBlock = some e ∧ (LI.loop L2).getLoopGuardBranch = some g ∧
      F.getSingleSuccessor e = some (F.inst g).parent
  else (LI.loop L1).getExitBlock = (LI.loop L2).getLoopPreheader

/-- The three checks of the driver on one pair, in order, each made only when
the one before returned true. -/
def passesChecks (AM : FunctionAnalysisManager) (F : Function) (loop : LoopPtr × LoopPtr) :
    Option Bool :=
  match checkEquivalence F (AM.loop F loop.1) (AM.loop F loop.2) AM.dominates
      AM.postDominates with
  | none => none
  | some false => some false
  | some true =>
    if TripCount loop.1 loop.2 AM.SE then
      negDependencies F (AM.loop F loop.1) (AM.loop F loop.2)
    else some false

/-- What holds of the state of the driver after any number of iterations over
pairs of `adj`, from the function `F0`: every recorded pair is a pair of `adj`
that passed the three checks on the IR recorded with it and on which the
transformer returned; the flag is set exactly when a pair is recorded; and
the IR is `F0` as long as no pair is recorded. -/
def RunInvariant (AM : FunctionAnalysisManager) (F0 : Function)
    (adj : List (LoopPtr × LoopPtr)) (st : RunState) : Prop :=
  (∀ e ∈ st.fused, e.2 ∈ adj ∧
    checkEquivalence e.1 (AM.loop e.1 e.2.1) (AM.loop e.1 e.2.2) AM.dominates
      AM.postDominates = some true ∧
    TripCount e.2.1 e.2.2 AM.SE = true ∧
    negDependencies e.1 (AM.loop e.1 e.2.1) (AM.loop e.1 e.2.2) = some true ∧
    (loopFusion e.1 (AM.loop e.1 e.2.1) (AM.loop e.1 e.2.2)).isSome = true) ∧
  (st.modified = true ↔ st.fused ≠ []) ∧
  (st.fused = [] → st.F = F0)

/-! ## Further queries and examples -/

/-- Successor `idx` of block `b`: `b->getTerminator()->getSuccessor(idx)`. -/
def Function.getSuccessor (F : Function) (b : BlockId) (idx : Nat) : Option Value :=
  match F.getTerminator b with
  | none => none
  | some t => (F.inst t).successors.get? idx

/-- The terminator instruction of block `b`, when it has one. -/
def Function.terminatorInst (F : Function) (b : BlockId) : Option Instruction :=
  (F.getTerminator b).map F.inst

/-- A value is a basic block. -/
def Value.isBlock : Value → Bool
  | Value.basicBlock _ => true
  | _ => false

/-- Substitution of the value `new` for the instruction `old` in an operand. -/
def substitute (old : InstId) (new : Value) (o : Value) : Value :=
  if o = Value.instruction old then new else o

/-- Invariants of the IR of a function: an instruction of a block has that
block as parent, no block lists an instruction twice, and the addresses in
use are below the next free address. -/
structure WellFormed (F : Function) : Prop where
  parent : ∀ b i, i ∈ (F.block b).insts → (F.inst i).parent = b
  nodup : ∀ b, (F.block b).insts.Nodup
  fresh : ∀ b i, i ∈ (F.block b).insts → i < F.nextInst

/-- No operand of an instruction is the value `v`. -/
def NoUse (v : Value) (F : Function) : Prop :=
  ∀ j, v ∉ (F.inst j).operands

/-- The example of two unguarded counted loops, second loop reading
`A[j - 1]`, with the increment of the second loop written `1 + j`:
`inc2 = add 1, j`.  The loop still counts from 0 by 1, but its phi is not a
canonical induction variable for LLVM, which asks for `add j, 1`. -/
def swappedIncrementF : Function :=
  readBehindF.setInst 17 ⟨Opcode.Add, [Value.constant 1, Value.instruction 10], 7, 64, 0⟩

/-- Second loop of the example with the increment `1 + j`: no canonical
induction variable. -/
def swappedIncrementL2 : Loop :=
  { twoLoopsL2 with getCanonicalInductionVariable := none }

/-- Analyses of the example with the increment `1 + j`: those of the example
of two unguarded counted loops, the second loop without canonical induction
variable. -/
def swappedIncrementAM : FunctionAnalysisManager :=
  { twoLoopsAM with loop := fun _ p => if p = 0 then twoLoopsL1 else swappedIncrementL2 }

/-- The example of two unguarded counted loops, second loop reading
`A[j - 1]`, with the test of the first header inverted:
`cmp = icmp sge i, n; br cmp, mid, body1`, so that the first loop is entered
when the condition is false. -/
def invertedHeaderF : Function :=
  (readBehindF.setInst 2 ⟨Opcode.ICmp, [Value.instruction 1, Value.argument 1], 1, 1, 39⟩).setInst
    3 ⟨Opcode.Br, [Value.instruction 2, Value.basicBlock 2, Value.basicBlock 4], 1, 0, 0⟩

/-! ## Example IR: three adjacent unguarded counted loops

    entry(0):    br headerA
    headerA(1):  i = phi [0, entry], [inc, latchA]; cmp = icmp slt i, n; br cmp, bodyA, mid1
    bodyA(2):    p = getelementptr X, i; store 0, p; br latchA
    latchA(3):   inc = add i, 1; br headerA
    mid1(4):     br headerB
    headerB(5):  j = phi [0, mid1], [inc2, latchB]; cmp2 = icmp slt j, n; br cmp2, bodyB, mid2
    bodyB(6):    q = getelementptr Y, j; store 0, q; br latchB
    latchB(7):   inc2 = add j, 1; br headerB
    mid2(8):     br headerC
    headerC(9):  k = phi [0, mid2], [inc3, latchC]; cmp3 = icmp slt k, n; br cmp3, bodyC, exit
    bodyC(10):   r = getelementptr Z, k; store 0, r; br latchC
    latchC(11):  inc3 = add k, 1; br headerC
    exit(12):    ret

`X`, `Y`, `Z`, `n` are arguments 0 to 3. -/

/-- Instructions of the example with three loops, by address. -/
def threeLoopsInst : InstId → Instruction
  | 0 => ⟨Opcode.Br, [Value.basicBlock 1], 0, 0, 0⟩
  | 1 => ⟨Opcode.PHI, [Value.constant 0, Value.instruction 7], 1, 64, 0⟩
  | 2 => ⟨Opcode.ICmp, [Value.instruction 1, Value.argument 3], 1, 1, 40⟩
  | 3 => ⟨Opcode.Br, [Value.instruction 2, Value.basicBlock 4, Value.basicBlock 2], 1, 0, 0⟩
  | 4 => ⟨Opcode.GetElementPtr, [Value.argument 0, Value.instruction 1], 2, 100, 0⟩
  | 5 => ⟨Opcode.Store, [Value.constant 0, Value.instruction 4], 2, 0, 0⟩
  | 6 => ⟨Opcode.Br, [Value.basicBlock 3], 2, 0, 0⟩
  | 7 => ⟨Opcode.Add, [Value.instruction 1, Value.constant 1], 3, 64, 0⟩
  | 8 => ⟨Opcode.Br, [Value.basicBlock 1], 3, 0, 0⟩
  | 9 => ⟨Opcode.Br, [Value.basicBlock 5], 4, 0, 0⟩
  | 10 => ⟨Opcode.PHI, [Value.constant 0, Value.instruction 16], 5, 64, 0⟩
  | 11 => ⟨Opcode.ICmp, [Value.instruction 10, Value.argument 3], 5, 1, 40⟩
  | 12 => ⟨Opcode.Br, [Value.instruction 11, Value.basicBlock 8, Value.basicBlock 6], 5, 0, 0⟩
  | 13 => ⟨Opcode.GetElementPtr, [Value.argument 1, Value.instruction 10], 6, 100, 0⟩
  | 14 => ⟨Opcode.Store, [Value.constant 0, Value.instruction 13], 6, 0, 0⟩
  | 15 => ⟨Opcode.Br, [Value.basicBlock 7], 6, 0, 0⟩
  | 16 => ⟨Opcode.Add, [Value.instruction 10, Value.constant 1], 7, 64, 0⟩
  | 17 => ⟨Opcode.Br, [Value.basicBlock 5], 7, 0, 0⟩
  | 18 => ⟨Opcode.Br, [Value.basicBlock 9], 8, 0, 0⟩
  | 19 => ⟨Opcode.PHI, [Value.constant 0, Value.instruction 25], 9, 64, 0⟩
  | 20 => ⟨Opcode.ICmp, [Value.instruction 19, Value.argument 3], 9, 1, 40⟩
  | 21 => ⟨Opcode.Br, [Value.instruction 20, Value.basicBlock 12, Value.basicBlock 10], 9, 0, 0⟩
  | 22 => ⟨Opcode.GetElementPtr, [Value.argument 2, Value.instruction 19], 10, 100, 0⟩
  | 23 => ⟨Opcode.Store, [Value.constant 0, Value.instruction 22], 10, 0, 0⟩
  | 24 => ⟨Opcode.Br, [Value.basicBlock 11], 10, 0, 0⟩
  | 25 => ⟨Opcode.Add, [Value.instruction 19, Value.constant 1], 11, 64, 0⟩
  | 26 => ⟨Opcode.Br, [Value.basicBlock 9], 11, 0, 0⟩
  | _ => ⟨Opcode.Ret, [], 12, 0, 0⟩

/-- Blocks of the example with three loops, by address. -/
def threeLoopsBlock : BlockId → BasicBlock
  | 0 => ⟨[0]⟩
  | 1 => ⟨[1, 2, 3]⟩
  | 2 => ⟨[4, 5, 6]⟩
  | 3 => ⟨[7, 8]⟩
  | 4 => ⟨[9]⟩
  | 5 => ⟨[10, 11, 12]⟩
  | 6 => ⟨[13, 14, 15]⟩
  | 7 => ⟨[16, 17]⟩
  | 8 => ⟨[18]⟩
  | 9 => ⟨[19, 20, 21]⟩
  | 10 => ⟨[22, 23, 24]⟩
  | 11 => ⟨[25, 26]⟩
  | 12 => ⟨[27]⟩
  | _ => ⟨[]⟩

/-- The example function with three loops. -/
def threeLoopsF : Function where
  inst := threeLoopsInst
  block := threeLoopsBlock
  layout := [0, 1, 2, 3, 4, 5, 6, 7, 8, 9, 10, 11, 12]
  constantUsers := []
  nextInst := 28

/-- Loops A, B, C of the example with three loops (addresses 0, 1, 2) as the
loop model answers before any fusion. -/
def threeLoopsBefore (p : LoopPtr) : Loop :=
  if p = 0 then
    { header := 1, others := [2, 3], getLoopGuardBranch := none, getExitBlock := some 4,
      getLoopPreheader := some 0, getLoopLatch := some 3, getUniqueExitBlock := some 4,
      getCanonicalInductionVariable := some 1 }
  else if p = 1 then
    { header := 5, others := [6, 7], getLoopGuardBranch := none, getExitBlock := some 8,
      getLoopPreheader := some 4, getLoopLatch := some 7, getUniqueExitBlock := some 8,
      getCanonicalInductionVariable := some 10 }
  else
    { header := 9, others := [10, 11], getLoopGuardBranch := none, getExitBlock := some 12,
      getLoopPreheader := some 8, getLoopLatch := some 11, getUniqueExitBlock := some 12,
      getCanonicalInductionVariable := some 19 }

/-- Loops A, B, C of the example with three loops as the loop model answers
after the fusion of A and B, from the block lists stored in the loops and the
edited graph: A is left from headerA to mid2 and from bodyA to bodyB (no
single exit block); B is left from bodyB to latchA only, and its phi `j` is
no canonical induction variable any more, its increment being `add i, 1`
after the substitution; C is as before. -/
def threeLoopsAfter (p : LoopPtr) : Loop :=
  if p = 0 then
    { header := 1, others := [2, 3], getLoopGuardBranch := none, getExitBlock := none,
      getLoopPreheader := some 0, getLoopLatch := some 3, getUniqueExitBlock := none,
      getCanonicalInductionVariable := some 1 }
  else if p = 1 then
    { header := 5, others := [6, 7], getLoopGuardBranch := none, getExitBlock := some 3,
      getLoopPreheader := some 4, getLoopLatch := some 7, getUniqueExitBlock := some 3,
      getCanonicalInductionVariable := none }
  else threeLoopsBefore p

/-- Analyses of the example with three loops: the loop model answers from the
current graph (the graph before any fusion is the one whose next free address
is 28); the dominator and post-dominator relations of the graph before any
fusion; the three loops have the same backedge taken count, the expression at
address 7. -/
def threeLoopsAM : FunctionAnalysisManager where
  loops := [2, 1, 0]
  loop := fun F p => if F.nextInst = 28 then threeLoopsBefore p else threeLoopsAfter p
  dominates := fun a b =>
    decide (a = b) || (decide (a % 4 ≤ 1) && decide (a ≤ b)) ||
      (decide (a % 4 = 2) && decide (b = a + 1))
  postDominates := fun a b =>
    decide (a = b) || decide (a = 12) || (decide (a % 4 = 0) && decide (1 ≤ a) && decide (b ≤ a)) ||
      (decide (a % 4 = 1) && decide (b ≤ a + 2)) || (decide (a % 4 = 3) && decide (b + 1 = a))
  SE := ⟨fun _ => 7, fun _ => SCEVTypes.scAddExpr⟩

/-- The IR of the example with three loops after the fusion of A and B. -/
def threeLoopsFusedAB : Function :=
  (loopFusion threeLoopsF (threeLoopsBefore 0) (threeLoopsBefore 1)).getD threeLoopsF

/-- The IR of the example with three loops after the fusion of A and B and
then of B and C. -/
def threeLoopsFusedBC : Function :=
  (loopFusion threeLoopsFusedAB (threeLoopsAfter 1) (threeLoopsAfter 2)).getD threeLoopsFusedAB

/-! ## Example IR: two adjacent guarded loops of one block each

    guard1(0): g1 = icmp sgt n, 0; br g1, pre1, guard2
    pre1(1):   br loop1
    loop1(2):  i = phi [0, pre1], [inc, loop1]; p = getelementptr A, i; store 0, p;
               inc = add i, 1; cmp = icmp slt inc, n; br cmp, loop1, exit1
    exit1(3):  br guard2
    guard2(4): g2 = icmp sgt n, 0; br g2, pre2, end
    pre2(5):   br loop2
    loop2(6):  j = phi [0, pre2], [inc2, loop2]; q = getelementptr B, j; store 0, q;
               inc2 = add j, 1; cmp2 = icmp slt inc2, n; br cmp2, loop2, exit2
    exit2(7):  br end
    end(8):    ret

`A`, `B`, `n` are arguments 0 to 2.  Each loop is one block, header and latch
at once, as loop rotation leaves a simple counted loop. -/

/-- Instructions of the example with loops of one block, by address. -/
def singleBlockInst : InstId → Instruction
  | 0 => ⟨Opcode.ICmp, [Value.argument 2, Value.constant 0], 0, 1, 38⟩
  | 1 => ⟨Opcode.Br, [Value.instruction 0, Value.basicBlock 4, Value.basicBlock 1], 0, 0, 0⟩
  | 2 => ⟨Opcode.Br, [Value.basicBlock 2], 1, 0, 0⟩
  | 3 => ⟨Opcode.PHI, [Value.constant 0, Value.instruction 6], 2, 64, 0⟩
  | 4 => ⟨Opcode.GetElementPtr, [Value.argument 0, Value.instruction 3], 2, 100, 0⟩
  | 5 => ⟨Opcode.Store, [Value.constant 0, Value.instruction 4], 2, 0, 0⟩
  | 6 => ⟨Opcode.Add, [Value.instruction 3, Value.constant 1], 2, 64, 0⟩
  | 7 => ⟨Opcode.ICmp, [Value.instruction 6, Value.argument 2], 2, 1, 40⟩
  | 8 => ⟨Opcode.Br, [Value.instruction 7, Value.basicBlock 3, Value.basicBlock 2], 2, 0, 0⟩
  | 9 => ⟨Opcode.Br, [Value.basicBlock 4], 3, 0, 0⟩
  | 10 => ⟨Opcode.ICmp, [Value.argument 2, Value.constant 0], 4, 1, 38⟩
  | 11 => ⟨Opcode.Br, [Value.instruction 10, Value.basicBlock 8, Value.basicBlock 5], 4, 0, 0⟩
  | 12 => ⟨Opcode.Br, [Value.basicBlock 6], 5, 0, 0⟩
  | 13 => ⟨Opcode.PHI, [Value.constant 0, Value.instruction 16], 6, 64, 0⟩
  | 14 => ⟨Opcode.GetElementPtr, [Value.argument 1, Value.instruction 13], 6, 100, 0⟩
  | 15 => ⟨Opcode.Store, [Value.constant 0, Value.instruction 14], 6, 0, 0⟩
  | 16 => ⟨Opcode.Add, [Value.instruction 13, Value.constant 1], 6, 64, 0⟩
  | 17 => ⟨Opcode.ICmp, [Value.instruction 16, Value.argument 2], 6, 1, 40⟩
  | 18 => ⟨Opcode.Br, [Value.instruction 17, Value.basicBlock 7, Value.basicBlock 6], 6, 0, 0⟩
  | 19 => ⟨Opcode.Br, [Value.basicBlock 8], 7, 0, 0⟩
  | _ => ⟨Opcode.Ret, [], 8, 0, 0⟩

/-- Blocks of the example with loops of one block, by address. -/
def singleBlockBlock : BlockId → BasicBlock
  | 0 => ⟨[0, 1]⟩
  | 1 => ⟨[2]⟩
  | 2 => ⟨[3, 4, 5, 6, 7, 8]⟩
  | 3 => ⟨[9]⟩
  | 4 => ⟨[10, 11]⟩
  | 5 => ⟨[12]⟩
  | 6 => ⟨[13, 14, 15, 16, 17, 18]⟩
  | 7 => ⟨[19]⟩
  | 8 => ⟨[20]⟩
  | _ => ⟨[]⟩

/-- The example function with loops of one block. -/
def singleBlockF : Function where
  inst := singleBlockInst
  block := singleBlockBlock
  layout := [0, 1, 2, 3, 4, 5, 6, 7, 8]
  constantUsers := []
  nextInst := 21

/-- First loop of the example with loops of one block. -/
def singleBlockL1 : Loop where
  header := 2
  others := []
  getLoopGuardBranch := some 1
  getExitBlock := some 3
  getLoopPreheader := some 1
  getLoopLatch := some 2
  getUniqueExitBlock := some 3
  getCanonicalInductionVariable := some 3

/-- Second loop of the example with loops of one block. -/
def singleBlockL2 : Loop where
  header := 6
  others := []
  getLoopGuardBranch := some 11
  getExitBlock := some 7
  getLoopPreheader := some 5
  getLoopLatch := some 6
  getUniqueExitBlock := some 7
  getCanonicalInductionVariable := some 13

/-- Analyses of the example with loops of one block: the first loop at
address 0, the second at address 1; the dominator and post-dominator
relations of the example; both loops have the same backedge taken count. -/
def singleBlockAM : FunctionAnalysisManager where
  loops := [1, 0]
  loop := fun _ p => if p = 0 then singleBlockL1 else singleBlockL2
  dominates := fun a b =>
    decide (a = b) || decide (a = 0) || (decide (1 ≤ a) && decide (a ≤ b) && decide (b ≤ 3)) ||
      (decide (a = 4) && decide (4 ≤ b)) || (decide (5 ≤ a) && decide (a ≤ b) && decide (b ≤ 7))
  postDominates := fun a b =>
    decide (a = b) || decide (a = 8) || (decide (a = 4) && decide (b ≤ 4)) ||
      (decide (1 ≤ b) && decide (b ≤ a) && decide (a ≤ 3)) ||
      (decide (5 ≤ b) && decide (b ≤ a) && decide (a ≤ 7))
  SE := ⟨fun _ => 7, fun _ => SCEVTypes.scAddExpr⟩

/-- The function that `loopFusion` returns on the example whose second loop
reads `A[j - 1]`. -/
def readBehindFused : Function :=
  (loopFusion readBehindF twoLoopsL1 twoLoopsL2).getD readBehindF

/-! ## Example IR: a guarded loop with a second exit edge

    guard(0):   g = icmp sgt n, 0; br g, pre, end
    pre(1):     br header
    header(2):  i = phi [0, pre], [inc, latch]; p = getelementptr A, i; v = load p;
                c = icmp eq v, 0; br c, exit, latch
    latch(3):   inc = add i, 1; cmp = icmp slt inc, n; br cmp, header, exit
    exit(4):    br end
    end(5):     ret

`A` and `n` are arguments 0 and 1.  The loop `for (i = 0; i < n; i++)
{ if (A[i] == 0) break; }` in rotated form: it has the guard branch of block
`guard` and the unique exit block `exit`, reached by two edges, so
`getExitBlock()` is null while `getUniqueExitBlock()` is `exit`. -/

/-- Instructions of the example with a second exit edge, by address. -/
def breakInst : InstId → Instruction
  | 0 => ⟨Opcode.ICmp, [Value.argument 1, Value.constant 0], 0, 1, 38⟩
  | 1 => ⟨Opcode.Br, [Value.instruction 0, Value.basicBlock 5, Value.basicBlock 1], 0, 0, 0⟩
  | 2 => ⟨Opcode.Br, [Value.basicBlock 2], 1, 0, 0⟩
  | 3 => ⟨Opcode.PHI, [Value.constant 0, Value.instruction 8], 2, 64, 0⟩
  | 4 => ⟨Opcode.GetElementPtr, [Value.argument 0, Value.instruction 3], 2, 100, 0⟩
  | 5 => ⟨Opcode.Load, [Value.instruction 4], 2, 32, 0⟩
  | 6 => ⟨Opcode.ICmp, [Value.instruction 5, Value.constant 0], 2, 1, 32⟩
  | 7 => ⟨Opcode.Br, [Value.instruction 6, Value.basicBlock 3, Value.basicBlock 4], 2, 0, 0⟩
  | 8 => ⟨Opcode.Add, [Value.instruction 3, Value.constant 1], 3, 64, 0⟩
  | 9 => ⟨Opcode.ICmp, [Value.instruction 8, Value.argument 1], 3, 1, 40⟩
  | 10 => ⟨Opcode.Br, [Value.instruction 9, Value.basicBlock 4, Value.basicBlock 2], 3, 0, 0⟩
  | 11 => ⟨Opcode.Br, [Value.basicBlock 5], 4, 0, 0⟩
  | _ => ⟨Opcode.Ret, [], 5, 0, 0⟩

/-- Blocks of the example with a second exit edge, by address. -/
def breakBlock : BlockId → BasicBlock
  | 0 => ⟨[0, 1]⟩
  | 1 => ⟨[2]⟩
  | 2 => ⟨[3, 4, 5, 6, 7]⟩
  | 3 => ⟨[8, 9, 10]⟩
  | 4 => ⟨[11]⟩
  | 5 => ⟨[12]⟩
  | _ => ⟨[]⟩

/-- The example function with a second exit edge. -/
def breakF : Function where
  inst := breakInst
  block := breakBlock
  layout := [0, 1, 2, 3, 4, 5]
  constantUsers := []
  nextInst := 13

/-- The loop of the example with a second exit edge: guarded, with a unique
exit block and no single exit edge. -/
def breakL : Loop where
  header := 2
  others := [3]
  getLoopGuardBranch := some 1
  getExitBlock := none
  getLoopPreheader := some 1
  getLoopLatch := some 3
  getUniqueExitBlock := some 4
  getCanonicalInductionVariable := some 3

/-- Analyses of the example with a second exit edge: one loop, at address 0;
the dominator and post-dominator relations of the example; the backedge taken
count of the loop is not computable, the second exit depending on loaded
data. -/
def breakAM : FunctionAnalysisManager where
  loops := [0]
  loop := fun _ _ => breakL
  dominates := fun a b =>
    decide (a = b) || decide (a = 0) ||
      (decide (1 ≤ a) && decide (a ≤ 2) && decide (a ≤ b) && decide (b ≤ 4))
  postDominates := fun a b =>
    decide (a = b) || decide (a = 5) || (decide (a = 4) && decide (1 ≤ b) && decide (b ≤ 4)) ||
      (decide (a = 2) && decide (b = 1))
  SE := ⟨fun _ => 7, fun _ => SCEVTypes.scCouldNotCompute⟩

/-- The guarded example with a second exit edge in the first loop: its header
ends in `br stop, exit1, latch1`, `stop` being argument 5. -/
def guardedBreakF : Function :=
  guardedF.setInst 5
    ⟨Opcode.Br, [Value.argument 5, Value.basicBlock 3, Value.basicBlock 4], 2, 0, 0⟩

/-- First loop of the guarded example with a second exit edge: `exit1` is its
unique exit block, reached by two edges. -/
def guardedBreakL1 : Loop :=
  { guardedL1 with getExitBlock := none }

/-- Loop forest of the guarded example with a second exit edge. -/
def guardedBreakLI : LoopInfo where
  topLevel := [1, 0]
  loop := fun p => if p = 0 then guardedBreakL1 else guardedL2

/-! ## Example IR: first loop with a conditional statement in its body

The example of two unguarded counted loops, second loop reading `A[j - 1]`,
with the body of the first loop `A[i] = 0; if (c) A[i] = 1;`:

    body1(2):   p = getelementptr A, i; store 0, p; br c, then1, latch1
    then1(9):   store 1, p; br latch1

`c` is argument 2.  The first loop lists its blocks as header1, body1, then1,
latch1. -/

/-- The example function whose first loop has a conditional statement. -/
def branchBodyF : Function :=
  { (((readBehindF.setInst 6
        ⟨Opcode.Br, [Value.argument 2, Value.basicBlock 3, Value.basicBlock 9], 2, 0, 0⟩).setInst
        20 ⟨Opcode.Store, [Value.constant 1, Value.instruction 4], 9, 0, 0⟩).setInst
        21 ⟨Opcode.Br, [Value.basicBlock 3], 9, 0, 0⟩).setBlock 9 [20, 21] with
    layout := [0, 1, 2, 9, 3, 4, 5, 6, 7, 8]
    nextInst := 22 }

/-- First loop of the example with a conditional statement: blocks header1,
body1, then1, latch1. -/
def branchBodyL1 : Loop :=
  { twoLoopsL1 with others := [2, 9, 3] }

/-- Analyses of the example with a conditional statement: those of the example
of two unguarded counted loops (the headers dominate and post-dominate as
before), the first loop with its four blocks. -/
def branchBodyAM : FunctionAnalysisManager :=
  { twoLoopsAM with loop := fun _ p => if p = 0 then branchBodyL1 else twoLoopsL2 }

/-- The function that `loopFusion` returns on the example with a conditional
statement. -/
def branchBodyFused : Function :=
  (loopFusion branchBodyF branchBodyL1 twoLoopsL2).getD branchBodyF

/-- The control flow graph has an edge from block `a` to block `b`. -/
def Function.hasEdge (F : Function) (a b : BlockId) : Bool :=
  decide (Value.basicBlock b ∈ F.successors a)

/-- A list of blocks is a walk of the control flow graph: each block has an
edge to the next one. -/
def Function.isWalk (F : Function) : List BlockId → Bool
  | a :: b :: rest => F.hasEdge a b && F.isWalk (b :: rest)
  | _ => true

end LoopFusion

/-!
Peephole pass (Assignment 1, LocalOpts.cpp): embedding.

An instruction is an opcode and a list of operands.  The three rewriting
functions are given by what they decide: the instructions they create and
insert after the instruction at the iterator, in order, and the value they
pass to `replaceAllUsesWith` before they erase the instruction and return
true.  Arbitrary precision integers (`llvm::APInt`) are a bit width and an
unsigned value; the queries on them follow their documentation in LLVM.
The driver (`runOnBasicBlock`, `runOnFunction`, `LocalOpts::run`) works on a
module that maps addresses to instructions and blocks to their instruction
lists, and commits the rewrites to it.
-/

namespace LocalOpts

open LoopFusion (Opcode PreservedAnalyses)

/-- An `llvm::APInt`: bit width and unsigned value, below `2 ^ BitWidth`. -/
structure APInt where
  BitWidth : Nat
  VAL : Nat
deriving DecidableEq, Inhabited

/-- Query `APInt::isZero`. -/
def APInt.isZero (c : APInt) : Bool := c.VAL == 0

/-- Query `APInt::isOne`. -/
def APInt.isOne (c : APInt) : Bool := c.VAL == 1

/-- The exponent `k` below the bit width with `VAL = 2 ^ k`, when there is
one. -/
def APInt.exactLog (c : APInt) : Option Nat :=
  (List.range c.BitWidth).find? fun k => c.VAL == 2 ^ k

/-- Query `APInt::isPowerOf2`: the value is a power of two greater than
zero. -/
def APInt.isPowerOf2 (c : APInt) : Bool := c.exactLog.isSome

/-- Query `APInt::exactLogBase2`: the logarithm of a power of two, else -1. -/
def APInt.exactLogBase2 (c : APInt) : Int :=
  match c.exactLog with
  | some k => k
  | none => -1

/-- Position of the highest set bit of `v` below position `w`. -/
def highestBit : Nat → Nat → Option Nat
  | 0, _ => none
  | w + 1, v => if v.testBit w then some w else highestBit w v

/-- Query `APInt::logBase2`, an `unsigned`: the position of the highest set
bit, and `UINT32_MAX` for the value zero. -/
def APInt.logBase2 (c : APInt) : Nat :=
  match highestBit c.BitWidth c.VAL with
  | some k => k
  | none => 2 ^ 32 - 1

/-- Query `APInt::nearestLogBase2`, an `unsigned`: `logBase2` plus the bit
below the highest set bit; `VAL - 1` truncated for the bit width 1 and
`UINT32_MAX` for the value zero.  For the value one the bit read is bit
`UINT32_MAX`, out of the one word of a width up to 64 (the result is then 0)
and out of the array of words of a larger width. -/
def APInt.nearestLogBase2 (c : APInt) : Option Nat :=
  if c.BitWidth = 1 then some ((c.VAL + 2 ^ 64 - 1) % 2 ^ 64 % 2 ^ 32)
  else if c.isZero then some (2 ^ 32 - 1)
  else if c.logBase2 = 0 then (if c.BitWidth ≤ 64 then some 0 else none)
  else some (c.logBase2 + if c.VAL.testBit (c.logBase2 - 1) then 1 else 0)

/-- The signed reading of the `w` low bits of `v` (`SignExtend64`). -/
def signExtend (w v : Nat) : Int :=
  if (v % 2 ^ w).testBit (w - 1) then (v % 2 ^ w : Nat) - (2 ^ w : Nat) else (v % 2 ^ w : Nat)

/-- Query `APInt::getSExtValue`, an `int64_t`: the signed value of a width up
to 64, the low word of a larger width. -/
def APInt.getSExtValue (c : APInt) : Int :=
  if c.BitWidth ≤ 64 then signExtend c.BitWidth c.VAL else signExtend 64 c.VAL

/-- The constant `ConstantInt::get(Ty, V)` for the integer type of width `w`
and a `uint64_t` value `V`, truncated to the width. -/
def ConstantInt.get (w : Nat) (V : Nat) : APInt := ⟨w, V % 2 ^ 64 % 2 ^ w⟩

/-- Conversion of an `int` or `int64_t` to `uint64_t`. -/
def toUInt64 (z : Int) : Nat := (z % (2 ^ 64 : Nat)).toNat

/-- Conversion of an `int64_t` to `uint32_t`. -/
def toUInt32 (z : Int) : Nat := (z % (2 ^ 32 : Nat)).toNat

/-- A value of the peephole pass: a `ConstantInt`, an instruction (by
address), or another value (argument, global, other constant). -/
inductive Value where
  | constantInt (c : APInt)
  | instruction (i : Nat)
  | other (n : Nat)
deriving DecidableEq, Inhabited

/-- An instruction of the peephole pass. -/
structure Instruction where
  opcode : Opcode
  operands : List Value
deriving DecidableEq, Inhabited

/-- One step of the loop of `optimizable` (lines 22 to 27). -/
def optimizableStep (acc : Option APInt × Option Value) (op : Value) :
    Option APInt × Option Value :=
  match op with
  | Value.constantInt c => (some c, acc.2)
  | v => if acc.2.isNone then (acc.1, some v) else acc

/-- The function `optimizable`: the result, and the two reference parameters
`constVal` and `opVal` after the call. -/
def optimizable (instruction : Instruction) (constVal : Option APInt) (opVal : Option Value) :
    Bool × Option APInt × Option Value :=
  let r := instruction.operands.foldl optimizableStep (constVal, opVal)
  (r.1.isSome && r.2.isSome, r.1, r.2)

/-- What a rewriting function does when it returns true: the instructions it
creates, inserted in this order after the instruction at the iterator, and
the value that replaces all uses of that instruction, which is erased. -/
structure Rewrite where
  created : List Instruction
  replacement : Value
deriving DecidableEq, Inhabited

/-- How a call of a rewriting function ends: it rewrites and returns true, it
returns false, or it flows off the end of the function without a `return`
(undefined behaviour) or does not end. -/
inductive Outcome where
  | rewritten (r : Rewrite)
  | unchanged
  | undefined
deriving DecidableEq, Inhabited

/-- The function `algebraicIdentity`. -/
def algebraicIdentity (instruction : Instruction) : Outcome :=
  match optimizable instruction none none with
  | (true, some constVal, some opVal) =>
    if instruction.opcode = Opcode.Add then
      if constVal.isZero then Outcome.rewritten ⟨[], opVal⟩ else Outcome.unchanged
    else if instruction.opcode = Opcode.Mul then
      if constVal.isOne then Outcome.rewritten ⟨[], opVal⟩ else Outcome.unchanged
    else Outcome.unchanged
  | _ => Outcome.unchanged

/-- Repeated `pow *= 2` in `uint32_t`, `k` times. -/
def doublings : Nat → Nat → Nat
  | 0, pow => pow
  | k + 1, pow => doublings k (pow * 2 % 2 ^ 32)

/-- Lines 129 to 132 of `strengthReduction`: `pow` after the loop
`for (auto i = 0; i < n; i++) pow *= 2;` with `i` an `int`; a bound above
`INT_MAX` overflows `i`. -/
def powLoop (n : Int) : Option Nat :=
  if n ≤ 0 then some 1
  else if 2 ^ 31 - 1 < n then none
  else some (doublings n.toNat 1)

/-- Lines 123 to 161 of `strengthReduction`: the constant is not a power of
two.  New instructions get the addresses `fresh` and `fresh + 1`. -/
def strengthReductionGeneral (instruction : Instruction) (constVal : APInt) (opVal : Value)
    (fresh : Nat) : Outcome :=
  match constVal.nearestLogBase2 with
  | none => Outcome.undefined
  | some nearest =>
    let shift := ConstantInt.get constVal.BitWidth nearest
    match powLoop shift.getSExtValue with
    | none => Outcome.undefined
    | some pow =>
      let intConstValue := toUInt32 constVal.getSExtValue
      let intCarryover := if pow > intConstValue then pow - intConstValue else intConstValue - pow
      let add := if pow > intConstValue then false else true
      if intCarryover = 1 ∧ instruction.opcode = Opcode.Mul then
        Outcome.rewritten
          ⟨[⟨Opcode.Shl, [opVal, Value.constantInt shift]⟩,
            ⟨if add then Opcode.Add else Opcode.Sub, [Value.instruction fresh, opVal]⟩],
           Value.instruction (fresh + 1)⟩
      else Outcome.unchanged

/-- The function `strengthReduction`.  New instructions get the addresses
`fresh` and `fresh + 1`. -/
def strengthReduction (instruction : Instruction) (fresh : Nat) : Outcome :=
  match optimizable instruction none none with
  | (true, some constVal, some opVal) =>
    if instruction.opcode = Opcode.Mul ∨ instruction.opcode = Opcode.SDiv then
      if constVal.isPowerOf2 then
        let shift := ConstantInt.get constVal.BitWidth (toUInt64 constVal.exactLogBase2)
        if instruction.opcode = Opcode.Mul then
          Outcome.rewritten
            ⟨[⟨Opcode.Shl, [opVal, Value.constantInt shift]⟩], Value.instruction fresh⟩
        else if instruction.opcode = Opcode.SDiv then
          Outcome.rewritten
            ⟨[⟨Opcode.LShr, [opVal, Value.constantInt shift]⟩], Value.instruction fresh⟩
        else Outcome.unchanged
      else strengthReductionGeneral instruction constVal opVal fresh
    else Outcome.unchanged
  | _ => Outcome.unchanged

/-- Cases `Sub` and `SDiv` of `multiInstrOp` (lines 206 to 216 and 221 to
231): the defining instruction has opcode `defOpcode` and a constant equal to
the constant of the instruction. -/
def multiInstrOpInverse (constVal : APInt) (defInst : Instruction) (defOpcode : Opcode) :
    Outcome :=
  if defInst.opcode = defOpcode then
    match optimizable defInst none none with
    | (true, some defConstVal, some defOpVal) =>
      if constVal.getSExtValue = defConstVal.getSExtValue then
        Outcome.rewritten ⟨[], defOpVal⟩
      else Outcome.undefined
    | _ => Outcome.undefined
  else Outcome.undefined

/-- The function `multiInstrOp`; `F` gives the instruction behind an address.
Every path that leaves the `switch` by `break` reaches the end of the
function, which has no `return` there. -/
def multiInstrOp (F : Nat → Instruction) (instruction : Instruction) : Outcome :=
  match optimizable instruction none none with
  | (true, some constVal, some opVal) =>
    match opVal with
    | Value.instruction d =>
      let defInst := F d
      match instruction.opcode with
      | Opcode.Add =>
        if defInst.opcode = Opcode.Sub then
          match defInst.operands.get? 1 with
          | some (Value.constantInt defConstVal) =>
            if constVal.getSExtValue = defConstVal.getSExtValue then
              match defInst.operands.get? 0 with
              | some b => Outcome.rewritten ⟨[], b⟩
              | none => Outcome.undefined
            else Outcome.undefined
          | _ => Outcome.undefined
        else Outcome.undefined
      | Opcode.Sub => multiInstrOpInverse constVal defInst Opcode.Add
      | Opcode.SDiv => multiInstrOpInverse constVal defInst Opcode.Mul
      | _ => Outcome.undefined
    | _ => Outcome.unchanged
  | _ => Outcome.unchanged

/-! ### Values of instructions (LLVM language reference) -/

/-- The value an integer stands for in `w` bits. -/
def wrap (w : Nat) (z : Int) : Nat := (z % (2 ^ w : Nat)).toNat

/-- Value of a binary integer instruction on operands of `w` bits, given as
unsigned values; `none` for poison and for undefined behaviour (a shift by
the width or more, a division by zero, the division of the least integer by
-1). -/
def evalBinary (op : Opcode) (w : Nat) (a b : Nat) : Option Nat :=
  match op with
  | Opcode.Add => some ((a + b) % 2 ^ w)
  | Opcode.Sub => some (wrap w ((a : Int) - b))
  | Opcode.Mul => some (a * b % 2 ^ w)
  | Opcode.Shl => if b < w then some (a * 2 ^ b % 2 ^ w) else none
  | Opcode.LShr => if b < w then some (a / 2 ^ b) else none
  | Opcode.SDiv =>
    if b = 0 then none
    else if signExtend w a = -(2 ^ (w - 1) : Nat) ∧ signExtend w b = -1 then none
    else some (wrap w ((signExtend w a).tdiv (signExtend w b)))
  | _ => none

/-- Value of an operand: a constant is its value; `instVal` and `otherVal`
give the values of instructions and of the other values. -/
def evalValue (instVal otherVal : Nat → Nat) : Value → Nat
  | Value.constantInt c => c.VAL
  | Value.instruction i => instVal i
  | Value.other n => otherVal n

/-- Value of a binary instruction. -/
def evalInstruction (w : Nat) (instVal otherVal : Nat → Nat) (I : Instruction) : Option Nat :=
  match I.operands with
  | [a, b] => evalBinary I.opcode w (evalValue instVal otherVal a) (evalValue instVal otherVal b)
  | _ => none

/-- Values of instructions after the created instructions, which get the
addresses `fresh`, `fresh + 1`, ... in order. -/
def evalCreated (w : Nat) (otherVal : Nat → Nat) :
    (Nat → Nat) → Nat → List Instruction → Option (Nat → Nat)
  | instVal, _, [] => some instVal
  | instVal, fresh, I :: rest =>
    match evalInstruction w instVal otherVal I with
    | none => none
    | some v => evalCreated w otherVal (fun i => if i = fresh then v else instVal i)
        (fresh + 1) rest

/-- Value that replaces the instruction after a rewrite. -/
def evalRewrite (w : Nat) (instVal otherVal : Nat → Nat) (fresh : Nat) (r : Rewrite) :
    Option Nat :=
  match evalCreated w otherVal instVal fresh r.created with
  | none => none
  | some instVal2 => some (evalValue instVal2 otherVal r.replacement)

/-- Value that replaces the instruction after a call of a rewriting function
that returned true. -/
def Outcome.value (w : Nat) (instVal otherVal : Nat → Nat) (fresh : Nat) :
    Outcome → Option Nat
  | Outcome.rewritten r => evalRewrite w instVal otherVal fresh r
  | _ => none

/-- An operand is not a `ConstantInt`. -/
def Value.isVariable : Value → Bool
  | Value.constantInt _ => false
  | _ => true

/-! ### The driver of the peephole pass (lines 242 to 282) -/

/-- A module as the pass sees it: the instruction behind each address, the
instructions of each basic block in order, the functions in module order,
each the list of its basic blocks (a declaration has none), and the next free
instruction address. -/
structure Module where
  inst : Nat → Instruction
  block : Nat → List Nat
  functions : List (List Nat)
  nextInst : Nat

/-- State of a run of the pass: the module, and the addresses of the
instructions printed by line 245 (`ISTRUZIONE: ...`), in order.  The other
lines written to the output stream are not modelled. -/
structure PassState where
  M : Module
  outs : List Nat

/-- Iterator `++` inside a block: the instruction that follows `a`; `none` is
`end()`. -/
def successorIn (a : Nat) : List Nat → Option Nat
  | [] => none
  | x :: xs => if x = a then xs.head? else successorIn a xs

/-- Insertion of `x` right after the first occurrence of `a`. -/
def insertAfterIn (x a : Nat) : List Nat → List Nat
  | [] => []
  | z :: zs => if z = a then z :: x :: zs else z :: insertAfterIn x a zs

/-- The statements `BinaryOperator::Create(...)` and `insertAfter(after)` for
an instruction of block `BB`: the new instruction gets the next free
address. -/
def Module.insertAfter (M : Module) (BB : Nat) (I : Instruction) (after : Nat) : Module :=
  { M with
    inst := fun j => if j = M.nextInst then I else M.inst j
    block := fun c => if c = BB then insertAfterIn M.nextInst after (M.block BB) else M.block c
    nextInst := M.nextInst + 1 }

/-- Insertion of the created instructions, each after the one before it, the
first after `after`. -/
def Module.insertCreated (M : Module) (BB : Nat) : List Instruction → Nat → Module
  | [], _ => M
  | I :: rest, after => (M.insertAfter BB I after).insertCreated BB rest M.nextInst

/-- Edit `Value::replaceAllUsesWith` on the instruction at address `old`.
Replacing a value by itself is `none` (LLVM does not return from it). -/
def Module.replaceAllUsesWith (M : Module) (old : Nat) (new : Value) : Option Module :=
  if new = Value.instruction old then none
  else some { M with inst := fun j =>
    { M.inst j with operands :=
        ((M.inst j).operands.map fun o => if o = Value.instruction old then new else o) } }

/-- Edit `Instruction::eraseFromParent` on an instruction of block `BB`. -/
def Module.eraseFromParent (M : Module) (BB a : Nat) : Module :=
  { M with block := fun c => if c = BB then (M.block BB).erase a else M.block c }

/-- What a rewriting function that returns true does to the module: the
created instructions are inserted after the instruction `a` at the iterator,
the uses of `a` are replaced and `a` is erased. -/
def Module.rewrite (M : Module) (BB a : Nat) (r : Rewrite) : Option Module :=
  match (M.insertCreated BB r.created a).replaceAllUsesWith a r.replacement with
  | none => none
  | some M2 => some (M2.eraseFromParent BB a)

/-- One turn of the loop of `runOnBasicBlock` (lines 245 to 256) with the
iterator at instruction `a` of block `BB`: the state and the iterator after
it.  Every rewriting function moves the iterator by one `instruction++`.
`strengthReduction` with a constant that is no power of two (two created
instructions) inserts the shift before that statement (lines 146 and 155), so
the iterator then stands on the shift; in every other case the created
instruction is inserted after it and the iterator stands on the instruction
that followed `a`.  A rewriting function that does not return, or that flows
off its end, gives `none`. -/
def runOnBasicBlockStep (st : PassState) (BB a : Nat) : Option (PassState × Option Nat) :=
  let M := st.M
  let outs := st.outs ++ [a]
  let following := successorIn a (M.block BB)
  match algebraicIdentity (M.inst a) with
  | Outcome.undefined => none
  | Outcome.rewritten r =>
    match M.rewrite BB a r with
    | none => none
    | some M2 => some (⟨M2, outs⟩, following)
  | Outcome.unchanged =>
    match strengthReduction (M.inst a) M.nextInst with
    | Outcome.undefined => none
    | Outcome.rewritten r =>
      match M.rewrite BB a r with
      | none => none
      | some M2 =>
        some (⟨M2, outs⟩, if r.created.length = 2 then some M.nextInst else following)
    | Outcome.unchanged =>
      match multiInstrOp M.inst (M.inst a) with
      | Outcome.undefined => none
      | Outcome.rewritten r =>
        match M.rewrite BB a r with
        | none => none
        | some M2 => some (⟨M2, outs⟩, following)
      | Outcome.unchanged => some (⟨M, outs⟩, following)

/-- The loop of `runOnBasicBlock` from the iterator `it`, for at most `fuel`
turns; `none` when a turn gives `none` or the turns run out. -/
def runOnBasicBlockLoop : Nat → PassState → Nat → Option Nat → Option PassState
  | _, st, _, none => some st
  | 0, _, _, some _ => none
  | fuel + 1, st, BB, some a =>
    match runOnBasicBlockStep st BB a with
    | none => none
    | some (st2, it) => runOnBasicBlockLoop fuel st2 BB it

/-- The function `runOnBasicBlock`: the state after it and its result, which
is always true.  The loop reaches an instruction of the block once, and a
rewrite brings at most two new instructions under the iterator, which are not
rewritten again, so three turns per instruction of the block are enough. -/
def runOnBasicBlock (st : PassState) (BB : Nat) : Option (PassState × Bool) :=
  match runOnBasicBlockLoop (3 * (st.M.block BB).length) st BB (st.M.block BB).head? with
  | none => none
  | some st2 => some (st2, true)

/-- The loop of `runOnFunction` over the blocks of a function, from the
value `Transformed`. -/
def runOnFunctionLoop (st : PassState) (Transformed : Bool) :
    List Nat → Option (PassState × Bool)
  | [] => some (st, Transformed)
  | BB :: rest =>
    match runOnBasicBlock st BB with
    | none => none
    | some (st2, true) => runOnFunctionLoop st2 true rest
    | some (st2, false) => runOnFunctionLoop st2 Transformed rest

/-- The function `runOnFunction` on a function given by its blocks. -/
def runOnFunction (st : PassState) (F : List Nat) : Option (PassState × Bool) :=
  runOnFunctionLoop st false F

/-- The loop of `LocalOpts::run` over the functions of the module. -/
def runLoop (st : PassState) : List (List Nat) → Option (PassState × PreservedAnalyses)
  | [] => some (st, PreservedAnalyses.all)
  | F :: rest =>
    match runOnFunction st F with
    | none => none
    | some (st2, true) => some (st2, PreservedAnalyses.none)
    | some (st2, false) => runLoop st2 rest

/-- The method `LocalOpts::run`: the module after the run and the lines
printed, and the analyses it reports as preserved. -/
def run (M : Module) : Option (PassState × PreservedAnalyses) :=
  runLoop ⟨M, []⟩ M.functions

/-! ### Example module with two functions

    define i32 @f(i32 %x):   block 0:  %0 = add i32 %x, 0;    ret i32 %0   (address 1)
    define i32 @g(i32 %y):   block 1:  %2 = mul i32 %y, 1;    ret i32 %2   (address 3)

`%x` and `%y` are the other values 0 and 1. -/

/-- Instructions of the example module, by address. -/
def twoFunctionsInst : Nat → Instruction
  | 0 => ⟨Opcode.Add, [Value.other 0, Value.constantInt ⟨32, 0⟩]⟩
  | 1 => ⟨Opcode.Ret, [Value.instruction 0]⟩
  | 2 => ⟨Opcode.Mul, [Value.other 1, Value.constantInt ⟨32, 1⟩]⟩
  | _ => ⟨Opcode.Ret, [Value.instruction 2]⟩

/-- Blocks of the example module, by address. -/
def twoFunctionsBlock : Nat → List Nat
  | 0 => [0, 1]
  | 1 => [2, 3]
  | _ => []

/-- The example module: the functions `f` (block 0) and `g` (block 1). -/
def twoFunctionsM : Module where
  inst := twoFunctionsInst
  block := twoFunctionsBlock
  functions := [[0], [1]]
  nextInst := 4

/-- A block of the module `M` given to the pass is visited when line 245
printed its first instruction: `runOnBasicBlock` prints it at the first turn
of its loop.  A block of a function with a body has a first instruction. -/
def visited (st : PassState) (M : Module) (BB : Nat) : Bool :=
  match (M.block BB).head? with
  | none => false
  | some a => decide (a ∈ st.outs)

/-! ### Example module with a signed division

    define i8 @h(i8 %x):   block 0:  %0 = sdiv i8 %x, 4;    ret i8 %0   (address 1)

`%x` is the other value 0. -/

/-- The example module with a signed division. -/
def sdivM : Module where
  inst := fun a =>
    if a = 0 then ⟨Opcode.SDiv, [Value.other 0, Value.constantInt ⟨8, 4⟩]⟩
    else ⟨Opcode.Ret, [Value.instruction 0]⟩
  block := fun b => if b = 0 then [0, 1] else []
  functions := [[0]]
  nextInst := 2

end LocalOpts

namespace LoopFusion

/-! ## Lemmas on loops over lists and on sets -/

/-- A loop body that leaves the state unchanged on every element leaves it
unchanged on the list. -/
theorem forEachM_fixed {σ α : Type} (f : σ → α → Option σ) (s : σ) (l : List α)
    (h : ∀ a ∈ l, f s a = some s) : forEachM f s l = some s := by
  induction l with
  | nil => rfl
  | cons a as ih =>
    have ha : f s a = some s := h a (List.mem_cons_self a as)
    simp only [forEachM, ha]
    exact ih (fun b hb => h b (List.mem_cons_of_mem a hb))

/-- A property kept by every successful step holds after the loop. -/
theorem forEachM_invariant {σ α : Type} (f : σ → α → Option σ) (P : σ → Prop) (l : List α)
    (hstep : ∀ s a s2, a ∈ l → P s → f s a = some s2 → P s2) :
    ∀ s s2, P s → forEachM f s l = some s2 → P s2 := by
  induction l with
  | nil =>
    intro s s2 hs h
    simp only [forEachM, Option.some.injEq] at h
    exact h ▸ hs
  | cons a as ih =>
    intro s s2 hs h
    simp only [forEachM] at h
    cases hfa : f s a with
    | none => simp [hfa] at h
    | some s1 =>
      simp only [hfa] at h
      exact ih (fun t b t2 hb => hstep t b t2 (List.mem_cons_of_mem a hb)) s1 s2
        (hstep s a s1 (List.mem_cons_self a as) hs hfa) h

/-- A loop whose steps succeed and add to a list the elements described by
`ins` succeeds and adds those of every element visited. -/
theorem forEachM_collect {α β : Type} (f : List β → α → Option (List β))
    (ins : α → β → Prop) (l : List α)
    (hstep : ∀ s a, a ∈ l → ∃ s2, f s a = some s2 ∧ ∀ q, q ∈ s2 ↔ q ∈ s ∨ ins a q) :
    ∀ s, ∃ s2, forEachM f s l = some s2 ∧ ∀ q, q ∈ s2 ↔ q ∈ s ∨ ∃ a ∈ l, ins a q := by
  induction l with
  | nil =>
    intro s
    exact ⟨s, rfl, fun q => by simp⟩
  | cons a as ih =>
    intro s
    obtain ⟨s1, h1, hm1⟩ := hstep s a (List.mem_cons_self a as)
    obtain ⟨s2, h2, hm2⟩ := ih (fun t b hb => hstep t b (List.mem_cons_of_mem a hb)) s1
    refine ⟨s2, by simp only [forEachM, h1, h2], fun q => ?_⟩
    rw [hm2 q, hm1 q]
    simp only [List.mem_cons, exists_eq_or_imp]
    tauto

/-- Two pairs of addresses that the order of the set does not separate are
equal. -/
theorem pairLt_equiv (x y : Nat × Nat) (h1 : pairLt x y = false)
    (h2 : pairLt y x = false) : x = y := by
  obtain ⟨a, b⟩ := x
  obtain ⟨c, d⟩ := y
  simp only [pairLt, Bool.or_eq_false_iff, Bool.and_eq_false_iff, decide_eq_false_iff_not,
    Bool.not_eq_false', decide_eq_true_eq] at h1 h2
  have hac : a = c := Nat.le_antisymm (Nat.le_of_not_lt h2.1) (Nat.le_of_not_lt h1.1)
  subst hac
  have hbd : b = d :=
    Nat.le_antisymm (Nat.le_of_not_lt (h2.2.resolve_left (Nat.lt_irrefl a)))
      (Nat.le_of_not_lt (h1.2.resolve_left (Nat.lt_irrefl a)))
  rw [hbd]

/-- Membership after an insertion in the set of pairs. -/
theorem mem_pair (L1 L2 : LoopPtr) (set : List (LoopPtr × LoopPtr)) (q : LoopPtr × LoopPtr) :
    q ∈ pair L1 L2 set ↔ q ∈ set ∨ q = (L1, L2) := by
  unfold pair
  induction set with
  | nil => simp [setInsert]
  | cons y ys ih =>
    unfold setInsert
    cases h1 : pairLt (L1, L2) y with
    | true =>
      simp only [if_true, List.mem_cons]
      tauto
    | false =>
      cases h2 : pairLt y (L1, L2) with
      | true =>
        simp only [Bool.false_eq_true, if_true, if_false, List.mem_cons, ih]
        tauto
      | false =>
        have hxy : (L1, L2) = y := pairLt_equiv (L1, L2) y h1 h2
        simp only [Bool.false_eq_true, if_false, List.mem_cons]
        constructor
        · intro h
          exact Or.inl h
        · rintro (h | h)
          · exact h
          · exact Or.inl (h.trans hxy)

/-! ## Dependence check (`negDependencies`) -/

/-- The offset test records operand 0 of the index instruction when that
operand is an instruction that is neither a phi nor a subtraction. -/
theorem negDependenciesOffset_records (F : Function) (dep : List InstId) (inst2 p : InstId)
    (h0 : (F.inst inst2).getOperand 0 = some (Value.instruction p))
    (h1 : (F.inst p).opcode ≠ Opcode.PHI) (h2 : (F.inst p).opcode ≠ Opcode.Sub) :
    negDependenciesOffset F dep inst2 = some (setInsert instLt p dep) := by
  unfold negDependenciesOffset
  rw [h0]
  simp only

/-- Claim C1 fails on the code: in the example whose second loop reads
`A[j + 1]`, the first loop indexes array `A`, instruction 14 of the second
loop accesses `A` and its index operand is the addition `j + 1` of the phi
and a constant, yet `negDependencies` records no violation and returns true.
The code tests the opcode of operand 0 of the index instruction, here the phi,
not the opcode of the index instruction. -/
theorem negDependencies_accepts_read_ahead :
    CrossLoopAccess readAheadF twoLoopsL1 twoLoopsL2 (Value.argument 0) 14 ∧
    IndexIs Opcode.Add readAheadF 14 13 ∧
    negDependenciesSet readAheadF twoLoopsL1 twoLoopsL2 = some [] ∧
    negDependencies readAheadF twoLoopsL1 twoLoopsL2 = some true :=
  ⟨⟨⟨2, by decide, 4, by decide, rfl, rfl⟩, by decide, by decide⟩,
    ⟨10, 1, rfl, rfl, rfl, rfl⟩, by decide, by decide⟩

/-- Uses of the array `A` in the example that reads `A[j]`. -/
theorem readSameF_uses :
    readSameF.uses (Value.argument 0) = [User.instruction 4, User.instruction 14] := by
  decide

/-- Claim C3 fails on the code: in the example whose second loop reads `A[j]`,
every use inside the second loop of the array indexed in the first loop has
the phi `j` itself as index, yet `negDependencies` records instruction 17 (the
increment, first incoming value of the phi) and returns false. -/
theorem negDependencies_rejects_phi_index :
    ArrayUsesInSecond (IndexIsPhi readSameF) readSameF twoLoopsL1 twoLoopsL2 ∧
    (readSameF.inst 10).operands = [Value.instruction 17, Value.constant 0] ∧
    negDependenciesSet readSameF twoLoopsL1 twoLoopsL2 = some [17] ∧
    negDependencies readSameF twoLoopsL1 twoLoopsL2 = some false := by
  refine ⟨?_, rfl, by decide, by decide⟩
  intro BB hBB I hI hop
  have hI4 : I = 4 := by
    simp only [Loop.getBlocks, twoLoopsL1, List.mem_cons, List.mem_singleton,
      List.not_mem_nil, or_false] at hBB
    rcases hBB with rfl | rfl | rfl <;>
      simp only [readSameF, twoLoops, twoLoopsBlock, List.mem_cons, List.mem_singleton,
        List.not_mem_nil, or_false] at hI <;>
      rcases hI with rfl | rfl | rfl <;> first | rfl | (exact absurd hop (by decide))
  subst hI4
  refine ⟨Value.argument 0, rfl, by decide, ?_⟩
  intro inst hu hc
  rw [readSameF_uses] at hu
  simp only [List.mem_cons, List.mem_singleton, List.not_mem_nil, or_false,
    User.instruction.injEq] at hu
  rcases hu with rfl | rfl
  · exact absurd hc (by decide)
  · exact ⟨10, rfl, rfl⟩

/-! ## Control flow equivalence (`checkEquivalence`) and trip count -/

/-- Claim C4 fails on the code: in the guarded example both loops are guarded,
the guard conditions are two different function arguments, and with the
dominator and post-dominator relations of the example `checkEquivalence`
returns true.  The comparison of the conditions is made only when both are
instructions. -/
theorem checkEquivalence_accepts_different_guards :
    guardedL1.isGuarded = true ∧ guardedL2.isGuarded = true ∧
    (guardedF.inst 0).getCondition = some (Value.argument 2) ∧
    (guardedF.inst 10).getCondition = some (Value.argument 3) ∧
    checkEquivalence guardedF guardedL1 guardedL2 guardedDT guardedPDT = some true := by
  decide

/-- Claim C5: `TripCount` returns true exactly when both backedge taken counts
are computable and are the same expression; a count that is not computable
gives false, also when both answers are the same object. -/
theorem TripCount_true_iff (L1 L2 : LoopPtr) (SE : ScalarEvolution) :
    (TripCount L1 L2 SE = true ↔
      SE.getSCEVType (SE.getBackedgeTakenCount L1) ≠ SCEVTypes.scCouldNotCompute ∧
      SE.getSCEVType (SE.getBackedgeTakenCount L2) ≠ SCEVTypes.scCouldNotCompute ∧
      SE.getBackedgeTakenCount L1 = SE.getBackedgeTakenCount L2) ∧
    (SE.getSCEVType (SE.getBackedgeTakenCount L1) = SCEVTypes.scCouldNotCompute ∨
      SE.getSCEVType (SE.getBackedgeTakenCount L2) = SCEVTypes.scCouldNotCompute →
      TripCount L1 L2 SE = false) := by
  unfold TripCount
  by_cases h1 : SE.getSCEVType (SE.getBackedgeTakenCount L1) = SCEVTypes.scCouldNotCompute <;>
  by_cases h2 : SE.getSCEVType (SE.getBackedgeTakenCount L2) = SCEVTypes.scCouldNotCompute <;>
  by_cases h3 : SE.getBackedgeTakenCount L1 = SE.getBackedgeTakenCount L2 <;>
  simp [h1, h2, h3]

/-- Claim C5 at a scalar evolution whose answer for both loops is the one
object that stands for a count that is not computable: the result is false. -/
theorem TripCount_true_iff_witness :
    TripCount 0 1 ⟨fun _ => 3, fun _ => SCEVTypes.scCouldNotCompute⟩ = false :=
  (TripCount_true_iff 0 1 ⟨fun _ => 3, fun _ => SCEVTypes.scCouldNotCompute⟩).2 (Or.inl rfl)

/-- With the dominance test alone: the result of `checkEquivalence` when the
first loop is unguarded. -/
theorem checkEquivalence_unguarded (F : Function) (L1 L2 : Loop)
    (DT PDT : BlockId → BlockId → Bool) (h : L1.isGuarded = false) :
    checkEquivalence F L1 L2 DT PDT =
      some (DT L1.getHeader L2.getHeader && PDT L2.getHeader L1.getHeader) := by
  have hg : L1.getLoopGuardBranch = none := by
    cases hb : L1.getLoopGuardBranch with
    | none => rfl
    | some g => simp [Loop.isGuarded, hb] at h
  simp [checkEquivalence, guardConditionsDiffer, dominancePair, hg]

/-- When `checkEquivalence` returns true for a guarded first loop, both loops
have a guard branch and the dominance pair holds on the guard blocks. -/
theorem checkEquivalence_guarded (F : Function) (L1 L2 : Loop)
    (DT PDT : BlockId → BlockId → Bool) (h : L1.isGuarded = true)
    (hret : checkEquivalence F L1 L2 DT PDT = some true) :
    ∃ g1 g2, L1.getLoopGuardBranch = some g1 ∧ L2.getLoopGuardBranch = some g2 ∧
      DT (F.inst g1).parent (F.inst g2).parent = true ∧
      PDT (F.inst g2).parent (F.inst g1).parent = true := by
  cases hb1 : L1.getLoopGuardBranch with
  | none => simp [Loop.isGuarded, hb1] at h
  | some g1 =>
    unfold checkEquivalence at hret
    cases hd : guardConditionsDiffer F L1 L2 with
    | none => simp [hd] at hret
    | some d =>
      cases d with
      | true => simp [hd] at hret
      | false =>
        simp only [hd, dominancePair, hb1] at hret
        cases hb2 : L2.getLoopGuardBranch with
        | none => simp [hb2] at hret
        | some g2 =>
          simp only [hb2, Option.some.injEq, Bool.and_eq_true] at hret
          exact ⟨g1, g2, rfl, rfl, hret.1, hret.2⟩

/-- Claim C8: when `checkEquivalence` returns true, the dominance pair holds on
the guard blocks if the first loop is guarded (the second is then guarded
too) and on the headers if it is unguarded; and for an unguarded first loop
the result is true whenever the pair holds on the headers. -/
theorem checkEquivalence_dominance (F : Function) (L1 L2 : Loop)
    (DT PDT : BlockId → BlockId → Bool) :
    (checkEquivalence F L1 L2 DT PDT = some true →
      (L1.isGuarded = true →
        ∃ g1 g2, L1.getLoopGuardBranch = some g1 ∧ L2.getLoopGuardBranch = some g2 ∧
          DT (F.inst g1).parent (F.inst g2).parent = true ∧
          PDT (F.inst g2).parent (F.inst g1).parent = true) ∧
      (L1.isGuarded = false →
        DT L1.getHeader L2.getHeader = true ∧ PDT L2.getHeader L1.getHeader = true)) ∧
    (L1.isGuarded = false → DT L1.getHeader L2.getHeader = true →
      PDT L2.getHeader L1.getHeader = true → checkEquivalence F L1 L2 DT PDT = some true) := by
  refine ⟨fun hret => ⟨fun hg => checkEquivalence_guarded F L1 L2 DT PDT hg hret, fun hg => ?_⟩,
    fun hg h1 h2 => ?_⟩
  · rw [checkEquivalence_unguarded F L1 L2 DT PDT hg] at hret
    simpa using hret
  · rw [checkEquivalence_unguarded F L1 L2 DT PDT hg, h1, h2]
    rfl

/-- Claim C8 at the examples: in the guarded example `checkEquivalence`
returns true and the first guard block dominates the second, which
post-dominates it; in the example of two unguarded counted loops the header
pair holds and `checkEquivalence` returns true. -/
theorem checkEquivalence_dominance_witness :
    (∃ g1 g2, guardedL1.getLoopGuardBranch = some g1 ∧ guardedL2.getLoopGuardBranch = some g2 ∧
      guardedDT (guardedF.inst g1).parent (guardedF.inst g2).parent = true ∧
      guardedPDT (guardedF.inst g2).parent (guardedF.inst g1).parent = true) ∧
    checkEquivalence readBehindF twoLoopsL1 twoLoopsL2 twoLoopsAM.dominates
      twoLoopsAM.postDominates = some true :=
  ⟨((checkEquivalence_dominance guardedF guardedL1 guardedL2 guardedDT guardedPDT).1
      (by decide)).1 rfl,
    (checkEquivalence_dominance readBehindF twoLoopsL1 twoLoopsL2 twoLoopsAM.dominates
      twoLoopsAM.postDominates).2 (by decide) (by decide) (by decide)⟩

/-! ## Adjacency (`adjLoops`) -/

/-- One test of `adjLoops`: it succeeds unless both loops are guarded and the
first has no exit block, and it inserts the pair exactly when the loops are
adjacent. -/
theorem adjLoopsPair_spec (F : Function) (LI : LoopInfo) (L1 L2 : LoopPtr)
    (S : List (LoopPtr × LoopPtr))
    (h : (LI.loop L1).isGuarded = true → (LI.loop L2).isGuarded = true →
      (LI.loop L1).getExitBlock ≠ none) :
    ∃ S2, adjLoopsPair F LI L1 S L2 = some S2 ∧
      ∀ q, q ∈ S2 ↔ q ∈ S ∨ (q = (L1, L2) ∧ Adjacent F LI L1 L2) := by
  unfold adjLoopsPair Adjacent
  by_cases hg : ((LI.loop L1).isGuarded && (LI.loop L2).isGuarded) = true
  · have hg2 := hg
    simp only [Bool.and_eq_true] at hg2
    simp only [hg, if_true]
    cases he : (LI.loop L1).getExitBlock with
    | none => exact absurd he (h hg2.1 hg2.2)
    | some e =>
      cases hb : (LI.loop L2).getLoopGuardBranch with
      | none => simp [Loop.isGuarded, hb] at hg2
      | some g =>
        by_cases hs : F.getSingleSuccessor e = some (F.inst g).parent
        · refine ⟨pair L1 L2 S, by simp [hs], fun q => ?_⟩
          rw [mem_pair]
          simp [hs]
        · refine ⟨S, by simp [hs], fun q => ?_⟩
          simp [hs]
  · simp only [hg, if_false, Bool.false_eq_true]
    by_cases hs : (LI.loop L1).getExitBlock = (LI.loop L2).getLoopPreheader
    · refine ⟨pair L1 L2 S, by simp [hs], fun q => ?_⟩
      rw [mem_pair]
      simp [hs]
    · refine ⟨S, by simp [hs], fun q => ?_⟩
      simp [hs]

/-- The set built by `adjLoops`: when every guarded loop has an exit block the
function returns, and the set holds the pairs it started with and the pairs
of top level loops that pass the test. -/
theorem adjLoops_spec (F : Function) (LI : LoopInfo) (S : List (LoopPtr × LoopPtr))
    (h : ∀ L ∈ LI.topLevel, (LI.loop L).isGuarded = true → (LI.loop L).getExitBlock ≠ none) :
    ∃ S2, adjLoops F S LI = some S2 ∧
      ∀ q, q ∈ S2 ↔ q ∈ S ∨
        ∃ L1 ∈ LI.topLevel, ∃ L2 ∈ LI.topLevel, q = (L1, L2) ∧ Adjacent F LI L1 L2 := by
  unfold adjLoops
  exact forEachM_collect _
    (fun L1 q => ∃ L2 ∈ LI.topLevel, q = (L1, L2) ∧ Adjacent F LI L1 L2) LI.topLevel
    (fun s L1 hL1 => forEachM_collect _ (fun L2 q => q = (L1, L2) ∧ Adjacent F LI L1 L2)
      LI.topLevel (fun t L2 _ => adjLoopsPair_spec F LI L1 L2 t (fun hg _ => h L1 hL1 hg)) s) S

/-- Pairs of loops that are not both guarded: when `adjLoops` returns, such a
pair is in the set exactly when the two pointers `getExitBlock()` of the first
loop and `getLoopPreheader()` of the second are equal, two null pointers
included. -/
theorem adjLoops_unguarded_iff (F : Function) (LI : LoopInfo)
    (h : ∀ L ∈ LI.topLevel, (LI.loop L).isGuarded = true → (LI.loop L).getExitBlock ≠ none) :
    ∃ S, adjLoops F [] LI = some S ∧
      ∀ L1 ∈ LI.topLevel, ∀ L2 ∈ LI.topLevel,
        ((LI.loop L1).isGuarded && (LI.loop L2).isGuarded) = false →
        ((L1, L2) ∈ S ↔ (LI.loop L1).getExitBlock = (LI.loop L2).getLoopPreheader) := by
  obtain ⟨S, hS, hmem⟩ := adjLoops_spec F LI [] h
  refine ⟨S, hS, fun L1 h1 L2 h2 hg => ?_⟩
  rw [hmem]
  constructor
  · rintro (hnil | ⟨A, _, B, _, heq, hadj⟩)
    · exact absurd hnil (List.not_mem_nil _)
    · simp only [Prod.mk.injEq] at heq
      obtain ⟨rfl, rfl⟩ := heq
      simpa [Adjacent, hg] using hadj
  · intro hadj
    refine Or.inr ⟨L1, h1, L2, h2, rfl, ?_⟩
    simpa [Adjacent, hg] using hadj

/-- Claim C6 fails on the code: in the example with several exits both loops
are unguarded, the first has no single exit block, the second has no
preheader and two blocks lie between them, yet `adjLoops` puts the pair of
the first and the second loop in the set: two null pointers compare equal. -/
theorem adjLoops_pairs_missing_blocks :
    (tangledLI.loop 0).isGuarded = false ∧ (tangledLI.loop 1).isGuarded = false ∧
    (tangledLI.loop 0).getExitBlock = none ∧ (tangledLI.loop 1).getLoopPreheader = none ∧
    ∃ S, adjLoops tangledF [] tangledLI = some S ∧ (0, 1) ∈ S :=
  ⟨rfl, rfl, rfl, rfl, [(0, 0), (0, 1)], by decide, by decide⟩

/-- Guarded pairs: for guarded top level loops with an exit block, `adjLoops`
returns a set, and a pair of guarded loops is in it exactly when the exit
block of the first has a single successor and that successor is the block of
the guard branch of the second. -/
theorem adjLoops_guarded_iff (F : Function) (LI : LoopInfo)
    (h : ∀ L ∈ LI.topLevel, (LI.loop L).isGuarded = true → (LI.loop L).getExitBlock ≠ none) :
    ∃ S, adjLoops F [] LI = some S ∧
      ∀ L1 ∈ LI.topLevel, ∀ L2 ∈ LI.topLevel,
        (LI.loop L1).isGuarded = true → (LI.loop L2).isGuarded = true →
        ((L1, L2) ∈ S ↔
          ∃ e g, (LI.loop L1).getExitBlock = some e ∧
            (LI.loop L2).getLoopGuardBranch = some g ∧
            F.getSingleSuccessor e = some (F.inst g).parent) := by
  obtain ⟨S, hS, hmem⟩ := adjLoops_spec F LI [] h
  refine ⟨S, hS, fun L1 h1 L2 h2 hg1 hg2 => ?_⟩
  rw [hmem]
  constructor
  · rintro (hnil | ⟨A, _, B, _, heq, hadj⟩)
    · exact absurd hnil (List.not_mem_nil _)
    · simp only [Prod.mk.injEq] at heq
      obtain ⟨rfl, rfl⟩ := heq
      simpa [Adjacent, hg1, hg2] using hadj
  · intro hadj
    refine Or.inr ⟨L1, h1, L2, h2, rfl, ?_⟩
    simpa [Adjacent, hg1, hg2] using hadj

/-- Guarded pairs at the guarded example: `adjLoops` returns a set that holds the
pair of the first and the second loop, the exit block of the first loop
having the block of the second guard as its single successor. -/
theorem adjLoops_guarded_iff_witness :
    ∃ S, adjLoops guardedF [] guardedLI = some S ∧ (0, 1) ∈ S := by
  obtain ⟨S, hS, hiff⟩ := adjLoops_guarded_iff guardedF guardedLI (by decide)
  exact ⟨S, hS, (hiff 0 (by decide) 1 (by decide) rfl rfl).2 ⟨4, 10, rfl, rfl, by decide⟩⟩

/-- Claim C9 fails on the code: in the example with several exits the first
loop has no single exit block and no preheader, and `adjLoops` puts the pair
of that loop with itself in the set. -/
theorem adjLoops_emits_self_pair :
    (tangledLI.loop 0).getExitBlock = none ∧ (tangledLI.loop 0).getLoopPreheader = none ∧
    adjLoops tangledF [] tangledLI = some [(0, 0), (0, 1)] :=
  ⟨rfl, rfl, by decide⟩

/-! ## Driver (`LoopFusion::run`) -/

/-- A pair that fails the checks is skipped: the state of the driver does not
change. -/
theorem runPair_skip (AM : FunctionAnalysisManager) (st : RunState) (loop : LoopPtr × LoopPtr)
    (h : passesChecks AM st.F loop = some false) : runPair AM st loop = some st := by
  unfold passesChecks at h
  cases hce : checkEquivalence st.F (AM.loop st.F loop.1) (AM.loop st.F loop.2) AM.dominates
      AM.postDominates with
  | none => simp [hce] at h
  | some b =>
    cases b with
    | false => simp [runPair, hce]
    | true =>
      simp only [hce] at h
      cases htc : TripCount loop.1 loop.2 AM.SE with
      | false => simp [runPair, hce, htc]
      | true =>
        simp only [htc, if_true] at h
        simp [runPair, hce, htc, h]

/-- An iteration of the driver either leaves the state unchanged or follows
three checks that returned true and a call of the transformer that returned,
and then records the pair and sets the flag. -/
theorem runPair_cases (AM : FunctionAnalysisManager) (st st2 : RunState)
    (loop : LoopPtr × LoopPtr) (h : runPair AM st loop = some st2) :
    st2 = st ∨
    (checkEquivalence st.F (AM.loop st.F loop.1) (AM.loop st.F loop.2) AM.dominates
        AM.postDominates = some true ∧
      TripCount loop.1 loop.2 AM.SE = true ∧
      negDependencies st.F (AM.loop st.F loop.1) (AM.loop st.F loop.2) = some true ∧
      ∃ F2, loopFusion st.F (AM.loop st.F loop.1) (AM.loop st.F loop.2) = some F2 ∧
        st2 = ⟨F2, true, st.fused ++ [(st.F, loop)]⟩) := by
  unfold runPair at h
  cases hce : checkEquivalence st.F (AM.loop st.F loop.1) (AM.loop st.F loop.2) AM.dominates
      AM.postDominates with
  | none => simp [hce] at h
  | some b =>
    cases b with
    | false =>
      simp only [hce, Option.some.injEq] at h
      exact Or.inl h.symm
    | true =>
      simp only [hce] at h
      cases htc : TripCount loop.1 loop.2 AM.SE with
      | false =>
        simp only [htc, Bool.not_false, if_true, Option.some.injEq] at h
        exact Or.inl h.symm
      | true =>
        simp only [htc, Bool.not_true, Bool.false_eq_true, if_false] at h
        cases hnd : negDependencies st.F (AM.loop st.F loop.1) (AM.loop st.F loop.2) with
        | none => simp [hnd] at h
        | some d =>
          cases d with
          | false =>
            simp only [hnd, Option.some.injEq] at h
            exact Or.inl h.symm
          | true =>
            simp only [hnd] at h
            cases hlf : loopFusion st.F (AM.loop st.F loop.1) (AM.loop st.F loop.2) with
            | none => simp [hlf] at h
            | some F2 =>
              simp only [hlf, Option.some.injEq] at h
              exact Or.inr ⟨rfl, rfl, rfl, F2, rfl, h.symm⟩

/-- An iteration of the driver keeps the invariant. -/
theorem runPair_invariant (AM : FunctionAnalysisManager) (F0 : Function)
    (adj : List (LoopPtr × LoopPtr)) (st : RunState) (loop : LoopPtr × LoopPtr)
    (st2 : RunState) (hloop : loop ∈ adj) (hinv : RunInvariant AM F0 adj st)
    (h : runPair AM st loop = some st2) : RunInvariant AM F0 adj st2 := by
  rcases runPair_cases AM st st2 loop h with rfl | ⟨hce, htc, hnd, F2, hlf, rfl⟩
  · exact hinv
  · obtain ⟨h1, _, _⟩ := hinv
    refine ⟨fun e he => ?_, by simp, by simp⟩
    simp only [List.mem_append, List.mem_singleton] at he
    rcases he with he | rfl
    · exact h1 e he
    · exact ⟨hloop, hce, htc, hnd, by simp [hlf]⟩

/-- The driver in general: in an iteration a check that returns false ends
the iteration with the state unchanged, whatever the later checks would
answer, and the transformer is called after three checks that returned true;
when `run` returns, every fused pair is adjacent and passed the three checks
on the IR it was fused in, `none` preserved is reported exactly when a pair
was fused, and without a fused pair the IR is the one given; when every
adjacent pair fails a check, `run` returns the IR it was given with all
analyses preserved, and so does a second run. -/
theorem run_fuses_checked_pairs (F : Function) (AM : FunctionAnalysisManager) :
    (∀ (st : RunState) (loop : LoopPtr × LoopPtr),
      (checkEquivalence st.F (AM.loop st.F loop.1) (AM.loop st.F loop.2) AM.dominates
          AM.postDominates = some false → runPair AM st loop = some st) ∧
      (checkEquivalence st.F (AM.loop st.F loop.1) (AM.loop st.F loop.2) AM.dominates
          AM.postDominates = some true → TripCount loop.1 loop.2 AM.SE = false →
        runPair AM st loop = some st) ∧
      (checkEquivalence st.F (AM.loop st.F loop.1) (AM.loop st.F loop.2) AM.dominates
          AM.postDominates = some true → TripCount loop.1 loop.2 AM.SE = true →
        negDependencies st.F (AM.loop st.F loop.1) (AM.loop st.F loop.2) = some false →
        runPair AM st loop = some st) ∧
      (checkEquivalence st.F (AM.loop st.F loop.1) (AM.loop st.F loop.2) AM.dominates
          AM.postDominates = some true → TripCount loop.1 loop.2 AM.SE = true →
        negDependencies st.F (AM.loop st.F loop.1) (AM.loop st.F loop.2) = some true →
        runPair AM st loop =
          (loopFusion st.F (AM.loop st.F loop.1) (AM.loop st.F loop.2)).map
            fun F2 => ⟨F2, true, st.fused ++ [(st.F, loop)]⟩)) ∧
    (∀ F2 pa fused, run F AM = some (F2, pa, fused) →
      (∀ e ∈ fused,
        (∃ adj, adjLoops F [] ⟨AM.loops, AM.loop F⟩ = some adj ∧ e.2 ∈ adj) ∧
        checkEquivalence e.1 (AM.loop e.1 e.2.1) (AM.loop e.1 e.2.2) AM.dominates
          AM.postDominates = some true ∧
        TripCount e.2.1 e.2.2 AM.SE = true ∧
        negDependencies e.1 (AM.loop e.1 e.2.1) (AM.loop e.1 e.2.2) = some true ∧
        (loopFusion e.1 (AM.loop e.1 e.2.1) (AM.loop e.1 e.2.2)).isSome = true) ∧
      (pa = PreservedAnalyses.none ↔ fused ≠ []) ∧
      (fused = [] → F2 = F)) ∧
    (∀ adj, adjLoops F [] ⟨AM.loops, AM.loop F⟩ = some adj →
      (∀ loop ∈ adj, passesChecks AM F loop = some false) →
      ∃ F2, run F AM = some (F2, PreservedAnalyses.all, []) ∧ F2 = F ∧
        run F2 AM = some (F2, PreservedAnalyses.all, [])) := by
  refine ⟨fun st loop => ⟨?_, ?_, ?_, ?_⟩, ?_, ?_⟩
  · intro hce
    simp [runPair, hce]
  · intro hce htc
    simp [runPair, hce, htc]
  · intro hce htc hnd
    simp [runPair, hce, htc, hnd]
  · intro hce htc hnd
    cases hlf : loopFusion st.F (AM.loop st.F loop.1) (AM.loop st.F loop.2) <;>
      simp [runPair, hce, htc, hnd, hlf]
  · intro F2 pa fused hrun
    unfold run at hrun
    cases hadj : adjLoops F [] ⟨AM.loops, AM.loop F⟩ with
    | none => simp [hadj] at hrun
    | some adj =>
      simp only [hadj] at hrun
      cases hloop : forEachM (runPair AM) ⟨F, false, []⟩ adj with
      | none => simp [hloop] at hrun
      | some st =>
        simp only [hloop, Option.some.injEq, Prod.mk.injEq] at hrun
        obtain ⟨rfl, rfl, rfl⟩ := hrun
        have hinv : RunInvariant AM F adj st :=
          forEachM_invariant (runPair AM) (RunInvariant AM F adj) adj
            (fun s a s2 ha hs hstep => runPair_invariant AM F adj s a s2 ha hs hstep)
            ⟨F, false, []⟩ st ⟨by simp, by simp, fun _ => rfl⟩ hloop
        obtain ⟨h1, h2, h3⟩ := hinv
        refine ⟨fun e he => ?_, ?_, h3⟩
        · obtain ⟨ha, hrest⟩ := h1 e he
          exact ⟨⟨adj, rfl, ha⟩, hrest⟩
        · rw [← h2]
          cases st.modified <;> simp
  · intro adj hadj hfail
    have hloop : forEachM (runPair AM) ⟨F, false, []⟩ adj = some ⟨F, false, []⟩ :=
      forEachM_fixed _ _ _ (fun loop hl => runPair_skip AM ⟨F, false, []⟩ loop (hfail loop hl))
    have hrun : run F AM = some (F, PreservedAnalyses.all, []) := by
      simp [run, hadj, hloop]
    exact ⟨F, hrun, rfl, hrun⟩

/-- Pairs that `adjLoops` finds in the example whose second loop reads
`A[j]`. -/
theorem readSameF_adjacent :
    adjLoops readSameF [] ⟨twoLoopsAM.loops, twoLoopsAM.loop readSameF⟩ = some [(0, 1)] := by
  decide

/-- The driver at the examples.  In the example whose second loop reads `A[j]`
the one adjacent pair fails the dependence check, so `run` returns the
function it was given and reports all analyses preserved, the first time and
the second.  In the example whose second loop reads `A[j - 1]` the three
checks return true and the iteration of the driver is the call of the
transformer, which returns. -/
theorem run_fuses_checked_pairs_witness :
    (∃ F2, run readSameF twoLoopsAM = some (F2, PreservedAnalyses.all, []) ∧ F2 = readSameF ∧
      run F2 twoLoopsAM = some (F2, PreservedAnalyses.all, [])) ∧
    runPair twoLoopsAM ⟨readBehindF, false, []⟩ (0, 1) =
      (loopFusion readBehindF twoLoopsL1 twoLoopsL2).map
        (fun F2 => ⟨F2, true, [(readBehindF, (0, 1))]⟩) ∧
    (loopFusion readBehindF twoLoopsL1 twoLoopsL2).isSome = true :=
  ⟨(run_fuses_checked_pairs readSameF twoLoopsAM).2.2 [(0, 1)] readSameF_adjacent (by decide),
    ((run_fuses_checked_pairs readBehindF twoLoopsAM).1 ⟨readBehindF, false, []⟩ (0, 1)).2.2.2
      (by decide) (by decide) (by decide),
    by decide⟩

/-! ## Transformer and driver on the examples -/

/-- An option that is present is its value. -/
theorem some_getD {α : Type} (o : Option α) (d : α) (h : o.isSome = true) :
    o = some (o.getD d) := by
  cases o with
  | none => simp at h
  | some a => rfl

/-- An iteration of the driver whose three checks return true calls the
transformer and, when it returns, records the pair and sets the flag. -/
theorem runPair_fuse (AM : FunctionAnalysisManager) (st : RunState) (loop : LoopPtr × LoopPtr)
    (F2 : Function)
    (hce : checkEquivalence st.F (AM.loop st.F loop.1) (AM.loop st.F loop.2) AM.dominates
      AM.postDominates = some true)
    (htc : TripCount loop.1 loop.2 AM.SE = true)
    (hnd : negDependencies st.F (AM.loop st.F loop.1) (AM.loop st.F loop.2) = some true)
    (hlf : loopFusion st.F (AM.loop st.F loop.1) (AM.loop st.F loop.2) = some F2) :
    runPair AM st loop = some ⟨F2, true, st.fused ++ [(st.F, loop)]⟩ := by
  simp [runPair, hce, htc, hnd, hlf]

/-- Claim C11 fails on the code: in the example whose second loop increments
by `add 1, j` the second loop has no canonical induction variable, the pair
is adjacent and passes `checkEquivalence`, `TripCount` and `negDependencies`,
and the transformer dereferences the null pointer: neither `loopFusion` nor
`run` returns. -/
theorem loopFusion_reaches_missing_induction_variable :
    swappedIncrementL2.getCanonicalInductionVariable = none ∧
    adjLoops swappedIncrementF []
      ⟨swappedIncrementAM.loops, swappedIncrementAM.loop swappedIncrementF⟩ = some [(0, 1)] ∧
    passesChecks swappedIncrementAM swappedIncrementF (0, 1) = some true ∧
    (loopFusion swappedIncrementF twoLoopsL1 swappedIncrementL2).isSome = false ∧
    (run swappedIncrementF swappedIncrementAM).isSome = false := by
  refine ⟨rfl, by decide, by decide, by decide, ?_⟩
  have hadj : adjLoops swappedIncrementF []
      ⟨swappedIncrementAM.loops, swappedIncrementAM.loop swappedIncrementF⟩ = some [(0, 1)] := by
    decide
  have hlf : loopFusion swappedIncrementF twoLoopsL1 swappedIncrementL2 = none := by
    cases h : loopFusion swappedIncrementF twoLoopsL1 swappedIncrementL2 with
    | none => rfl
    | some F2 =>
      have : (loopFusion swappedIncrementF twoLoopsL1 swappedIncrementL2).isSome = false := by
        decide
      simp [h] at this
  have hce : checkEquivalence swappedIncrementF twoLoopsL1 swappedIncrementL2
      swappedIncrementAM.dominates swappedIncrementAM.postDominates = some true := by decide
  have htc : TripCount 0 1 swappedIncrementAM.SE = true := by decide
  have hnd : negDependencies swappedIncrementF twoLoopsL1 swappedIncrementL2 = some true := by
    decide
  have hpair : runPair swappedIncrementAM ⟨swappedIncrementF, false, []⟩ (0, 1) = none := by
    show (match checkEquivalence swappedIncrementF twoLoopsL1 swappedIncrementL2
      swappedIncrementAM.dominates swappedIncrementAM.postDominates with
      | none => none
      | some false => some ⟨swappedIncrementF, false, []⟩
      | some true => _) = none
    rw [hce]
    simp only [htc, hnd, hlf]
    rfl
  simp [run, hadj, forEachM, hpair]

/-- Pairs that `adjLoops` finds in the example with three loops. -/
theorem threeLoopsF_adjacent :
    adjLoops threeLoopsF [] ⟨threeLoopsAM.loops, threeLoopsAM.loop threeLoopsF⟩ =
      some [(0, 1), (1, 2)] := by
  decide

/-- Claim C12 fails on the code: in the example with three adjacent loops A,
B, C the driver fuses the pair (A, B) and then passes the pair (B, C) to the
transformer as well: the second pair passes the three checks on the IR left
by the first fusion, and loop B takes part in two fusions. -/
theorem run_fuses_loop_twice :
    run threeLoopsF threeLoopsAM =
      some (threeLoopsFusedBC, PreservedAnalyses.none,
        [(threeLoopsF, (0, 1)), (threeLoopsFusedAB, (1, 2))]) := by
  have h1 : runPair threeLoopsAM ⟨threeLoopsF, false, []⟩ (0, 1) =
      some ⟨threeLoopsFusedAB, true, [(threeLoopsF, (0, 1))]⟩ :=
    runPair_fuse threeLoopsAM ⟨threeLoopsF, false, []⟩ (0, 1) threeLoopsFusedAB
      (by decide) (by decide) (by decide)
      (some_getD (loopFusion threeLoopsF (threeLoopsBefore 0) (threeLoopsBefore 1)) threeLoopsF
        (by decide))
  have h2 : runPair threeLoopsAM ⟨threeLoopsFusedAB, true, [(threeLoopsF, (0, 1))]⟩ (1, 2) =
      some ⟨threeLoopsFusedBC, true, [(threeLoopsF, (0, 1)), (threeLoopsFusedAB, (1, 2))]⟩ :=
    runPair_fuse threeLoopsAM ⟨threeLoopsFusedAB, true, [(threeLoopsF, (0, 1))]⟩ (1, 2)
      threeLoopsFusedBC (by decide) (by decide) (by decide)
      (some_getD (loopFusion threeLoopsFusedAB (threeLoopsAfter 1) (threeLoopsAfter 2))
        threeLoopsFusedAB (by decide))
  simp [run, threeLoopsF_adjacent, forEachM, h1, h2]

/-- Claim C17 fails on the code: in the example whose first header branches
`br cmp, mid, body1` the first loop is entered when the condition is false;
after `loopFusion` the header branches on the same condition to `body1` when
it is true and to the exit of the second loop when it is false.  The new
branch is built with the body as first successor whatever the old branch
was. -/
theorem loopFusion_inverts_header_test :
    twoLoopsL1.isGuarded = false ∧
    (invertedHeaderF.inst 3).getCondition = some (Value.instruction 2) ∧
    invertedHeaderF.getSuccessor 1 0 = some (Value.basicBlock 4) ∧
    invertedHeaderF.getSuccessor 1 1 = some (Value.basicBlock 2) ∧
    (loopFusion invertedHeaderF twoLoopsL1 twoLoopsL2).map
        (fun F2 => (F2.getTerminator 1).map fun t => (F2.inst t).getCondition) =
      some (some (some (Value.instruction 2))) ∧
    (loopFusion invertedHeaderF twoLoopsL1 twoLoopsL2).map (fun F2 => F2.getSuccessor 1 0) =
      some (some (Value.basicBlock 2)) ∧
    (loopFusion invertedHeaderF twoLoopsL1 twoLoopsL2).map (fun F2 => F2.getSuccessor 1 1) =
      some (some (Value.basicBlock 8)) := by
  decide

/-- Claim C18 fails on the code: in the example with two guarded loops of one
block each (header and latch at once) the pair is adjacent and passes the
three checks, and `loopFusion` does not return: the block list of the first
loop without its last block is empty and the transformer takes the last
element of it. -/
theorem loopFusion_fails_on_single_block_loops :
    singleBlockL1.isGuarded = true ∧ singleBlockL2.isGuarded = true ∧
    singleBlockL1.getLoopLatch = some singleBlockL1.getHeader ∧
    adjLoops singleBlockF [] ⟨singleBlockAM.loops, singleBlockAM.loop singleBlockF⟩ =
      some [(0, 1)] ∧
    passesChecks singleBlockAM singleBlockF (0, 1) = some true ∧
    singleBlockL1.lastButOne = none ∧
    (loopFusion singleBlockF singleBlockL1 singleBlockL2).isSome = false := by
  decide

/-! ## Uses of a value across the edits of `loopFusion` -/

/-- Storing an instruction whose operands avoid `v` keeps `v` unused. -/
theorem NoUse_setInst {v : Value} {F : Function} (i : InstId) {I : Instruction}
    (h : NoUse v F) (hI : v ∉ I.operands) : NoUse v (F.setInst i I) := by
  intro j
  show v ∉ (if j = i then I else F.inst j).operands
  split
  · exact hI
  · exact h j

/-- The edit `setSuccessor` with a target other than `v` keeps `v` unused. -/
theorem NoUse_setSuccessor {v B : Value} {F F2 : Function} {t : InstId} {idx : Nat}
    (h : NoUse v F) (hB : B ≠ v) (hs : F.setSuccessor t idx B = some F2) : NoUse v F2 := by
  unfold Function.setSuccessor at hs
  split at hs
  · exact absurd hs (by simp)
  · rename_i k _
    injection hs with hs
    subst hs
    apply NoUse_setInst t h
    intro hm
    rcases List.mem_or_eq_of_mem_set hm with hm | hm
    · exact h t hm
    · exact hB hm.symm

/-- The edit `eraseFromParent` changes no operand. -/
theorem NoUse_eraseFromParent {v : Value} {F : Function} (i : InstId)
    (h : NoUse v F) : NoUse v (F.eraseFromParent i) :=
  fun j => h j

/-- A new branch whose operands avoid `v` keeps `v` unused. -/
theorem NoUse_createBranchBefore {v : Value} {F : Function} {ops : List Value}
    (before : InstId) (h : NoUse v F) (hops : v ∉ ops) :
    NoUse v (F.createBranchBefore ops before) := by
  intro j
  show v ∉ (if j = F.nextInst then (⟨Opcode.Br, ops, (F.inst before).parent, 0, 0⟩ : Instruction)
    else F.inst j).operands
  split
  · exact hops
  · exact h j

/-- Replacing a terminator by a branch whose operands avoid `v` keeps `v`
unused. -/
theorem NoUse_replaceTerminator {v : Value} {F F2 : Function} {B : BlockId}
    {ops : List Value} (h : NoUse v F) (hops : v ∉ ops)
    (hs : F.replaceTerminator B ops = some F2) : NoUse v F2 := by
  unfold Function.replaceTerminator at hs
  split at hs
  · exact absurd hs (by simp)
  · rename_i t _
    simp only at hs
    split at hs
    · exact absurd hs (by simp)
    · injection hs with hs
      subst hs
      exact NoUse_eraseFromParent _ (NoUse_createBranchBefore t h hops)

/-- The statement `retarget` with a target other than `v` keeps `v` unused. -/
theorem NoUse_retarget {v target : Value} {F F2 : Function} {B : Option BlockId}
    (h : NoUse v F) (hB : target ≠ v) (hs : retarget F B target = some F2) : NoUse v F2 := by
  unfold retarget at hs
  split at hs
  · exact absurd hs (by simp)
  · split at hs
    · exact absurd hs (by simp)
    · exact NoUse_setSuccessor h hB hs

/-- The statement `rebranch` keeps `v` unused: the condition of the new branch
is an operand that was there before, and the two targets differ from `v`. -/
theorem NoUse_rebranch {v ifTrue ifFalse : Value} {F F2 : Function} {B : BlockId}
    (h : NoUse v F) (hT : ifTrue ≠ v) (hF : ifFalse ≠ v)
    (hs : rebranch F B ifTrue ifFalse = some F2) : NoUse v F2 := by
  unfold rebranch at hs
  split at hs
  · exact absurd hs (by simp)
  · rename_i last _
    split at hs
    · exact absurd hs (by simp)
    · rename_i cond hc
      apply NoUse_replaceTerminator h _ hs
      intro hm
      simp only [List.mem_cons, List.mem_singleton, List.not_mem_nil, or_false] at hm
      rcases hm with hm | hm | hm
      · subst hm
        unfold Instruction.getOperand at hc
        exact h last (List.get?_mem hc)
      · exact hF hm.symm
      · exact hT hm.symm

/-- A block pointer, null or not, is not an instruction. -/
theorem blockValue_ne_instruction (b : Option BlockId) (i : InstId) :
    blockValue b ≠ Value.instruction i := by
  cases b <;> simp [blockValue]

/-- The edits of the unguarded shape keep an instruction unused. -/
theorem NoUse_loopFusionUnguarded {i : InstId} {F F2 : Function} {L1 L2 : Loop}
    {header1 header2 : BlockId} {latch1 latch2 exit : Option BlockId}
    (h : NoUse (Value.instruction i) F)
    (hs : loopFusionUnguarded F L1 L2 header1 header2 latch1 latch2 exit = some F2) :
    NoUse (Value.instruction i) F2 := by
  unfold loopFusionUnguarded at hs
  split at hs
  · exact absurd hs (by simp)
  split at hs
  · exact absurd hs (by simp)
  split at hs
  · exact absurd hs (by simp)
  rename_i Fa ha
  split at hs
  · exact absurd hs (by simp)
  rename_i Fb hb
  split at hs
  · exact absurd hs (by simp)
  rename_i Fc hc
  split at hs
  · exact absurd hs (by simp)
  have h1 := NoUse_retarget h (by simp) ha
  have h2 := NoUse_retarget h1 (blockValue_ne_instruction _ _) hb
  have h3 := NoUse_replaceTerminator h2
    (by simpa using (blockValue_ne_instruction latch2 i).symm) hc
  exact NoUse_rebranch h3 (by simp) (blockValue_ne_instruction _ _) hs

/-- The edits of the guarded shape keep an instruction unused. -/
theorem NoUse_loopFusionGuarded {i : InstId} {F F2 : Function} {L1 L2 : Loop}
    {header2 : BlockId} {latch1 exit : Option BlockId}
    (h : NoUse (Value.instruction i) F)
    (hs : loopFusionGuarded F L1 L2 header2 latch1 exit = some F2) :
    NoUse (Value.instruction i) F2 := by
  unfold loopFusionGuarded at hs
  split at hs
  · exact absurd hs (by simp)
  simp only at hs
  split at hs
  · exact absurd hs (by simp)
  rename_i Fa ha
  split at hs
  · exact absurd hs (by simp)
  split at hs
  · exact absurd hs (by simp)
  rename_i Fb hb
  split at hs
  · exact absurd hs (by simp)
  rename_i Fc hc
  split at hs
  · exact absurd hs (by simp)
  rename_i Fd hd
  split at hs
  · exact absurd hs (by simp)
  injection hs with hs
  subst hs
  have h1 := NoUse_rebranch h (blockValue_ne_instruction _ _) (blockValue_ne_instruction _ _) ha
  have h2 := NoUse_rebranch h1 (by simp) (blockValue_ne_instruction _ _) hb
  have h3 := NoUse_retarget h2 (by simp) hc
  have h4 := NoUse_retarget h3 (by simp) hd
  exact NoUse_eraseFromParent _ h4

/-- After `replaceAllUsesWith` on `old`, no operand is `old`. -/
theorem NoUse_replaceAllUsesWith {old : InstId} {new : Value} {F F1 : Function}
    (hs : F.replaceAllUsesWith old new = some F1) : NoUse (Value.instruction old) F1 := by
  unfold Function.replaceAllUsesWith at hs
  split at hs
  · exact absurd hs (by simp)
  · rename_i hne
    injection hs with hs
    subst hs
    intro j hm
    simp only [List.mem_map] at hm
    obtain ⟨o, _, ho⟩ := hm
    split at ho
    · exact hne ho
    · rename_i hn
      exact hn ho

/-- The edit `replaceAllUsesWith` by another value returns, substitutes in
every operand list and changes nothing else. -/
theorem replaceAllUsesWith_spec (F : Function) (old : InstId) (new : Value)
    (hne : new ≠ Value.instruction old) :
    ∃ F1, F.replaceAllUsesWith old new = some F1 ∧
      (∀ j, (F1.inst j).operands = (F.inst j).operands.map (substitute old new)) ∧
      (∀ j, (F1.inst j).opcode = (F.inst j).opcode ∧ (F1.inst j).parent = (F.inst j).parent ∧
        (F1.inst j).ty = (F.inst j).ty ∧ (F1.inst j).special = (F.inst j).special) ∧
      F1.block = F.block ∧ F1.layout = F.layout ∧ F1.nextInst = F.nextInst := by
  unfold Function.replaceAllUsesWith
  rw [if_neg hne]
  exact ⟨_, rfl, fun j => rfl, fun j => ⟨rfl, rfl, rfl, rfl⟩, rfl, rfl, rfl⟩

/-- Claim C13: when both loops have a canonical induction variable and the
two differ, line 153 of `loopFusion` succeeds and yields a function in which
each operand is the former operand with the induction variable of `L2`
replaced by that of `L1` (so no other operand changes, and opcodes, parents,
blocks and layout are kept), no operand is the induction variable of `L2`,
and this still holds for the function that `loopFusion` returns. -/
theorem loopFusion_substitutes_induction_variable (F : Function) (L1 L2 : Loop)
    (iv1 iv2 : InstId)
    (h1 : L1.getCanonicalInductionVariable = some iv1)
    (h2 : L2.getCanonicalInductionVariable = some iv2)
    (hne : iv1 ≠ iv2) :
    ∃ F1, F.replaceAllUsesWith iv2 (Value.instruction iv1) = some F1 ∧
      (∀ j, (F1.inst j).operands =
        (F.inst j).operands.map (substitute iv2 (Value.instruction iv1))) ∧
      (∀ j, (F1.inst j).opcode = (F.inst j).opcode ∧ (F1.inst j).parent = (F.inst j).parent ∧
        (F1.inst j).ty = (F.inst j).ty ∧ (F1.inst j).special = (F.inst j).special) ∧
      F1.block = F.block ∧ F1.layout = F.layout ∧
      NoUse (Value.instruction iv2) F1 ∧
      (loopFusion F L1 L2 =
        if !L1.isGuarded then
          loopFusionUnguarded F1 L1 L2 L1.getHeader L2.getHeader L1.getLoopLatch
            L2.getLoopLatch L2.getUniqueExitBlock
        else loopFusionGuarded F1 L1 L2 L2.getHeader L1.getLoopLatch L2.getUniqueExitBlock) ∧
      ∀ F2, loopFusion F L1 L2 = some F2 → NoUse (Value.instruction iv2) F2 := by
  have hv : Value.instruction iv1 ≠ Value.instruction iv2 := by simp [hne]
  obtain ⟨F1, hr, hops, hrest, hblock, hlayout, _⟩ :=
    replaceAllUsesWith_spec F iv2 (Value.instruction iv1) hv
  have hlf : loopFusion F L1 L2 =
      if !L1.isGuarded then
        loopFusionUnguarded F1 L1 L2 L1.getHeader L2.getHeader L1.getLoopLatch
          L2.getLoopLatch L2.getUniqueExitBlock
      else loopFusionGuarded F1 L1 L2 L2.getHeader L1.getLoopLatch L2.getUniqueExitBlock := by
    unfold loopFusion
    simp only [h1, h2, instValue, hr]
  have hn := NoUse_replaceAllUsesWith hr
  refine ⟨F1, hr, hops, hrest, hblock, hlayout, hn, hlf, ?_⟩
  intro F2 hF2
  rw [hlf] at hF2
  split at hF2
  · exact NoUse_loopFusionUnguarded hn hF2
  · exact NoUse_loopFusionGuarded hn hF2

/-- Claim C13 at the example whose second loop reads `A[j - 1]`, where the
induction variables are the phis at addresses 1 and 10 and `loopFusion`
returns. -/
theorem loopFusion_substitutes_induction_variable_witness :
    (loopFusion readBehindF twoLoopsL1 twoLoopsL2).isSome = true ∧
    ∃ F1, readBehindF.replaceAllUsesWith 10 (Value.instruction 1) = some F1 ∧
      (∀ j, (F1.inst j).operands =
        (readBehindF.inst j).operands.map (substitute 10 (Value.instruction 1))) ∧
      (∀ j, (F1.inst j).opcode = (readBehindF.inst j).opcode ∧
        (F1.inst j).parent = (readBehindF.inst j).parent ∧
        (F1.inst j).ty = (readBehindF.inst j).ty ∧
        (F1.inst j).special = (readBehindF.inst j).special) ∧
      F1.block = readBehindF.block ∧ F1.layout = readBehindF.layout ∧
      NoUse (Value.instruction 10) F1 ∧
      (loopFusion readBehindF twoLoopsL1 twoLoopsL2 =
        if !twoLoopsL1.isGuarded then
          loopFusionUnguarded F1 twoLoopsL1 twoLoopsL2 twoLoopsL1.getHeader
            twoLoopsL2.getHeader twoLoopsL1.getLoopLatch
            twoLoopsL2.getLoopLatch twoLoopsL2.getUniqueExitBlock
        else loopFusionGuarded F1 twoLoopsL1 twoLoopsL2 twoLoopsL2.getHeader
          twoLoopsL1.getLoopLatch twoLoopsL2.getUniqueExitBlock) ∧
      ∀ F2, loopFusion readBehindF twoLoopsL1 twoLoopsL2 = some F2 →
        NoUse (Value.instruction 10) F2 :=
  ⟨by decide, loopFusion_substitutes_induction_variable readBehindF twoLoopsL1 twoLoopsL2 1 10
    rfl rfl (by decide)⟩

/-! ## Terminators and successors across the edits of `loopFusion` -/

/-- The last element of a list is in the list. -/
theorem mem_of_getLast? {α : Type} {l : List α} {a : α} (h : l.getLast? = some a) :
    a ∈ l := by
  obtain ⟨ys, hys⟩ := List.getLast?_eq_some_iff.1 h
  rw [hys]
  simp

/-- The terminator of a block is its last instruction, provided that one is
a terminator. -/
theorem getTerminator_some {F : Function} {b : BlockId} {t : InstId} :
    F.getTerminator b = some t ↔
      (F.block b).insts.getLast? = some t ∧ (F.inst t).opcode.isTerminator = true := by
  unfold Function.getTerminator Function.back
  cases h : (F.block b).insts.getLast? with
  | none => simp
  | some u =>
    by_cases hu : (F.inst u).opcode.isTerminator = true
    · simp only [hu, if_true, Option.some.injEq]
      constructor
      · intro e; subst e; exact ⟨rfl, hu⟩
      · intro e; exact e.1
    · simp only [hu, if_false, Option.some.injEq]
      constructor
      · intro e; exact absurd e (by simp)
      · intro e; obtain ⟨e1, e2⟩ := e; subst e1; exact absurd e2 hu

/-- The terminator of a block is one of its instructions. -/
theorem getTerminator_mem {F : Function} {b : BlockId} {t : InstId}
    (h : F.getTerminator b = some t) : t ∈ (F.block b).insts :=
  mem_of_getLast? (getTerminator_some.1 h).1

/-- Two functions that agree on a block and on its instructions agree on its
terminator. -/
theorem getTerminator_congr {F G : Function} {c : BlockId}
    (hb : G.block c = F.block c) (hi : ∀ i ∈ (F.block c).insts, G.inst i = F.inst i) :
    G.getTerminator c = F.getTerminator c ∧ G.terminatorInst c = F.terminatorInst c := by
  have h1 : G.getTerminator c = F.getTerminator c := by
    unfold Function.getTerminator Function.back
    rw [hb]
    cases h : (F.block c).insts.getLast? with
    | none => rfl
    | some u => show (if _ then _ else _) = _; rw [hi u (mem_of_getLast? h)]
  refine ⟨h1, ?_⟩
  unfold Function.terminatorInst
  rw [h1]
  cases h : F.getTerminator c with
  | none => rfl
  | some u => simp only [Option.map_some', hi u (getTerminator_mem h)]

/-- Successor `idx` of a block, read from its terminator instruction. -/
theorem getSuccessor_eq (F : Function) (b : BlockId) (idx : Nat) :
    F.getSuccessor b idx = (F.terminatorInst b).bind (fun I => I.successors.get? idx) := by
  unfold Function.getSuccessor Function.terminatorInst
  cases F.getTerminator b <;> rfl

/-- Successors of a block, read from its terminator instruction. -/
theorem successors_eq (F : Function) (b : BlockId) :
    F.successors b = ((F.terminatorInst b).map Instruction.successors).getD [] := by
  unfold Function.successors Function.terminatorInst
  cases F.getTerminator b <;> rfl

/-- Overwriting a block operand by a block keeps the positions of the block
operands. -/
theorem positions_enumFrom_set (x : BlockId) :
    ∀ (ops : List Value) (n k : Nat) (y : BlockId), ops.get? k = some (Value.basicBlock y) →
      (((ops.set k (Value.basicBlock x)).enumFrom n).filter fun kv =>
        match kv.2 with
        | Value.basicBlock _ => true
        | _ => false).map Prod.fst =
      ((ops.enumFrom n).filter fun kv =>
        match kv.2 with
        | Value.basicBlock _ => true
        | _ => false).map Prod.fst := by
  intro ops
  induction ops with
  | nil => intro n k y h; simp at h
  | cons o rest ih =>
    intro n k y h
    cases k with
    | zero =>
      simp only [List.get?_cons_zero, Option.some.injEq] at h
      subst h
      simp [List.enumFrom_cons, List.filter_cons]
    | succ k =>
      simp only [List.get?_cons_succ] at h
      simp only [List.set_cons_succ, List.enumFrom_cons, List.filter_cons]
      split <;> simp [ih (n + 1) k y h]

/-- A successor position is an operand index, and in a terminator other than
a branch it holds a block. -/
theorem successorPositions_get {I : Instruction} {k : Nat}
    (hk : k ∈ I.successorPositions) :
    k < I.operands.length ∧
      (I.opcode ≠ Opcode.Br → ∃ y, I.operands.get? k = some (Value.basicBlock y)) := by
  unfold Instruction.successorPositions at hk
  split at hk
  · rename_i hbr
    refine ⟨?_, fun h => absurd hbr h⟩
    split at hk
    · rename_i h3
      simp only [List.mem_cons, List.mem_singleton, List.not_mem_nil, or_false] at hk
      omega
    · split at hk
      · rename_i h1
        simp only [List.mem_singleton] at hk
        omega
      · simp at hk
  · simp only [List.mem_map, List.mem_filter, Prod.exists, exists_and_right, exists_eq_right] at hk
    obtain ⟨v, hm, hv⟩ := hk
    rw [List.mk_mem_enum_iff_getElem?] at hm
    have hlt : k < I.operands.length := by
      by_contra hc
      rw [List.getElem?_eq_none (Nat.le_of_not_lt hc)] at hm
      exact absurd hm (by simp)
    refine ⟨hlt, fun _ => ?_⟩
    cases v <;> simp at hv
    rename_i y
    exact ⟨y, by rw [List.get?_eq_getElem?]; exact hm⟩

/-- Overwriting the operand at a successor position by a block keeps the
successor positions. -/
theorem successorPositions_set {I : Instruction} {k : Nat} (x : BlockId)
    (hk : k ∈ I.successorPositions) :
    ({ I with operands := I.operands.set k (Value.basicBlock x) } :
      Instruction).successorPositions = I.successorPositions := by
  by_cases hbr : I.opcode = Opcode.Br
  · unfold Instruction.successorPositions
    simp only [hbr, List.length_set]
  · obtain ⟨y, hy⟩ := (successorPositions_get hk).2 hbr
    have := positions_enumFrom_set x I.operands 0 k y hy
    unfold Instruction.successorPositions
    split
    · rename_i h; exact absurd h hbr
    · exact this

/-- Reading a list at valid positions: element `idx` of the result is the
element at position number `idx`. -/
theorem filterMap_get? {α : Type} (ops : List α) :
    ∀ (P : List Nat) (idx : Nat), (∀ p ∈ P, p < ops.length) →
      (P.filterMap fun k => ops.get? k).get? idx = (P.get? idx).bind fun k => ops.get? k := by
  intro P
  induction P with
  | nil => intro idx _; simp
  | cons p P ih =>
    intro idx h
    have hp : p < ops.length := h p (List.mem_cons_self _ _)
    obtain ⟨a, ha⟩ : ∃ a, ops.get? p = some a :=
      ⟨ops.get ⟨p, hp⟩, List.get?_eq_get hp⟩
    rw [List.filterMap_cons_some ha]
    cases idx with
    | zero =>
      simp only [List.get?_cons_zero, Option.some_bind]
      exact ha.symm
    | succ idx =>
      simp only [List.get?_cons_succ]
      exact ih idx (fun q hq => h q (List.mem_cons_of_mem _ hq))

/-- After the operand that holds successor `idx` is overwritten by a block,
successor `idx` is that block. -/
theorem successors_set {I : Instruction} {idx k : Nat} (x : BlockId)
    (hk : I.successorPositions.get? idx = some k) :
    ({ I with operands := I.operands.set k (Value.basicBlock x) } :
      Instruction).successors.get? idx = some (Value.basicBlock x) := by
  have hm : k ∈ I.successorPositions := List.get?_mem hk
  have hlt := (successorPositions_get hm).1
  unfold Instruction.successors
  rw [successorPositions_set x hm]
  rw [filterMap_get?]
  · rw [hk]
    show (I.operands.set k (Value.basicBlock x)).get? k = _
    rw [List.get?_eq_getElem?, List.getElem?_set_self hlt]
  · intro p hp
    show p < (I.operands.set k (Value.basicBlock x)).length
    rw [List.length_set]
    exact (successorPositions_get hp).1

/-- The edit `replaceAllUsesWith` keeps the IR well formed. -/
theorem WellFormed_replaceAllUsesWith {F F1 : Function} {old : InstId} {new : Value}
    (hw : WellFormed F) (hs : F.replaceAllUsesWith old new = some F1) : WellFormed F1 := by
  unfold Function.replaceAllUsesWith at hs
  split at hs
  · exact absurd hs (by simp)
  · injection hs with hs
    subst hs
    exact ⟨hw.parent, hw.nodup, hw.fresh⟩

/-- Effect of `retarget` on well formed IR: the blocks are kept, the
terminators of the other blocks are kept, and successor 0 of the block is the
target. -/
theorem retarget_spec {F F2 : Function} {b x : BlockId} (hw : WellFormed F)
    (hr : retarget F (some b) (Value.basicBlock x) = some F2) :
    WellFormed F2 ∧ F2.block = F.block ∧
      (∀ c, c ≠ b → F2.terminatorInst c = F.terminatorInst c) ∧
      F2.getSuccessor b 0 = some (Value.basicBlock x) := by
  unfold retarget at hr
  simp only at hr
  split at hr
  · exact absurd hr (by simp)
  rename_i t ht
  unfold Function.setSuccessor at hr
  split at hr
  · exact absurd hr (by simp)
  rename_i k hk
  injection hr with hr
  subst hr
  have htm := getTerminator_mem ht
  have htp := hw.parent b t htm
  refine ⟨⟨?_, hw.nodup, hw.fresh⟩, rfl, ?_, ?_⟩
  · intro c i hi
    show (if i = t then _ else F.inst i).parent = c
    split
    · rename_i e; subst e; exact hw.parent c i hi
    · exact hw.parent c i hi
  · intro c hc
    refine (@getTerminator_congr F (F.setInst t _) c rfl ?_).2
    intro i hi
    show (if i = t then _ else F.inst i) = F.inst i
    rw [if_neg]
    intro e
    subst e
    exact hc ((hw.parent c i hi).symm.trans htp)
  · have hT : (F.setInst t { F.inst t with
        operands := (F.inst t).operands.set k (Value.basicBlock x) }).getTerminator b = some t := by
      rw [getTerminator_some] at ht ⊢
      refine ⟨ht.1, ?_⟩
      show (if t = t then _ else F.inst t).opcode.isTerminator = true
      rw [if_pos rfl]
      exact ht.2
    unfold Function.getSuccessor
    rw [hT]
    show (if t = t then _ else F.inst t).successors.get? 0 = _
    rw [if_pos rfl]
    exact successors_set x hk

/-- Insertion before the last element of a list that holds it once. -/
theorem insertBeforeIn_concat (x t : InstId) :
    ∀ init : List InstId, t ∉ init → insertBeforeIn x t (init ++ [t]) = init ++ [x, t] := by
  intro init
  induction init with
  | nil => intro _; simp [insertBeforeIn]
  | cons z zs ih =>
    intro h
    simp only [List.mem_cons, not_or] at h
    have hz : z ≠ t := fun e => h.1 e.symm
    simp [insertBeforeIn, hz, ih h.2]

/-- Effect of `replaceTerminator` on well formed IR: the other blocks and
their terminators are kept, and the block ends in the new branch. -/
theorem replaceTerminator_spec {F F2 : Function} {b : BlockId} {ops : List Value}
    (hw : WellFormed F) (hr : F.replaceTerminator b ops = some F2) :
    WellFormed F2 ∧ (∀ c, c ≠ b → F2.block c = F.block c) ∧
      (∀ c, c ≠ b → F2.terminatorInst c = F.terminatorInst c) ∧
      F2.terminatorInst b = some ⟨Opcode.Br, ops, b, 0, 0⟩ := by
  unfold Function.replaceTerminator at hr
  split at hr
  · exact absurd hr (by simp)
  rename_i t ht
  have htm := getTerminator_mem ht
  have htp := hw.parent b t htm
  have htf : t ≠ F.nextInst := Nat.ne_of_lt (hw.fresh b t htm)
  obtain ⟨init, hinit⟩ := List.getLast?_eq_some_iff.1 (getTerminator_some.1 ht).1
  have hnd := hw.nodup b
  rw [hinit] at hnd
  have htn : t ∉ init := by
    intro hm
    have := List.nodup_append.1 hnd
    exact this.2.2 hm (List.mem_singleton_self t)
  have hin : init.Nodup := (List.nodup_append.1 hnd).1
  have hfi : F.nextInst ∉ init := by
    intro hm
    have : F.nextInst ∈ (F.block b).insts := by rw [hinit]; exact List.mem_append_left _ hm
    exact Nat.lt_irrefl _ (hw.fresh b _ this)
  -- the function after the insertion of the new branch
  have hB : ((F.createBranchBefore ops t).block b).insts = init ++ [F.nextInst, t] := by
    show (if b = (F.inst t).parent then
      (⟨insertBeforeIn F.nextInst t (F.block (F.inst t).parent).insts⟩ : BasicBlock)
      else F.block b).insts = _
    rw [if_pos htp.symm, htp, hinit]
    exact insertBeforeIn_concat _ _ _ htn
  have hI : (F.createBranchBefore ops t).inst t = F.inst t := by
    show (if t = F.nextInst then _ else F.inst t) = F.inst t
    rw [if_neg htf]
  have hT : (F.createBranchBefore ops t).getTerminator b = some t := by
    rw [getTerminator_some, hB, hI]
    refine ⟨?_, (getTerminator_some.1 ht).2⟩
    have : init ++ [F.nextInst, t] = (init ++ [F.nextInst]) ++ [t] := by simp
    rw [this, List.getLast?_concat]
  simp only [hT] at hr
  injection hr with hr
  subst hr
  have hE : (((F.createBranchBefore ops t).eraseFromParent t).block b).insts =
      init ++ [F.nextInst] := by
    show (if b = ((F.createBranchBefore ops t).inst t).parent then
      (⟨(((F.createBranchBefore ops t).block ((F.createBranchBefore ops t).inst t).parent).insts).erase
        t⟩ : BasicBlock)
      else (F.createBranchBefore ops t).block b).insts = _
    rw [hI, if_pos htp.symm, htp, hB]
    have h1 : init ++ [F.nextInst, t] = (init ++ [F.nextInst]) ++ [t] := by simp
    have h2 : t ∉ init ++ [F.nextInst] := by
      simp only [List.mem_append, List.mem_singleton, not_or]
      exact ⟨htn, htf⟩
    rw [h1, List.erase_append_right _ h2]
    simp
  have hO : ∀ c, c ≠ b → ((F.createBranchBefore ops t).eraseFromParent t).block c = F.block c := by
    intro c hc
    show (if c = ((F.createBranchBefore ops t).inst t).parent then _
      else (F.createBranchBefore ops t).block c) = _
    rw [hI, htp, if_neg hc]
    show (if c = (F.inst t).parent then _ else F.block c) = _
    rw [htp, if_neg hc]
  have hN : ∀ i, ((F.createBranchBefore ops t).eraseFromParent t).inst i =
      if i = F.nextInst then ⟨Opcode.Br, ops, (F.inst t).parent, 0, 0⟩ else F.inst i :=
    fun _ => rfl
  refine ⟨⟨?_, ?_, ?_⟩, hO, ?_, ?_⟩
  · intro c i hi
    by_cases hc : c = b
    · subst hc
      rw [hE] at hi
      rw [hN]
      simp only [List.mem_append, List.mem_singleton] at hi
      rcases hi with hi | hi
      · have hne : i ≠ F.nextInst := fun e => hfi (e ▸ hi)
        rw [if_neg hne]
        exact hw.parent c i (by rw [hinit]; exact List.mem_append_left _ hi)
      · rw [if_pos hi]
        exact htp
    · rw [hO c hc] at hi
      rw [hN, if_neg (Nat.ne_of_lt (hw.fresh c i hi))]
      exact hw.parent c i hi
  · intro c
    by_cases hc : c = b
    · subst hc
      rw [hE]
      exact List.nodup_append.2 ⟨hin, List.nodup_singleton _, by
        intro a ha hb
        simp only [List.mem_singleton] at hb
        subst hb
        exact hfi ha⟩
    · rw [hO c hc]
      exact hw.nodup c
  · intro c i hi
    show i < F.nextInst + 1
    by_cases hc : c = b
    · subst hc
      rw [hE] at hi
      simp only [List.mem_append, List.mem_singleton] at hi
      rcases hi with hi | hi
      · exact Nat.lt_succ_of_lt (hw.fresh c i (by rw [hinit]; exact List.mem_append_left _ hi))
      · rw [hi]; exact Nat.lt_succ_self _
    · rw [hO c hc] at hi
      exact Nat.lt_succ_of_lt (hw.fresh c i hi)
  · intro c hc
    refine (getTerminator_congr (hO c hc) ?_).2
    intro i hi
    rw [hN, if_neg (Nat.ne_of_lt (hw.fresh c i hi))]
  · have hT2 : ((F.createBranchBefore ops t).eraseFromParent t).getTerminator b =
        some F.nextInst := by
      rw [getTerminator_some, hE, List.getLast?_concat, hN, if_pos rfl]
      exact ⟨rfl, rfl⟩
    unfold Function.terminatorInst
    rw [hT2, Option.map_some', hN, if_pos rfl, htp]

/-- Effect of `rebranch` on well formed IR: the other blocks and their
terminators are kept, and the block ends in a conditional branch with the
given targets. -/
theorem rebranch_spec {F F2 : Function} {b : BlockId} {ifTrue ifFalse : Value}
    (hw : WellFormed F) (hr : rebranch F b ifTrue ifFalse = some F2) :
    WellFormed F2 ∧ (∀ c, c ≠ b → F2.block c = F.block c) ∧
      (∀ c, c ≠ b → F2.terminatorInst c = F.terminatorInst c) ∧
      ∃ cond, F2.terminatorInst b = some ⟨Opcode.Br, [cond, ifFalse, ifTrue], b, 0, 0⟩ := by
  unfold rebranch at hr
  split at hr
  · exact absurd hr (by simp)
  split at hr
  · exact absurd hr (by simp)
  rename_i cond _
  obtain ⟨h1, h2, h3, h4⟩ := replaceTerminator_spec hw hr
  exact ⟨h1, h2, h3, cond, h4⟩

/-- Block `drop_back(1).back()` of a loop with body blocks: the last body
block. -/
theorem lastButOne_eq {L : Loop} {bodies : List BlockId} {latch : BlockId}
    (hs : L.others = bodies ++ [latch]) (hb : bodies ≠ []) :
    L.lastButOne = some (bodies.getLast hb) := by
  unfold Loop.lastButOne dropBack Loop.getBlocks
  rw [hs]
  have : (L.header :: (bodies ++ [latch])).dropLast = L.header :: bodies := by
    rw [← List.cons_append, List.dropLast_concat]
  simp only [List.isEmpty_cons, Bool.false_eq_true, if_false, this]
  cases bodies with
  | nil => exact absurd rfl hb
  | cons a l =>
    rw [List.getLast?_eq_getLast _ (List.cons_ne_nil _ _)]
    rfl

/-- Blocks `drop_front(1).drop_back(1)` of a loop: its body blocks. -/
theorem inner_eq {L : Loop} {bodies : List BlockId} {latch : BlockId}
    (hs : L.others = bodies ++ [latch]) : L.inner = some bodies := by
  unfold Loop.inner dropFront dropBack Loop.getBlocks
  rw [hs]
  simp

/-- Block `drop_front(1).front()` of a loop with body blocks: the first body
block. -/
theorem second_eq {L : Loop} {bodies : List BlockId} {latch : BlockId}
    (hs : L.others = bodies ++ [latch]) (hb : bodies ≠ []) :
    L.second = some (bodies.head hb) := by
  unfold Loop.second dropFront Loop.getBlocks
  rw [hs]
  cases bodies with
  | nil => exact absurd rfl hb
  | cons a l => rfl

/-- First of the body blocks of a loop. -/
theorem innerFront_eq {L : Loop} {bodies : List BlockId} {latch : BlockId}
    (hs : L.others = bodies ++ [latch]) (hb : bodies ≠ []) :
    L.innerFront = some (bodies.head hb) := by
  unfold Loop.innerFront
  rw [inner_eq hs]
  exact List.head?_eq_head hb

/-- Last of the body blocks of a loop. -/
theorem innerBack_eq {L : Loop} {bodies : List BlockId} {latch : BlockId}
    (hs : L.others = bodies ++ [latch]) (hb : bodies ≠ []) :
    L.innerBack = some (bodies.getLast hb) := by
  unfold Loop.innerBack
  rw [inner_eq hs]
  exact List.getLast?_eq_getLast _ hb

/-- Effect of the unguarded shape on well formed IR whose two loops have
distinct blocks, listed as header, body blocks, latch. -/
theorem loopFusionUnguarded_spec {F F2 : Function} {L1 L2 : Loop}
    {bodies1 bodies2 : List BlockId} {latch1 latch2 : BlockId} {exit : Option BlockId}
    (hw : WellFormed F)
    (hd : (L1.getBlocks ++ L2.getBlocks).Nodup)
    (hs1 : L1.others = bodies1 ++ [latch1]) (hb1 : bodies1 ≠ [])
    (hs2 : L2.others = bodies2 ++ [latch2]) (hb2 : bodies2 ≠ [])
    (hret : loopFusionUnguarded F L1 L2 L1.header L2.header (some latch1) (some latch2) exit =
      some F2) :
    F2.getSuccessor (bodies1.getLast hb1) 0 = some (Value.basicBlock (bodies2.head hb2)) ∧
    F2.getSuccessor (bodies2.getLast hb2) 0 = some (Value.basicBlock latch1) ∧
    F2.terminatorInst L2.header =
      some ⟨Opcode.Br, [Value.basicBlock latch2], L2.header, 0, 0⟩ ∧
    (∃ cond, F2.terminatorInst L1.header =
      some ⟨Opcode.Br, [cond, blockValue exit, Value.basicBlock (bodies1.head hb1)],
        L1.header, 0, 0⟩) ∧
    ∀ c, c ∉ [L1.header, bodies1.getLast hb1, L2.header, bodies2.getLast hb2] →
      F2.block c = F.block c ∧ F2.terminatorInst c = F.terminatorInst c := by
  have hm1 : bodies1.getLast hb1 ∈ bodies1 := List.getLast_mem hb1
  have hm2 : bodies2.getLast hb2 ∈ bodies2 := List.getLast_mem hb2
  simp only [Loop.getBlocks, hs1, hs2, List.nodup_append, List.nodup_cons, List.mem_append,
    List.mem_cons, List.mem_singleton, List.Disjoint, not_or] at hd
  obtain ⟨⟨⟨h1b, _, _⟩, _, _, _⟩, ⟨⟨h2b, _, _⟩, _⟩, hdis⟩ := hd
  have n12 : bodies2.getLast hb2 ≠ bodies1.getLast hb1 :=
    fun e => @hdis (bodies1.getLast hb1) (Or.inr (Or.inl hm1)) (Or.inr (Or.inl (e ▸ hm2)))
  have nh2l1 : bodies1.getLast hb1 ≠ L2.header :=
    fun e => @hdis (bodies1.getLast hb1) (Or.inr (Or.inl hm1)) (Or.inl e)
  have nh2l2 : bodies2.getLast hb2 ≠ L2.header := fun e => h2b (e ▸ hm2)
  have nh1l1 : bodies1.getLast hb1 ≠ L1.header := fun e => h1b (e ▸ hm1)
  have nh1l2 : bodies2.getLast hb2 ≠ L1.header :=
    fun e => @hdis L1.header (Or.inl rfl) (Or.inr (Or.inl (e ▸ hm2)))
  have nh1h2 : L2.header ≠ L1.header := fun e => @hdis L1.header (Or.inl rfl) (Or.inl e.symm)
  unfold loopFusionUnguarded at hret
  simp only [lastButOne_eq hs1 hb1, innerFront_eq hs2 hb2, innerBack_eq hs2 hb2,
    second_eq hs1 hb1, blockValue] at hret
  split at hret
  · exact absurd hret (by simp)
  rename_i Fa ha
  split at hret
  · exact absurd hret (by simp)
  rename_i Fb hb
  split at hret
  · exact absurd hret (by simp)
  rename_i Fc hc
  obtain ⟨wa, ba, ta, sa⟩ := retarget_spec hw ha
  obtain ⟨wb, bb, tb, sb⟩ := retarget_spec wa hb
  obtain ⟨wc, bc, tc, sc⟩ := replaceTerminator_spec wb hc
  obtain ⟨_, bd, td, cond, sd⟩ := rebranch_spec wc hret
  refine ⟨?_, ?_, ?_, ⟨cond, sd⟩, ?_⟩
  · rw [getSuccessor_eq, td _ nh1l1, tc _ nh2l1, tb _ n12.symm, ← getSuccessor_eq]
    exact sa
  · rw [getSuccessor_eq, td _ nh1l2, tc _ nh2l2, ← getSuccessor_eq]
    exact sb
  · rw [td _ nh1h2]
    exact sc
  · intro c hcn
    simp only [List.mem_cons, List.mem_singleton, List.not_mem_nil, or_false, not_or] at hcn
    obtain ⟨c1, c2, c3, c4⟩ := hcn
    exact ⟨by rw [bd c c1, bc c c3, bb, ba],
      by rw [td c c1, tc c c3, tb c c4, ta c c2]⟩

/-- The example function has no block from address 9 on. -/
theorem twoLoopsBlock_far (body2 : List InstId) (b : BlockId) (h : 9 ≤ b) :
    twoLoopsBlock body2 b = ⟨[]⟩ := by
  obtain ⟨n, rfl⟩ := Nat.exists_eq_add_of_le h
  rw [Nat.add_comm]
  rfl

/-- The example whose second loop reads `A[j - 1]` is well formed IR. -/
theorem readBehindF_wellFormed : WellFormed readBehindF := by
  have key : ∀ b, b < 9 → (∀ i ∈ (readBehindF.block b).insts, (readBehindF.inst i).parent = b ∧
      i < readBehindF.nextInst) ∧ (readBehindF.block b).insts.Nodup := by decide
  have far : ∀ b, 9 ≤ b → (readBehindF.block b).insts = [] := fun b h =>
    congrArg BasicBlock.insts (twoLoopsBlock_far _ b h)
  refine ⟨?_, ?_, ?_⟩
  · intro b i hi
    by_cases hb : b < 9
    · exact ((key b hb).1 i hi).1
    · rw [far b (Nat.le_of_not_lt hb)] at hi
      exact absurd hi (List.not_mem_nil _)
  · intro b
    by_cases hb : b < 9
    · exact (key b hb).2
    · rw [far b (Nat.le_of_not_lt hb)]
      exact List.nodup_nil
  · intro b i hi
    by_cases hb : b < 9
    · exact ((key b hb).1 i hi).2
    · rw [far b (Nat.le_of_not_lt hb)] at hi
      exact absurd hi (List.not_mem_nil _)
/-- Edits of the unguarded shape: for an unguarded first loop, when both loops
list their blocks as header, body blocks (at least one) and latch, the blocks
of the two loops are distinct and the IR is well formed, a call of
`loopFusion` that returns leaves successor 0 of the last body block of `L1`
equal to the first body block of `L2`, successor 0 of the last body block of
`L2` equal to the latch of `L1`, and the header of `L2` ending in the
unconditional branch to the latch of `L2`, its only successor.  The header of
`L1` ends in a conditional branch to the first body block of `L1` or the exit
of `L2`, and every other block keeps its instruction list and the terminator
it has after line 153: an edge from another body block of `L1` to its latch
stays. -/
theorem loopFusion_chains_bodies (F F2 : Function) (L1 L2 : Loop)
    (bodies1 bodies2 : List BlockId) (latch1 latch2 : BlockId)
    (hw : WellFormed F)
    (hd : (L1.getBlocks ++ L2.getBlocks).Nodup)
    (hs1 : L1.others = bodies1 ++ [latch1]) (hb1 : bodies1 ≠ [])
    (hs2 : L2.others = bodies2 ++ [latch2]) (hb2 : bodies2 ≠ [])
    (hl1 : L1.getLoopLatch = some latch1) (hl2 : L2.getLoopLatch = some latch2)
    (hg : L1.isGuarded = false)
    (hret : loopFusion F L1 L2 = some F2) :
    F2.getSuccessor (bodies1.getLast hb1) 0 = some (Value.basicBlock (bodies2.head hb2)) ∧
    F2.getSuccessor (bodies2.getLast hb2) 0 = some (Value.basicBlock latch1) ∧
    F2.terminatorInst L2.header =
      some ⟨Opcode.Br, [Value.basicBlock latch2], L2.header, 0, 0⟩ ∧
    F2.successors L2.header = [Value.basicBlock latch2] ∧
    (∃ cond, F2.terminatorInst L1.header =
      some ⟨Opcode.Br, [cond, blockValue L2.getUniqueExitBlock,
        Value.basicBlock (bodies1.head hb1)], L1.header, 0, 0⟩) ∧
    ∃ iv2 F1, L2.getCanonicalInductionVariable = some iv2 ∧
      F.replaceAllUsesWith iv2 (instValue L1.getCanonicalInductionVariable) = some F1 ∧
      ∀ c, c ∉ [L1.header, bodies1.getLast hb1, L2.header, bodies2.getLast hb2] →
        F2.block c = F.block c ∧ F2.terminatorInst c = F1.terminatorInst c := by
  unfold loopFusion at hret
  simp only at hret
  split at hret
  · exact absurd hret (by simp)
  rename_i iv2 hiv
  split at hret
  · exact absurd hret (by simp)
  rename_i F1 hF1
  simp only [hg, Bool.not_false, if_true, hl1, hl2, Loop.getHeader] at hret
  have hw1 := WellFormed_replaceAllUsesWith hw hF1
  have hblock : F1.block = F.block := by
    unfold Function.replaceAllUsesWith at hF1
    split at hF1
    · exact absurd hF1 (by simp)
    · injection hF1 with hF1
      subst hF1
      rfl
  obtain ⟨s1, s2, s3, s4, s5⟩ := loopFusionUnguarded_spec hw1 hd hs1 hb1 hs2 hb2 hret
  refine ⟨s1, s2, s3, ?_, s4, iv2, F1, hiv, hF1, ?_⟩
  · rw [successors_eq, s3]
    rfl
  · intro c hc
    obtain ⟨e1, e2⟩ := s5 c hc
    exact ⟨by rw [e1, hblock], e2⟩

/-- Edits of the unguarded shape at the example whose second loop reads
`A[j - 1]`: the IR is well formed, `loopFusion` returns, `body1` (block 2)
leads to `body2` (block 6), which leads to `latch1` (block 3), and `header2`
(block 5) ends in `br latch2`. -/
theorem loopFusion_chains_bodies_witness :
    WellFormed readBehindF ∧
    (loopFusion readBehindF twoLoopsL1 twoLoopsL2).isSome = true ∧
    (readBehindFused.getSuccessor 2 0 = some (Value.basicBlock 6) ∧
    readBehindFused.getSuccessor 6 0 = some (Value.basicBlock 3) ∧
    readBehindFused.terminatorInst 5 = some ⟨Opcode.Br, [Value.basicBlock 7], 5, 0, 0⟩ ∧
    readBehindFused.successors 5 = [Value.basicBlock 7] ∧
    (∃ cond, readBehindFused.terminatorInst 1 =
      some ⟨Opcode.Br, [cond, Value.basicBlock 8, Value.basicBlock 2], 1, 0, 0⟩) ∧
    ∃ iv2 F1, twoLoopsL2.getCanonicalInductionVariable = some iv2 ∧
      readBehindF.replaceAllUsesWith iv2 (instValue twoLoopsL1.getCanonicalInductionVariable) =
        some F1 ∧
      ∀ c, c ∉ [1, 2, 5, 6] →
        readBehindFused.block c = readBehindF.block c ∧
        readBehindFused.terminatorInst c = F1.terminatorInst c) :=
  ⟨readBehindF_wellFormed, by decide,
    loopFusion_chains_bodies readBehindF readBehindFused twoLoopsL1 twoLoopsL2 [2] [6] 3 7
      readBehindF_wellFormed (by decide) rfl (by decide) rfl (by decide) rfl rfl rfl
      (some_getD _ _ (by decide))⟩

/-! ## Failing inputs of adjacency, driver and transformer -/

/-- Claim C7 fails on the code: in the guarded example whose first loop has a
second exit edge both loops are guarded and the unique exit block of the
first loop has one successor, the block of the guard branch of the second
loop, but `getExitBlock()` of the first loop is null (two exit edges) and
line 24 dereferences it: `adjLoops` produces no set. -/
theorem adjLoops_fails_on_second_exit_edge :
    (guardedBreakLI.loop 0).isGuarded = true ∧ (guardedBreakLI.loop 1).isGuarded = true ∧
    (guardedBreakLI.loop 0).getUniqueExitBlock = some 4 ∧
    guardedBreakF.successors 2 = [Value.basicBlock 4, Value.basicBlock 3] ∧
    guardedBreakF.successors 3 = [Value.basicBlock 2, Value.basicBlock 4] ∧
    guardedBreakF.getSingleSuccessor 4 = some 5 ∧
    (guardedBreakLI.loop 1).getLoopGuardBranch = some 10 ∧
    (guardedBreakF.inst 10).parent = 5 ∧
    (guardedBreakLI.loop 0).getExitBlock = none ∧
    adjLoops guardedBreakF [] guardedBreakLI = none := by
  decide

/-- Claim C10 fails on the code: the example with a second exit edge has one
loop, guarded, whose backedge taken count is not computable and whose exit
block does not lead to its own guard, so no pair can be fused; `run` does not
report the function unchanged: `adjLoops` compares the loop with itself and
dereferences the null `getExitBlock()` at line 24, so neither `adjLoops` nor
`run` returns. -/
theorem run_fails_on_second_exit_edge :
    breakAM.loops = [0] ∧ (breakAM.loop breakF 0).isGuarded = true ∧
    (breakAM.loop breakF 0).getUniqueExitBlock = some 4 ∧
    breakF.successors 2 = [Value.basicBlock 4, Value.basicBlock 3] ∧
    breakF.successors 3 = [Value.basicBlock 2, Value.basicBlock 4] ∧
    breakF.getSingleSuccessor 4 = some 5 ∧
    (breakAM.loop breakF 0).getLoopGuardBranch = some 1 ∧ (breakF.inst 1).parent = 0 ∧
    TripCount 0 0 breakAM.SE = false ∧
    (breakAM.loop breakF 0).getExitBlock = none ∧
    adjLoops breakF [] ⟨breakAM.loops, breakAM.loop breakF⟩ = none ∧
    (run breakF breakAM).isSome = false := by
  decide

/-- Claim C16 fails on the code: in the example whose first loop has a
conditional statement both loops list their blocks as header, body blocks,
latch, the pair is adjacent and passes the three checks, and `loopFusion`
returns.  Successor 0 of `then1`, the last body block of the first loop, is
`body2`, successor 0 of `body2` is `latch1` and `header2` ends in
`br latch2`; but `body1` keeps its edge to `latch1`, so `header1`, `body1`,
`latch1`, `header1` is a trip around the fused loop that runs neither `then1`
nor `body2`.  Line 174 redirects the last body block only. -/
theorem loopFusion_leaves_edge_to_latch :
    branchBodyL1.isGuarded = false ∧
    branchBodyL1.getBlocks = [1, 2, 9, 3] ∧ branchBodyL1.getLoopLatch = some 3 ∧
    twoLoopsL2.getBlocks = [5, 6, 7] ∧ twoLoopsL2.getLoopLatch = some 7 ∧
    adjLoops branchBodyF [] ⟨branchBodyAM.loops, branchBodyAM.loop branchBodyF⟩ =
      some [(0, 1)] ∧
    passesChecks branchBodyAM branchBodyF (0, 1) = some true ∧
    (loopFusion branchBodyF branchBodyL1 twoLoopsL2).isSome = true ∧
    branchBodyFused.getSuccessor 9 0 = some (Value.basicBlock 6) ∧
    branchBodyFused.getSuccessor 6 0 = some (Value.basicBlock 3) ∧
    branchBodyFused.successors 5 = [Value.basicBlock 7] ∧
    branchBodyFused.successors 2 = [Value.basicBlock 9, Value.basicBlock 3] ∧
    branchBodyFused.isWalk [1, 2, 3, 1] = true := by
  decide

end LoopFusion

namespace LocalOpts

open LoopFusion (Opcode PreservedAnalyses)

/-! ## Peephole pass (`LocalOpts.cpp`) -/

/-- The exponent found for a power of two is below the width and gives the
value. -/
theorem exactLog_spec (c : APInt) (k : Nat) (h : c.exactLog = some k) :
    k < c.BitWidth ∧ c.VAL = 2 ^ k := by
  unfold APInt.exactLog at h
  have hmem := List.mem_of_find?_eq_some h
  have hp := List.find?_some h
  exact ⟨List.mem_range.mp hmem, by simpa using hp⟩

/-- The shift constant built for a power of two `2 ^ k` has the value `k`. -/
theorem shift_value (w k : Nat) (hk : k < w) (hw : w < 2 ^ 64) :
    (ConstantInt.get w (toUInt64 (k : Int))).VAL = k := by
  have h1 : k < 2 ^ 64 := Nat.lt_trans hk hw
  have h2 : k < 2 ^ w := Nat.lt_trans hk (Nat.lt_two_pow w)
  have h3 : toUInt64 (k : Int) = k := by
    unfold toUInt64
    have : ((k : Int) % ((2 ^ 64 : Nat) : Int)) = (k : Int) := by
      rw [← Int.ofNat_emod, Nat.mod_eq_of_lt h1]
    rw [this]
    simp
  unfold ConstantInt.get
  rw [h3]
  show k % 2 ^ 64 % 2 ^ w = k
  rw [Nat.mod_eq_of_lt h1, Nat.mod_eq_of_lt h2]

/-- Claim C19 fails on the code: for the 64 bit product `x * 12884901889`
(the constant is `2 ^ 33 + 2 ^ 32 + 1`) `strengthReduction` computes the
power `2 ^ 34` and the constant in 32 bits, as 0 and 1, finds the difference
1 and rewrites the product into `(x << 34) + x`; for `x = 1` the product is
12884901889 and the replacement is 17179869185.  For the 32 bit product
`x * 0` it rewrites into `(x << 4294967295) - x`, a shift by more than the
width, which has no value, while the product is 0. -/
theorem strengthReduction_general_changes_product :
    strengthReduction ⟨Opcode.Mul, [Value.other 0, Value.constantInt ⟨64, 12884901889⟩]⟩ 100 =
      Outcome.rewritten
        ⟨[⟨Opcode.Shl, [Value.other 0, Value.constantInt ⟨64, 34⟩]⟩,
          ⟨Opcode.Add, [Value.instruction 100, Value.other 0]⟩], Value.instruction 101⟩ ∧
    evalInstruction 64 (fun _ => 0) (fun _ => 1)
      ⟨Opcode.Mul, [Value.other 0, Value.constantInt ⟨64, 12884901889⟩]⟩ = some 12884901889 ∧
    (strengthReduction ⟨Opcode.Mul, [Value.other 0, Value.constantInt ⟨64, 12884901889⟩]⟩
      100).value 64 (fun _ => 0) (fun _ => 1) 100 = some 17179869185 ∧
    strengthReduction ⟨Opcode.Mul, [Value.other 0, Value.constantInt ⟨32, 0⟩]⟩ 100 =
      Outcome.rewritten
        ⟨[⟨Opcode.Shl, [Value.other 0, Value.constantInt ⟨32, 4294967295⟩]⟩,
          ⟨Opcode.Sub, [Value.instruction 100, Value.other 0]⟩], Value.instruction 101⟩ ∧
    evalInstruction 32 (fun _ => 0) (fun _ => 1)
      ⟨Opcode.Mul, [Value.other 0, Value.constantInt ⟨32, 0⟩]⟩ = some 0 ∧
    (strengthReduction ⟨Opcode.Mul, [Value.other 0, Value.constantInt ⟨32, 0⟩]⟩
      100).value 32 (fun _ => 0) (fun _ => 1) 100 = none := by
  decide

/-- Claim C20 fails on the code: `strengthReduction` rewrites the 32 bit
division `x sdiv 2` into `x lshr 1`; for `x = -1` (4294967295) the quotient
is 0 and the shift is 2147483647.  It rewrites `8 sdiv x`, where the constant
is the dividend, into `x lshr 3`; for `x = 2` the quotient is 4 and the shift
is 0. -/
theorem strengthReduction_sdiv_changes_quotient :
    strengthReduction ⟨Opcode.SDiv, [Value.other 0, Value.constantInt ⟨32, 2⟩]⟩ 100 =
      Outcome.rewritten
        ⟨[⟨Opcode.LShr, [Value.other 0, Value.constantInt ⟨32, 1⟩]⟩], Value.instruction 100⟩ ∧
    evalInstruction 32 (fun _ => 0) (fun _ => 4294967295)
      ⟨Opcode.SDiv, [Value.other 0, Value.constantInt ⟨32, 2⟩]⟩ = some 0 ∧
    (strengthReduction ⟨Opcode.SDiv, [Value.other 0, Value.constantInt ⟨32, 2⟩]⟩ 100).value 32
      (fun _ => 0) (fun _ => 4294967295) 100 = some 2147483647 ∧
    strengthReduction ⟨Opcode.SDiv, [Value.constantInt ⟨32, 8⟩, Value.other 0]⟩ 100 =
      Outcome.rewritten
        ⟨[⟨Opcode.LShr, [Value.other 0, Value.constantInt ⟨32, 3⟩]⟩], Value.instruction 100⟩ ∧
    evalInstruction 32 (fun _ => 0) (fun _ => 2)
      ⟨Opcode.SDiv, [Value.constantInt ⟨32, 8⟩, Value.other 0]⟩ = some 4 ∧
    (strengthReduction ⟨Opcode.SDiv, [Value.constantInt ⟨32, 8⟩, Value.other 0]⟩ 100).value 32
      (fun _ => 0) (fun _ => 2) 100 = some 0 := by
  decide

/-- Claim C15 fails on the code.  With `a = add b, 1` and `c = sub 1, a` (the
constant is the first operand of the subtraction) `multiInstrOp` replaces `c`
by `b`; for `b = 1` in 32 bits `a` is 2, `c` is -1 (4294967295) and the
replacement is 1.  With `a = mul b, 2` and `c = sdiv a, 2` it replaces `c` by
`b`; for `b = 100` in 8 bits `a` is 200, that is -56, `c` is -28 (228) and
the replacement is 100. -/
theorem multiInstrOp_changes_value :
    multiInstrOp (fun _ => ⟨Opcode.Add, [Value.other 0, Value.constantInt ⟨32, 1⟩]⟩)
        ⟨Opcode.Sub, [Value.constantInt ⟨32, 1⟩, Value.instruction 0]⟩ =
      Outcome.rewritten ⟨[], Value.other 0⟩ ∧
    evalInstruction 32 (fun _ => 2) (fun _ => 1)
      ⟨Opcode.Add, [Value.other 0, Value.constantInt ⟨32, 1⟩]⟩ = some 2 ∧
    evalInstruction 32 (fun _ => 2) (fun _ => 1)
      ⟨Opcode.Sub, [Value.constantInt ⟨32, 1⟩, Value.instruction 0]⟩ = some 4294967295 ∧
    (multiInstrOp (fun _ => ⟨Opcode.Add, [Value.other 0, Value.constantInt ⟨32, 1⟩]⟩)
        ⟨Opcode.Sub, [Value.constantInt ⟨32, 1⟩, Value.instruction 0]⟩).value 32
      (fun _ => 2) (fun _ => 1) 100 = some 1 ∧
    multiInstrOp (fun _ => ⟨Opcode.Mul, [Value.other 0, Value.constantInt ⟨8, 2⟩]⟩)
        ⟨Opcode.SDiv, [Value.instruction 0, Value.constantInt ⟨8, 2⟩]⟩ =
      Outcome.rewritten ⟨[], Value.other 0⟩ ∧
    evalInstruction 8 (fun _ => 200) (fun _ => 100)
      ⟨Opcode.Mul, [Value.other 0, Value.constantInt ⟨8, 2⟩]⟩ = some 200 ∧
    evalInstruction 8 (fun _ => 200) (fun _ => 100)
      ⟨Opcode.SDiv, [Value.instruction 0, Value.constantInt ⟨8, 2⟩]⟩ = some 228 ∧
    (multiInstrOp (fun _ => ⟨Opcode.Mul, [Value.other 0, Value.constantInt ⟨8, 2⟩]⟩)
        ⟨Opcode.SDiv, [Value.instruction 0, Value.constantInt ⟨8, 2⟩]⟩).value 8
      (fun _ => 200) (fun _ => 100) 100 = some 100 := by
  decide

/-- The exponent of a power of two below the width is found. -/
theorem exactLog_of_pow (c : APInt) (k : Nat) (hk : k < c.BitWidth) (hv : c.VAL = 2 ^ k) :
    c.exactLog = some k := by
  have hsome : (c.exactLog).isSome = true := by
    unfold APInt.exactLog
    rw [List.find?_isSome]
    exact ⟨k, List.mem_range.mpr hk, by simp [hv]⟩
  cases h : c.exactLog with
  | none => simp [h] at hsome
  | some j =>
    have hj := (exactLog_spec c j h).2
    rw [hv] at hj
    have : k = j := Nat.pow_right_injective (Nat.le_refl 2) hj
    rw [this]

/-- The two reference parameters after `optimizable` on a binary instruction
with a variable first and a constant second. -/
theorem optimizable_variable_constant (op : Opcode) (x : Value) (c : APInt)
    (hx : x.isVariable = true) :
    optimizable ⟨op, [x, Value.constantInt c]⟩ none none = (true, some c, some x) := by
  cases x <;> simp [Value.isVariable] at hx <;> rfl

/-- The two reference parameters after `optimizable` on a binary instruction
with a constant first and a variable second. -/
theorem optimizable_constant_variable (op : Opcode) (x : Value) (c : APInt)
    (hx : x.isVariable = true) :
    optimizable ⟨op, [Value.constantInt c, x]⟩ none none = (true, some c, some x) := by
  cases x <;> simp [Value.isVariable] at hx <;> rfl

/-- On a binary instruction `optimizable` returns true exactly when one
operand is a constant and the other is not. -/
theorem optimizable_binary (op : Opcode) (a b : Value) (c : APInt) (x : Value)
    (h : optimizable ⟨op, [a, b]⟩ none none = (true, some c, some x)) :
    x.isVariable = true ∧
      ((a = Value.constantInt c ∧ b = x) ∨ (b = Value.constantInt c ∧ a = x)) := by
  cases a <;> cases b <;>
    simp [optimizable, optimizableStep, Value.isVariable] at h ⊢ <;>
    (obtain ⟨h1, h2⟩ := h; subst h1; subst h2; simp [Value.isVariable])

/-- A variable operand has a value below `2 ^ w`. -/
theorem evalValue_lt (w : Nat) (instVal otherVal : Nat → Nat) (hi : ∀ i, instVal i < 2 ^ w)
    (ho : ∀ n, otherVal n < 2 ^ w) (x : Value) (hx : x.isVariable = true) :
    evalValue instVal otherVal x < 2 ^ w := by
  cases x with
  | constantInt c => simp [Value.isVariable] at hx
  | instruction i => exact hi i
  | other n => exact ho n

/-- What `algebraicIdentity` does on a binary instruction whose constant is
`c` and whose other operand is `x`. -/
theorem algebraicIdentity_eq (op : Opcode) (a b : Value) (c : APInt) (x : Value)
    (h : optimizable ⟨op, [a, b]⟩ none none = (true, some c, some x)) :
    algebraicIdentity ⟨op, [a, b]⟩ =
      if op = Opcode.Add then
        if c.isZero then Outcome.rewritten ⟨[], x⟩ else Outcome.unchanged
      else if op = Opcode.Mul then
        if c.isOne then Outcome.rewritten ⟨[], x⟩ else Outcome.unchanged
      else Outcome.unchanged := by
  unfold algebraicIdentity
  rw [h]

/-- When `optimizable` returns false `algebraicIdentity` does not rewrite. -/
theorem algebraicIdentity_not_optimizable (I : Instruction) (c : Option APInt)
    (x : Option Value) (h : optimizable I none none = (false, c, x)) :
    algebraicIdentity I = Outcome.unchanged := by
  unfold algebraicIdentity
  rw [h]

/-- The result of `optimizable` is true exactly when both reference
parameters are set. -/
theorem optimizable_cases (I : Instruction) :
    (∃ c x, optimizable I none none = (true, some c, some x)) ∨
    (∃ c x, optimizable I none none = (false, c, x)) := by
  unfold optimizable
  generalize List.foldl optimizableStep (none, none) I.operands = r
  obtain ⟨c, x⟩ := r
  cases c <;> cases x <;> simp

/-- Value of a rewrite that creates no instruction. -/
theorem evalRewrite_nil (w : Nat) (instVal otherVal : Nat → Nat) (fresh : Nat) (x : Value) :
    evalRewrite w instVal otherVal fresh ⟨[], x⟩ = some (evalValue instVal otherVal x) := rfl

/-- Value of a binary instruction, from the values of its operands. -/
theorem evalInstruction_binary (w : Nat) (instVal otherVal : Nat → Nat) (op : Opcode)
    (a b : Value) :
    evalInstruction w instVal otherVal ⟨op, [a, b]⟩ =
      evalBinary op w (evalValue instVal otherVal a) (evalValue instVal otherVal b) := rfl

/-- Value of a constant operand. -/
theorem evalValue_constantInt (instVal otherVal : Nat → Nat) (c : APInt) :
    evalValue instVal otherVal (Value.constantInt c) = c.VAL := rfl

/-- Rewrites that keep the value: a rewrite by `algebraicIdentity` of a binary
instruction creates no instruction, is made only for an `add` with one operand the
constant 0 or a `mul` with one operand the constant 1, replaces the
instruction by the other operand, and the replacement has the value of the
instruction in `w` bits; `strengthReduction` rewrites `x * 2 ^ k` and
`2 ^ k * x` into `x << k`, whose value is that of the product in `w` bits. -/
theorem peephole_rewrites_preserve_value (w fresh : Nat) (instVal otherVal : Nat → Nat)
    (hw : w < 2 ^ 64) (hi : ∀ i, instVal i < 2 ^ w) (ho : ∀ n, otherVal n < 2 ^ w) :
    (∀ (op : Opcode) (a b : Value) (r : Rewrite),
      algebraicIdentity ⟨op, [a, b]⟩ = Outcome.rewritten r →
      r.created = [] ∧
      ((op = Opcode.Add ∧ ∃ c : APInt, c.VAL = 0 ∧
          ((a = Value.constantInt c ∧ r.replacement = b) ∨
            (b = Value.constantInt c ∧ r.replacement = a))) ∨
        (op = Opcode.Mul ∧ ∃ c : APInt, c.VAL = 1 ∧
          ((a = Value.constantInt c ∧ r.replacement = b) ∨
            (b = Value.constantInt c ∧ r.replacement = a)))) ∧
      evalRewrite w instVal otherVal fresh r =
        evalInstruction w instVal otherVal ⟨op, [a, b]⟩) ∧
    (∀ (x : Value) (c : APInt) (k : Nat), x.isVariable = true → c.BitWidth = w →
      c.VAL = 2 ^ k → k < w →
      strengthReduction ⟨Opcode.Mul, [x, Value.constantInt c]⟩ fresh =
        Outcome.rewritten
          ⟨[⟨Opcode.Shl, [x, Value.constantInt ⟨w, k⟩]⟩], Value.instruction fresh⟩ ∧
      strengthReduction ⟨Opcode.Mul, [Value.constantInt c, x]⟩ fresh =
        Outcome.rewritten
          ⟨[⟨Opcode.Shl, [x, Value.constantInt ⟨w, k⟩]⟩], Value.instruction fresh⟩ ∧
      evalRewrite w instVal otherVal fresh
          ⟨[⟨Opcode.Shl, [x, Value.constantInt ⟨w, k⟩]⟩], Value.instruction fresh⟩ =
        some (evalValue instVal otherVal x * 2 ^ k % 2 ^ w) ∧
      evalInstruction w instVal otherVal ⟨Opcode.Mul, [x, Value.constantInt c]⟩ =
        some (evalValue instVal otherVal x * 2 ^ k % 2 ^ w) ∧
      evalInstruction w instVal otherVal ⟨Opcode.Mul, [Value.constantInt c, x]⟩ =
        some (evalValue instVal otherVal x * 2 ^ k % 2 ^ w)) := by
  constructor
  · intro op a b r hr
    rcases optimizable_cases ⟨op, [a, b]⟩ with ⟨c, x, hopt⟩ | ⟨c, x, hopt⟩
    · obtain ⟨hx, hab⟩ := optimizable_binary op a b c x hopt
      have hxlt := evalValue_lt w instVal otherVal hi ho x hx
      rw [algebraicIdentity_eq op a b c x hopt] at hr
      by_cases hadd : op = Opcode.Add
      · subst hadd
        by_cases hz : c.isZero = true
        · simp only [hz, if_true, Outcome.rewritten.injEq] at hr
          subst hr
          have hc0 : c.VAL = 0 := by simpa [APInt.isZero] using hz
          refine ⟨rfl, Or.inl ⟨rfl, c, hc0, ?_⟩, ?_⟩
          · rcases hab with ⟨h1, h2⟩ | ⟨h1, h2⟩
            · exact Or.inl ⟨h1, h2.symm⟩
            · exact Or.inr ⟨h1, h2.symm⟩
          · rcases hab with ⟨h1, h2⟩ | ⟨h1, h2⟩
            · subst h1; subst h2
              rw [evalRewrite_nil, evalInstruction_binary, evalValue_constantInt, hc0]
              simp [evalBinary, Nat.mod_eq_of_lt hxlt]
            · subst h1; subst h2
              rw [evalRewrite_nil, evalInstruction_binary, evalValue_constantInt, hc0]
              simp [evalBinary, Nat.mod_eq_of_lt hxlt]
        · simp [hz] at hr
      · by_cases hmul : op = Opcode.Mul
        · subst hmul
          by_cases hz : c.isOne = true
          · simp only [hz, if_true, reduceCtorEq, if_false, Outcome.rewritten.injEq] at hr
            subst hr
            have hc1 : c.VAL = 1 := by simpa [APInt.isOne] using hz
            refine ⟨rfl, Or.inr ⟨rfl, c, hc1, ?_⟩, ?_⟩
            · rcases hab with ⟨h1, h2⟩ | ⟨h1, h2⟩
              · exact Or.inl ⟨h1, h2.symm⟩
              · exact Or.inr ⟨h1, h2.symm⟩
            · rcases hab with ⟨h1, h2⟩ | ⟨h1, h2⟩
              · subst h1; subst h2
                rw [evalRewrite_nil, evalInstruction_binary, evalValue_constantInt, hc1]
                simp [evalBinary, Nat.mod_eq_of_lt hxlt]
              · subst h1; subst h2
                rw [evalRewrite_nil, evalInstruction_binary, evalValue_constantInt, hc1]
                simp [evalBinary, Nat.mod_eq_of_lt hxlt]
          · simp [hz] at hr
        · simp [hadd, hmul] at hr
    · rw [algebraicIdentity_not_optimizable _ c x hopt] at hr
      exact absurd hr (by simp)
  · intro x c k hx hcw hv hk
    have hlog : c.exactLog = some k := exactLog_of_pow c k (hcw ▸ hk) hv
    have hshift : ConstantInt.get c.BitWidth (toUInt64 c.exactLogBase2) = ⟨w, k⟩ := by
      have hval := shift_value w k hk hw
      simp only [APInt.exactLogBase2, hlog, hcw]
      simp only [ConstantInt.get] at hval ⊢
      rw [hval]
    have hpow : c.isPowerOf2 = true := by simp [APInt.isPowerOf2, hlog]
    refine ⟨?_, ?_, ?_, ?_, ?_⟩
    · unfold strengthReduction
      rw [optimizable_variable_constant Opcode.Mul x c hx]
      simp [hpow, hshift]
    · unfold strengthReduction
      rw [optimizable_constant_variable Opcode.Mul x c hx]
      simp [hpow, hshift]
    · simp [evalRewrite, evalCreated, evalInstruction_binary, evalValue_constantInt,
        evalBinary, hk]
      show (if fresh = fresh then _ else _) = _
      rw [if_pos rfl]
    · rw [evalInstruction_binary, evalValue_constantInt, hv]
      rfl
    · rw [evalInstruction_binary, evalValue_constantInt, hv]
      simp [evalBinary, Nat.mul_comm]

/-- Rewrites that keep the value, at 32 bits, with the value 5 for every
variable: `x + 0` and `1 * x` are replaced by `x`, and `x * 8` by `x << 3`, of
value 40. -/
theorem peephole_rewrites_preserve_value_witness :
    evalRewrite 32 (fun _ => 5) (fun _ => 5) 100 ⟨[], Value.other 0⟩ =
        evalInstruction 32 (fun _ => 5) (fun _ => 5)
          ⟨Opcode.Add, [Value.other 0, Value.constantInt ⟨32, 0⟩]⟩ ∧
    strengthReduction ⟨Opcode.Mul, [Value.other 0, Value.constantInt ⟨32, 8⟩]⟩ 100 =
        Outcome.rewritten
          ⟨[⟨Opcode.Shl, [Value.other 0, Value.constantInt ⟨32, 3⟩]⟩], Value.instruction 100⟩ ∧
    evalRewrite 32 (fun _ => 5) (fun _ => 5) 100
        ⟨[⟨Opcode.Shl, [Value.other 0, Value.constantInt ⟨32, 3⟩]⟩], Value.instruction 100⟩ =
      some 40 :=
  ⟨((peephole_rewrites_preserve_value 32 100 (fun _ => 5) (fun _ => 5) (by decide)
      (fun _ => by norm_num) (fun _ => by norm_num)).1 Opcode.Add (Value.other 0)
      (Value.constantInt ⟨32, 0⟩) ⟨[], Value.other 0⟩ (by decide)).2.2,
    ((peephole_rewrites_preserve_value 32 100 (fun _ => 5) (fun _ => 5) (by decide)
      (fun _ => by norm_num) (fun _ => by norm_num)).2 (Value.other 0) ⟨32, 8⟩ 3 rfl rfl
      (by decide) (by decide)).1,
    ((peephole_rewrites_preserve_value 32 100 (fun _ => 5) (fun _ => 5) (by decide)
      (fun _ => by norm_num) (fun _ => by norm_num)).2 (Value.other 0) ⟨32, 8⟩ 3 rfl rfl
      (by decide) (by decide)).2.2.1⟩

/-! ## The driver of the peephole pass -/

/-- The result of `runOnBasicBlock`, when it returns, is true. -/
theorem runOnBasicBlock_true (st st2 : PassState) (BB : Nat) (b : Bool)
    (h : runOnBasicBlock st BB = some (st2, b)) : b = true := by
  unfold runOnBasicBlock at h
  split at h
  · exact absurd h (by simp)
  · simp only [Option.some.injEq, Prod.mk.injEq] at h
    exact h.2.symm

/-- The loop of `runOnFunction` keeps a true value of `Transformed`. -/
theorem runOnFunctionLoop_true (l : List Nat) :
    ∀ (st st2 : PassState) (b : Bool), runOnFunctionLoop st true l = some (st2, b) → b = true := by
  induction l with
  | nil =>
    intro st st2 b h
    simp only [runOnFunctionLoop, Option.some.injEq, Prod.mk.injEq] at h
    exact h.2.symm
  | cons BB rest ih =>
    intro st st2 b h
    unfold runOnFunctionLoop at h
    split at h
    · exact absurd h (by simp)
    · exact ih _ _ _ h
    · exact ih _ _ _ h

/-- The result of `runOnFunction` on a function with a block, when it returns,
is true. -/
theorem runOnFunction_true (st st2 : PassState) (BB : Nat) (rest : List Nat) (b : Bool)
    (h : runOnFunction st (BB :: rest) = some (st2, b)) : b = true := by
  unfold runOnFunction runOnFunctionLoop at h
  split at h
  · exact absurd h (by simp)
  · exact runOnFunctionLoop_true rest _ _ _ h
  · rename_i st3 hb
    exact absurd (runOnBasicBlock_true _ _ _ _ hb) (by simp)

/-- The loop of `LocalOpts::run` at a function with a block: the run is
`runOnFunction` on that function, and the functions after it are not read. -/
theorem runLoop_cons (st : PassState) (BB : Nat) (rest : List Nat) (Fs : List (List Nat)) :
    runLoop st ((BB :: rest) :: Fs) =
      (runOnFunction st (BB :: rest)).map fun r => (r.1, PreservedAnalyses.none) := by
  unfold runLoop
  cases h : runOnFunction st (BB :: rest) with
  | none => rfl
  | some r =>
    obtain ⟨st2, b⟩ := r
    have hb := runOnFunction_true st st2 BB rest b h
    subst hb
    rfl

/-- Claim C21 fails on the code.  `LocalOpts::run` at a function with a block
returns what `runOnFunction` leaves on that function, with
`PreservedAnalyses::none()`, whatever functions follow it in the module.  In
the example module with the functions `f` and `g`, one block each, the run
prints the two instructions of `f`, replaces `x + 0` by `x` there and
returns: the block of `f` is visited, the block of `g` is not, and `g`
still holds `y * 1`, which `runOnBasicBlock` on the block of `g` removes. -/
theorem run_returns_after_first_function :
    (∀ (st : PassState) (BB : Nat) (rest : List Nat) (Fs : List (List Nat)),
      runLoop st ((BB :: rest) :: Fs) =
        (runOnFunction st (BB :: rest)).map fun r => (r.1, PreservedAnalyses.none)) ∧
    (run twoFunctionsM).map (fun r => (r.2, r.1.outs, r.1.M.block 0, r.1.M.block 1)) =
      some (PreservedAnalyses.none, [0, 1], [1], [2, 3]) ∧
    (run twoFunctionsM).map (fun r => (r.1.M.inst 1, r.1.M.inst 2, r.1.M.inst 3)) =
      some (⟨Opcode.Ret, [Value.other 0]⟩,
        ⟨Opcode.Mul, [Value.other 1, Value.constantInt ⟨32, 1⟩]⟩,
        ⟨Opcode.Ret, [Value.instruction 2]⟩) ∧
    (run twoFunctionsM).map (fun r => (visited r.1 twoFunctionsM 0, visited r.1 twoFunctionsM 1)) =
      some (true, false) ∧
    (runOnBasicBlock ⟨twoFunctionsM, []⟩ 1).map
        (fun r => (r.2, r.1.outs, r.1.M.block 1, r.1.M.inst 3)) =
      some (true, [2, 3], [3], ⟨Opcode.Ret, [Value.other 1]⟩) :=
  ⟨runLoop_cons, by decide, by decide, by decide, by decide⟩

/-- Claim C14 fails on the code: the rewrite of one instruction by
`strengthReduction` does not always keep its value.  The 8 bit division
`x sdiv 4` is rewritten into `x lshr 2`; for `x = -8` (248) the quotient is
-2 (254) and the shift is 62.  The pass commits this rewrite: on the example
module it replaces the division by the shift and returns the shift. -/
theorem strengthReduction_rewrite_changes_value :
    algebraicIdentity ⟨Opcode.SDiv, [Value.other 0, Value.constantInt ⟨8, 4⟩]⟩ =
      Outcome.unchanged ∧
    strengthReduction ⟨Opcode.SDiv, [Value.other 0, Value.constantInt ⟨8, 4⟩]⟩ 2 =
      Outcome.rewritten
        ⟨[⟨Opcode.LShr, [Value.other 0, Value.constantInt ⟨8, 2⟩]⟩], Value.instruction 2⟩ ∧
    evalInstruction 8 (fun _ => 0) (fun _ => 248)
      ⟨Opcode.SDiv, [Value.other 0, Value.constantInt ⟨8, 4⟩]⟩ = some 254 ∧
    (strengthReduction ⟨Opcode.SDiv, [Value.other 0, Value.constantInt ⟨8, 4⟩]⟩ 2).value 8
      (fun _ => 0) (fun _ => 248) 2 = some 62 ∧
    (run sdivM).map (fun r => (r.2, r.1.M.block 0, r.1.M.inst 1, r.1.M.inst 2)) =
      some (PreservedAnalyses.none, [2, 1], ⟨Opcode.Ret, [Value.instruction 2]⟩,
        ⟨Opcode.LShr, [Value.other 0, Value.constantInt ⟨8, 2⟩]⟩) := by
  decide

end LocalOpts
